import Mathlib

/-!
# Lookup and reference functions of formulajs (`src/src/lookup-reference.js`)

A shallow embedding of the search engine behind `MATCH`, `LOOKUP`, `VLOOKUP`, `XLOOKUP`
and `XMATCH`, and of `UNIQUE`:
the JavaScript values the functions receive, the three comparators, and the
linear and binary searches, followed by theorems about them.

Modelling conventions.

* A JavaScript number is modelled as an integer (finite, not `NaN`).
* A JavaScript string is a `String`; `<` on strings is the lexicographic order
  of the character codes.
* `while` loops are run with a fuel counter; a loop that uses up its fuel
  yields `none`. Every public function supplies `length + 1` units.
* Array indices are assumed to stay below `2 ^ 30`, so that `(low + up) >> 1`
  is the floor of the half.
-/

namespace Formulajs

/-! ## Values -/

/-- A JavaScript value that can sit in a cell or be passed as a key: a number,
a string, a boolean, `null` (a blank cell), `undefined`, or one of the error
objects of `utils/error.js` (one object per message). -/
inductive Value where
  | number (n : Int)
  | text (s : String)
  | boolean (b : Bool)
  | blank
  | undefined
  | error (message : String)
  deriving DecidableEq, Repr

/-- The results of the JavaScript `typeof` operator that occur for a `Value`. -/
inductive JsType where
  | number
  | string
  | boolean
  | object
  | undefined
  deriving DecidableEq, Repr

/-- JavaScript `typeof v`. -/
def typeOf : Value → JsType
  | .number _ => .number
  | .text _ => .string
  | .boolean _ => .boolean
  | .blank => .object
  | .error _ => .object
  | .undefined => .undefined

/-- JavaScript `s.toLowerCase()`, on the letters `A` to `Z`. -/
def toLowerCase (s : String) : String :=
  String.mk (s.data.map Char.toLower)

/-- The idiom `typeof v === 'string' ? v.toLowerCase() : v`. -/
def lowerValue : Value → Value
  | .text s => .text (toLowerCase s)
  | v => v

/-- JavaScript `s < t` on two strings. -/
def stringLt (s t : String) : Bool :=
  decide (s.data < t.data)

/-- The string an error object converts to when it is compared with `<`. -/
def errorString (message : String) : String :=
  if message = "" then "Error" else "Error: " ++ message

/-- JavaScript `ToNumber` on the values that are not strings; `none` is `NaN`.
The code never compares a string with a value of another type through `<`, so
the conversion of text is left out (`none`). -/
def toNumber : Value → Option Int
  | .number n => some n
  | .boolean b => some (if b then 1 else 0)
  | .blank => some 0
  | .undefined => none
  | .error _ => none
  | .text _ => none

/-- JavaScript `a < b`: two strings (an error object converts to its string)
are compared as strings, anything else as numbers, and `NaN` is below nothing. -/
def jsLt (a b : Value) : Bool :=
  match a, b with
  | .text s, .text t => stringLt s t
  | .error m, .error n => stringLt (errorString m) (errorString n)
  | .text s, .error n => stringLt s (errorString n)
  | .error m, .text t => stringLt (errorString m) t
  | a, b =>
    match toNumber a, toNumber b with
    | some x, some y => decide (x < y)
    | _, _ => false

/-- JavaScript `a > b`. -/
def jsGt (a b : Value) : Bool := jsLt b a

/-- JavaScript `a <= b`, which is `!(b < a)` unless an operand is `NaN`. -/
def jsLe (a b : Value) : Bool :=
  match a, b with
  | .text s, .text t => !stringLt t s
  | .error m, .error n => !stringLt (errorString n) (errorString m)
  | .text s, .error n => !stringLt (errorString n) s
  | .error m, .text t => !stringLt t (errorString m)
  | a, b =>
    match toNumber a, toNumber b with
    | some x, some y => decide (x ≤ y)
    | _, _ => false

/-- JavaScript `a >= b`. -/
def jsGe (a b : Value) : Bool := jsLe b a

/-- JavaScript `arr[i]`: `undefined` outside the array. -/
def jsGet (arr : List Value) (i : Int) : Value :=
  if i < 0 then .undefined else arr.getD i.toNat .undefined

/-- The error objects of `utils/error.js` used by the lookup functions. -/
def error.na : Value := .error "#N/A"

/-- The `#VALUE!` error object. -/
def error.value : Value := .error "#VALUE!"

/-- The `#REF!` error object. -/
def error.ref : Value := .error "#REF!"

/-- The `#NUM!` error object. -/
def error.num : Value := .error "#NUM!"

/-- How a call can fail to produce a value: it throws a `TypeError`, or a loop
of the model uses up its fuel. -/
inductive Abort where
  | typeError
  | outOfFuel
  deriving DecidableEq, Repr

deriving instance DecidableEq for Except

/-! ## approximateBinarySearch -/

/-- The inner loop of `approximateBinarySearch`:
`while (middle <= end && valueType !== typeof lookupArray[middle]) middle++`.
The first argument bounds the number of steps by `end + 1 - middle`. -/
def approximateBinarySearch.skip (valueType : JsType) (lookupArray : List Value) :
    Nat → Int → Int → Int
  | 0, middle, _ => middle
  | n + 1, middle, end_ =>
    if middle ≤ end_ ∧ valueType ≠ typeOf (jsGet lookupArray middle) then
      approximateBinarySearch.skip valueType lookupArray n (middle + 1) end_
    else middle

/-- The outer loop of `approximateBinarySearch`, with its state `start`, `end`
and `highestValidValue` (`null` is `Value.blank`). -/
def approximateBinarySearch.loop (valueType : JsType) (lookupValue : Value)
    (lookupArray : List Value) : Nat → Int → Int → Value → Option Value
  | 0, _, _, _ => none
  | fuel + 1, start, end_, highestValidValue =>
    if end_ ≥ start then
      let middle0 := start + Int.tdiv (end_ - start) 2
      let middle :=
        approximateBinarySearch.skip valueType lookupArray (end_ + 1 - middle0).toNat middle0 end_
      if middle > end_ then
        approximateBinarySearch.loop valueType lookupValue lookupArray fuel start
          (start + Int.tdiv (end_ - start) 2 - 1) highestValidValue
      else if middle < start then
        some highestValidValue
      else
        let comparisonValue := lowerValue (jsGet lookupArray middle)
        if jsGt lookupValue comparisonValue then
          approximateBinarySearch.loop valueType lookupValue lookupArray fuel (middle + 1) end_
            (.number middle)
        else if jsLt lookupValue comparisonValue then
          approximateBinarySearch.loop valueType lookupValue lookupArray fuel start (middle - 1)
            highestValidValue
        else some (.number middle)
    else some highestValidValue

/-- The function `approximateBinarySearch(lookupValue, lookupArray)`: the index
found, or `null`. -/
def approximateBinarySearch (lookupValue : Value) (lookupArray : List Value) : Option Value :=
  approximateBinarySearch.loop (typeOf lookupValue) (lowerValue lookupValue) lookupArray
    (lookupArray.length + 1) 0 ((lookupArray.length : Int) - 1) .blank

/-! ## The comparator of XLOOKUP -/

/-- The function `getTypePrecedence(value)`: number 0, string 1, boolean 2, `null` 4 and
every other value 3. -/
def getTypePrecedence : Value → Nat
  | .number _ => 0
  | .text _ => 1
  | .boolean _ => 2
  | .blank => 4
  | .undefined => 3
  | .error _ => 3

/-- The function `compare(value1, value2)`: `-1`, `0` or `1`. Only `value2` is lower-cased;
the callers lower-case `value1`. -/
def compare (value1 value2 : Value) : Int :=
  let typePrecedence1 := getTypePrecedence value1
  let typePrecedence2 := getTypePrecedence value2
  if typePrecedence1 ≠ typePrecedence2 then
    if typePrecedence1 < typePrecedence2 then -1 else 1
  else
    let value2 := lowerValue value2
    if value1 = value2 then 0
    else if jsLt value1 value2 then -1 else 1

/-! ## The binary searches of XLOOKUP -/

/-- The inner loop of `xLookupBinarySearch`:
`while (mid > 0 && compare(target, arr[mid - 1]) === 0) mid--`, on a `mid` that is a natural
number: inside the outer loop `0 <= left <= mid`. -/
def xLookupBinarySearch.walk (target : Value) (arr : List Value) : Nat → Nat
  | 0 => 0
  | m + 1 =>
    if compare target (jsGet arr m) = 0 then xLookupBinarySearch.walk target arr m else m + 1

/-- How a binary-search loop of XLOOKUP ends: with a `return` from inside the
loop, or by leaving the loop with the final `left` and `right`. -/
inductive LoopEnd where
  | returned (mid : Value)
  | exited (left right : Int)
  deriving DecidableEq, Repr

/-- The `while (left <= right)` loop of `xLookupBinarySearch`. -/
def xLookupBinarySearch.loop (target : Value) (arr : List Value) :
    Nat → Int → Int → Option LoopEnd
  | 0, _, _ => none
  | fuel + 1, left, right =>
    if left ≤ right then
      let mid := (left + right) / 2
      let comparisonResult := compare target (jsGet arr mid)
      if comparisonResult = 0 then
        some (.returned (.number (xLookupBinarySearch.walk target arr mid.toNat)))
      else
        let changeLeft := comparisonResult > 0
        if changeLeft then xLookupBinarySearch.loop target arr fuel (mid + 1) right
        else xLookupBinarySearch.loop target arr fuel left (mid - 1)
    else some (.exited left right)

/-- The function `xLookupBinarySearch(target, arr, match_mode)`: an index or `null`. -/
def xLookupBinarySearch (target : Value) (arr : List Value) (match_mode : Int) : Option Value :=
  let target := lowerValue target
  match xLookupBinarySearch.loop target arr (arr.length + 1) 0 ((arr.length : Int) - 1) with
  | none => none
  | some (.returned mid) => some mid
  | some (.exited left right) =>
    if match_mode = 0 then some .blank
    else if match_mode = -1 then
      if right < 0 then some .blank
      else
        let comparisonResult := compare target (jsGet arr right)
        if comparisonResult > 0 then some (.number right)
        else some (if right > 0 then .number (right - 1) else .blank)
    else if left ≥ arr.length then some .blank
    else
      let comparisonResult := compare target (jsGet arr left)
      if comparisonResult < 0 then some (.number left)
      else some (if left < (arr.length : Int) - 1 then .number (left + 1) else .blank)

/-- The inner loop of `invertedXLookupBinarySearch`:
`while (mid < arr.length - 1 && compare(target, arr[mid + 1]) === 0) mid++`.
The first argument bounds the number of steps by `arr.length - 1 - mid`. -/
def invertedXLookupBinarySearch.walk (target : Value) (arr : List Value) : Nat → Int → Int
  | 0, mid => mid
  | n + 1, mid =>
    if mid < (arr.length : Int) - 1 ∧ compare target (jsGet arr (mid + 1)) = 0 then
      invertedXLookupBinarySearch.walk target arr n (mid + 1)
    else mid

/-- The `while (left <= right)` loop of `invertedXLookupBinarySearch`. -/
def invertedXLookupBinarySearch.loop (target : Value) (arr : List Value) :
    Nat → Int → Int → Option LoopEnd
  | 0, _, _ => none
  | fuel + 1, left, right =>
    if left ≤ right then
      let mid := (left + right) / 2
      let comparisonResult := compare target (jsGet arr mid)
      if comparisonResult = 0 then
        some (.returned (.number
          (invertedXLookupBinarySearch.walk target arr ((arr.length : Int) - 1 - mid).toNat mid)))
      else
        let changeLeft := comparisonResult < 0
        if changeLeft then invertedXLookupBinarySearch.loop target arr fuel (mid + 1) right
        else invertedXLookupBinarySearch.loop target arr fuel left (mid - 1)
    else some (.exited left right)

/-- The function `invertedXLookupBinarySearch(target, arr, match_mode)`: an index or `null`. -/
def invertedXLookupBinarySearch (target : Value) (arr : List Value) (match_mode : Int) :
    Option Value :=
  let target := lowerValue target
  match invertedXLookupBinarySearch.loop target arr (arr.length + 1) 0
      ((arr.length : Int) - 1) with
  | none => none
  | some (.returned mid) => some mid
  | some (.exited left right) =>
    if match_mode = 0 then some .blank
    else if match_mode = -1 then
      if left ≥ arr.length then some .blank
      else
        let comparisonResult := compare target (jsGet arr left)
        if comparisonResult > 0 then some (.number left)
        else some (if left > 0 then .number (left - 1) else .blank)
    else if right < 0 then some .blank
    else
      let comparisonResult := compare target (jsGet arr right)
      if comparisonResult < 0 then some (.number right)
      else some (if right < (arr.length : Int) - 1 then .number (right + 1) else .blank)

/-! ## The linear scan of XLOOKUP -/

/-- Modelled from the spec: `stringCompare(text, pattern)` of `utils/criteria-eval.js`, which
is not among the sources. The spec describes it as the wildcard predicate: `*` stands for any
run of characters, `?` for any single character, and `~` escapes a following `*`, `?` or `~`.
The pattern comes first here. -/
def wildcardMatch : List Char → List Char → Bool
  | [], text => text.isEmpty
  | '~' :: c :: pattern, text =>
    if c = '*' ∨ c = '?' ∨ c = '~' then
      match text with
      | [] => false
      | t :: rest => t = c && wildcardMatch pattern rest
    else
      match text with
      | [] => false
      | t :: rest => t = '~' && wildcardMatch (c :: pattern) rest
  | '*' :: pattern, text => text.tails.any (fun rest => wildcardMatch pattern rest)
  | '?' :: pattern, text =>
    match text with
    | [] => false
    | _ :: rest => wildcardMatch pattern rest
  | c :: pattern, text =>
    match text with
    | [] => false
    | t :: rest => t = c && wildcardMatch pattern rest

/-- Modelled from the spec: `evalExpression.stringCompare(text, pattern)`, see
`wildcardMatch`. -/
def stringCompare (text pattern : String) : Bool :=
  wildcardMatch pattern.data text.data

/-- The indices `for (let i = startIndex; i !== endIndex; i += step)` of `lookupIndex` visits,
in the order of the visit. -/
def lookupIndex.order (arrLength : Nat) (reverse : Bool) : List Nat :=
  if reverse then (List.range arrLength).reverse else List.range arrLength

/-- The loop of `lookupIndex` for `match_mode === 0`; falling out of it returns `undefined`. -/
def lookupIndex.exact (value : Value) (lookup_array : List Value) : List Nat → Value
  | [] => .undefined
  | i :: rest =>
    if compare value (jsGet lookup_array i) = 0 then .number i
    else lookupIndex.exact value lookup_array rest

/-- The loop of `lookupIndex` for `match_mode === -1`, with its state `closest_smaller` and
`closest_smaller_pos`. -/
def lookupIndex.smaller (value : Value) (lookup_array : List Value) :
    List Nat → Value → Value → Value
  | [], _, closest_smaller_pos => closest_smaller_pos
  | i :: rest, closest_smaller, closest_smaller_pos =>
    let current := jsGet lookup_array i
    let comparisonResult := compare value current
    if comparisonResult = 0 then .number i
    else if comparisonResult > 0 ∧
        (typeOf closest_smaller = .undefined ∨ compare closest_smaller current < 0) then
      lookupIndex.smaller value lookup_array rest (lowerValue current) (.number i)
    else lookupIndex.smaller value lookup_array rest closest_smaller closest_smaller_pos

/-- The loop of `lookupIndex` for `match_mode === 1`, with its state `closest_larger` and
`closest_larger_pos`. -/
def lookupIndex.larger (value : Value) (lookup_array : List Value) :
    List Nat → Value → Value → Value
  | [], _, closest_larger_pos => closest_larger_pos
  | i :: rest, closest_larger, closest_larger_pos =>
    let current := jsGet lookup_array i
    let comparisonResult := compare value current
    if comparisonResult = 0 then .number i
    else if comparisonResult < 0 ∧
        (typeOf closest_larger = .undefined ∨ compare closest_larger current > 0) then
      lookupIndex.larger value lookup_array rest (lowerValue current) (.number i)
    else lookupIndex.larger value lookup_array rest closest_larger closest_larger_pos

/-- The test the two loops of `lookupIndex` for `match_mode === 2` apply to an element `x`:
`x === value` when the key is not a string, and `typeof x === 'string' &&
stringCompare(x.toLowerCase(), value.toLowerCase())` when it is. -/
def lookupIndex.wildcardTest (value x : Value) : Bool :=
  match value with
  | .text s =>
    match x with
    | .text t => stringCompare (toLowerCase t) (toLowerCase s)
    | _ => false
  | _ => decide (x = value)

/-- The loops of `lookupIndex` for `match_mode === 2`; falling out of them returns
`undefined`. -/
def lookupIndex.wildcard (value : Value) (lookup_array : List Value) : List Nat → Value
  | [] => .undefined
  | i :: rest =>
    if lookupIndex.wildcardTest value (jsGet lookup_array i) then .number i
    else lookupIndex.wildcard value lookup_array rest

/-- The function `lookupIndex(value, lookup_array, match_mode, reverse)`: an index, or a value
that is not a number (`undefined` or `false`). -/
def lookupIndex (value : Value) (lookup_array : List Value) (match_mode : Int) (reverse : Bool) :
    Value :=
  let order := lookupIndex.order lookup_array.length reverse
  let value := lowerValue value
  if match_mode = 0 then lookupIndex.exact value lookup_array order
  else if match_mode = -1 then
    lookupIndex.smaller value lookup_array order .undefined (.boolean false)
  else if match_mode = 1 then
    lookupIndex.larger value lookup_array order .undefined (.boolean false)
  else if match_mode = 2 then lookupIndex.wildcard value lookup_array order
  else .undefined

/-- The table `xLookupSearchFunctions[search_mode]` applied to its three arguments. -/
def xLookupSearchFunctions (search_mode : Int) (value : Value) (arr : List Value)
    (match_mode : Int) : Option Value :=
  if search_mode = 2 then xLookupBinarySearch value arr match_mode
  else if search_mode = -2 then invertedXLookupBinarySearch value arr match_mode
  else if search_mode = 1 then some (lookupIndex value arr match_mode false)
  else some (lookupIndex value arr match_mode true)

/-! ## XLOOKUP -/

/-- An argument or a result of XLOOKUP and XMATCH: one value, or a range given as an array
of rows. -/
inductive Arg where
  | single (v : Value)
  | range (rows : List (List Value))
  deriving DecidableEq, Repr

/-- The results of `utils.getVariableType`. -/
inductive VariableType where
  | single
  | line
  | column
  | matrix
  deriving DecidableEq, Repr

/-- Modelled from the spec: `utils.getVariableType` of `utils/common.js`, which is not among
the sources. A value that is not an array is `single`; a range of one row is a `line`, a
range whose rows all have one cell is a `column`, and any other range is a `matrix`. -/
def getVariableType : Arg → VariableType
  | .single _ => .single
  | .range rows =>
    if rows.length = 1 then .line
    else if rows.all (fun row => row.length = 1) then .column
    else .matrix

/-- Modelled from the spec: `utils.flatten` of `utils/common.js` on a range, the cells row
by row. -/
def flatten (rows : List (List Value)) : List Value := rows.flatten

/-- Modelled from the spec: `utils.getColumnAsMatrix(array, p)` of `utils/common.js`, the
cells at position `p` of every row, one row each. -/
def getColumnAsMatrix (rows : List (List Value)) (p : Int) : List (List Value) :=
  rows.map (fun row => [jsGet row p])

/-- The test `Array.isArray(return_array) && return_array.length > 1 &&
return_array[0].length > 1`. -/
def isProperMatrix : Arg → Bool
  | .single _ => false
  | .range rows =>
    decide (rows.length > 1) &&
      (match rows.head? with
       | some row => decide (row.length > 1)
       | none => false)

/-- Modelled from the spec: `utils.anyError` of `utils/common.js`, which is not among the
sources. Its tests (`test/utils/common.js`) fix it as the first of its arguments that is an
error object, and `undefined` (here `none`) when there is none. -/
def anyError : List Arg → Option Value
  | [] => none
  | .single (.error m) :: _ => some (.error m)
  | _ :: rest => anyError rest

/-- The value XLOOKUP produces for one element of a key range: the body of its double loop. -/
def XLOOKUP.item (lookup_arrayType : VariableType) (flattened : List Value)
    (return_array : Arg) (if_not_found : Option Arg) (match_mode search_mode : Int)
    (key : Value) : Except Abort Value :=
  if lookup_arrayType = .single ∧ isProperMatrix return_array then .ok error.value
  else
    match xLookupSearchFunctions search_mode key flattened match_mode with
    | none => .error .outOfFuel
    | some (.number p) =>
      match return_array with
      | .single v => if lookup_arrayType = .single then .ok v else .error .typeError
      | .range rows =>
        if lookup_arrayType = .line then
          match rows.head? with
          | some row => .ok (jsGet row p)
          | none => .error .typeError
        else if lookup_arrayType = .column then
          if 0 ≤ p ∧ p < rows.length then .ok (jsGet (rows.getD p.toNat []) 0)
          else .error .typeError
        else
          match rows.head? with
          | some row => .ok (jsGet row 0)
          | none => .error .typeError
    | some _ =>
      match if_not_found with
      | none => .ok error.na
      | some (.single .undefined) => .ok error.na
      | some (.single v) => .ok v
      | some (.range rows) =>
        match rows.head? with
        | some row => .ok (jsGet row 0)
        | none => .error .typeError

/-- The part of XLOOKUP after the validation of the arrays: the search for a single key, or
for every element of a key range, and the mapping of the index found into `return_array`. -/
def XLOOKUP.search (return_array : Arg) (if_not_found : Option Arg) (match_mode search_mode : Int)
    (lookup_value : Arg) (lookup_arrayType : VariableType) (flattened : List Value) :
    Except Abort Arg :=
  match lookup_value with
  | .single key =>
    match xLookupSearchFunctions search_mode key flattened match_mode with
    | none => .error .outOfFuel
    | some (.number p) =>
      if lookup_arrayType = .single then
        if isProperMatrix return_array then .ok (.single error.value) else .ok return_array
      else
        match return_array with
        | .single _ => .error .typeError
        | .range returnRows =>
          if lookup_arrayType = .line then
            let result := getColumnAsMatrix returnRows p
            match result with
            | [row] => .ok (.single (jsGet row 0))
            | _ => .ok (.range result)
          else if 0 ≤ p ∧ p < returnRows.length then
            let row := returnRows.getD p.toNat []
            if row.length = 1 then .ok (.single (jsGet row 0)) else .ok (.range [row])
          else .error .typeError
    | some _ =>
      match if_not_found with
      | none => .ok (.single error.na)
      | some (.single .undefined) => .ok (.single error.na)
      | some fallback => .ok fallback
  | .range keyRows =>
    match keyRows.head? with
    | none => .error .typeError
    | some firstRow =>
      match keyRows.mapM (fun row =>
          (List.range firstRow.length).mapM (fun j =>
            XLOOKUP.item lookup_arrayType flattened return_array if_not_found
              match_mode search_mode (jsGet row j))) with
      | .ok result => .ok (.range result)
      | .error e => .error e

/-- The function `XLOOKUP(lookup_value, lookup_array, return_array, if_not_found,
match_mode, search_mode)`. An omitted `if_not_found` is `none`, one passed as `undefined` is
`some (.single .undefined)` and is treated alike by `typeof if_not_found !== 'undefined'`,
and the modes are numbers, which `utils.parseNumber` leaves as they are. The test `utils.anyIsUndefined` is read as
"one of the three arguments is `undefined`". -/
def XLOOKUP (lookup_value lookup_array return_array : Arg) (if_not_found : Option Arg)
    (match_mode search_mode : Int) : Except Abort Arg :=
  if lookup_value = .single .undefined ∨ lookup_array = .single .undefined ∨
      return_array = .single .undefined then .ok (.single error.na)
  else
    match anyError [lookup_value, lookup_array, return_array] with
    | some e => .ok (.single e)
    | none =>
      if match_mode ∉ [-1, 0, 1, 2] ∨ search_mode ∉ [-2, -1, 1, 2] then
        .ok (.single error.value)
      else if match_mode = 2 ∧ (search_mode = 2 ∨ search_mode = -2) then
        .ok (.single error.value)
      else
        let lookup_arrayType := getVariableType lookup_array
        match lookup_array with
        | .single v =>
          XLOOKUP.search return_array if_not_found match_mode search_mode lookup_value
            lookup_arrayType [v]
        | .range lookupRows =>
          if lookup_arrayType = .matrix then .ok (.single error.value)
          else
            match return_array with
            | .single _ => .ok (.single error.value)
            | .range returnRows =>
              if lookup_arrayType = .line then
                match returnRows.head?, lookupRows.head? with
                | some returnRow, some lookupRow =>
                  if returnRow.length ≠ lookupRow.length then .ok (.single error.value)
                  else
                    XLOOKUP.search return_array if_not_found match_mode search_mode lookup_value
                      lookup_arrayType (flatten lookupRows)
                | _, _ => .error .typeError
              else if returnRows.length ≠ lookupRows.length then .ok (.single error.value)
              else
                XLOOKUP.search return_array if_not_found match_mode search_mode lookup_value
                  lookup_arrayType (flatten lookupRows)

/-! ## The comparator of XMATCH -/

/-- The method `excelTypesComparator(valueA).isLessThan(v)`. -/
def excelTypesComparator.isLessThan (valueA v : Value) : Bool :=
  match typeOf valueA with
  | .boolean => if typeOf v ≠ .boolean then false else jsLt valueA v
  | .string =>
    if typeOf v = .boolean then true
    else if typeOf v ≠ .string then false
    else jsLt valueA v
  | _ => if typeOf v = .boolean ∨ typeOf v = .string then true else jsLt valueA v

/-- The method `excelTypesComparator(valueA).isLessOrEqualThan(v)`. -/
def excelTypesComparator.isLessOrEqualThan (valueA v : Value) : Bool :=
  match typeOf valueA with
  | .boolean => if typeOf v ≠ .boolean then false else jsLe valueA v
  | .string =>
    if typeOf v = .boolean then true
    else if typeOf v ≠ .string then false
    else jsLe valueA v
  | _ => if typeOf v = .boolean ∨ typeOf v = .string then true else jsLe valueA v

/-- The method `excelTypesComparator(valueA).isGreaterThan(v)`. -/
def excelTypesComparator.isGreaterThan (valueA v : Value) : Bool :=
  match typeOf valueA with
  | .boolean => if typeOf v ≠ .boolean then true else jsGt valueA v
  | .string =>
    if typeOf v = .boolean then false
    else if typeOf v ≠ .string then true
    else jsGt valueA v
  | _ => if typeOf v = .boolean ∨ typeOf v = .string then false else jsGt valueA v

/-- The method `excelTypesComparator(valueA).isGreaterOrEqualThan(v)`. -/
def excelTypesComparator.isGreaterOrEqualThan (valueA v : Value) : Bool :=
  match typeOf valueA with
  | .boolean => if typeOf v ≠ .boolean then true else jsGe valueA v
  | .string =>
    if typeOf v = .boolean then false
    else if typeOf v ≠ .string then true
    else jsGe valueA v
  | _ => if typeOf v = .boolean ∨ typeOf v = .string then false else jsGe valueA v

/-- The method `excelTypesComparator(valueA).isEqualsTo(v)`, which is `valueA === v`. -/
def excelTypesComparator.isEqualsTo (valueA v : Value) : Bool :=
  decide (valueA = v)

/-! ## The binary search of XMATCH -/

/-- The loop of `xmatchCustomBinarySearch` with its state `low`, `up`, `lastMatch` and
`exactMatch` (`none` is `undefined`), followed by the choice of `referenceIndex`. For a pair
of modes outside the six the loop handles, no branch changes `low` or `up`. -/
def xmatchCustomBinarySearch.loop (lookupValue : Value) (lookupArray : List Value)
    (match_mode search_mode : Int) : Nat → Int → Int → Option Int → Option Int → Option Int
  | 0, _, _, _, _ => none
  | fuel + 1, low, up, lastMatch, exactMatch =>
    if low ≤ up then
      let mid := (low + up) / 2
      let isEqual := jsGet lookupArray mid = lookupValue
      let isLess := excelTypesComparator.isLessThan (jsGet lookupArray mid) lookupValue
      if match_mode = 0 ∧ search_mode = 2 then
        if isEqual then
          xmatchCustomBinarySearch.loop lookupValue lookupArray match_mode search_mode fuel
            low (mid - 1) lastMatch (some mid)
        else if isLess then
          xmatchCustomBinarySearch.loop lookupValue lookupArray match_mode search_mode fuel
            (mid + 1) up lastMatch exactMatch
        else
          xmatchCustomBinarySearch.loop lookupValue lookupArray match_mode search_mode fuel
            low (mid - 1) lastMatch exactMatch
      else if match_mode = 0 ∧ search_mode = -2 then
        if isEqual then
          xmatchCustomBinarySearch.loop lookupValue lookupArray match_mode search_mode fuel
            (mid + 1) up lastMatch (some mid)
        else if isLess then
          xmatchCustomBinarySearch.loop lookupValue lookupArray match_mode search_mode fuel
            low (mid - 1) lastMatch exactMatch
        else
          xmatchCustomBinarySearch.loop lookupValue lookupArray match_mode search_mode fuel
            (mid + 1) up lastMatch exactMatch
      else if match_mode = 1 ∧ search_mode = 2 then
        if isEqual then
          xmatchCustomBinarySearch.loop lookupValue lookupArray match_mode search_mode fuel
            low (mid - 1) lastMatch (some mid)
        else if isLess then
          xmatchCustomBinarySearch.loop lookupValue lookupArray match_mode search_mode fuel
            (mid + 1) up lastMatch exactMatch
        else
          xmatchCustomBinarySearch.loop lookupValue lookupArray match_mode search_mode fuel
            low (mid - 1) (some mid) exactMatch
      else if match_mode = -1 ∧ search_mode = 2 then
        if isEqual then
          xmatchCustomBinarySearch.loop lookupValue lookupArray match_mode search_mode fuel
            low (mid - 1) lastMatch (some mid)
        else if isLess then
          xmatchCustomBinarySearch.loop lookupValue lookupArray match_mode search_mode fuel
            (mid + 1) up (some mid) exactMatch
        else
          xmatchCustomBinarySearch.loop lookupValue lookupArray match_mode search_mode fuel
            low (mid - 1) lastMatch exactMatch
      else if match_mode = 1 ∧ search_mode = -2 then
        if isEqual then
          xmatchCustomBinarySearch.loop lookupValue lookupArray match_mode search_mode fuel
            (mid + 1) up lastMatch (some mid)
        else if isLess then
          xmatchCustomBinarySearch.loop lookupValue lookupArray match_mode search_mode fuel
            low (mid - 1) lastMatch exactMatch
        else
          xmatchCustomBinarySearch.loop lookupValue lookupArray match_mode search_mode fuel
            (mid + 1) up (some mid) exactMatch
      else if match_mode = -1 ∧ search_mode = -2 then
        if isEqual then
          xmatchCustomBinarySearch.loop lookupValue lookupArray match_mode search_mode fuel
            (mid + 1) up lastMatch (some mid)
        else if isLess then
          xmatchCustomBinarySearch.loop lookupValue lookupArray match_mode search_mode fuel
            low (mid - 1) (some mid) exactMatch
        else
          xmatchCustomBinarySearch.loop lookupValue lookupArray match_mode search_mode fuel
            (mid + 1) up lastMatch exactMatch
      else
        xmatchCustomBinarySearch.loop lookupValue lookupArray match_mode search_mode fuel
          low up lastMatch exactMatch
    else
      match exactMatch, lastMatch with
      | some e, _ => some e
      | none, some l => some l
      | none, none => some (-1)

/-- The function `xmatchCustomBinarySearch(lookupValue, lookupArray, match_mode,
search_mode)`: an index, or `-1`. -/
def xmatchCustomBinarySearch (lookupValue : Value) (lookupArray : List Value)
    (match_mode search_mode : Int) : Option Int :=
  xmatchCustomBinarySearch.loop lookupValue lookupArray match_mode search_mode
    (lookupArray.length + 1) 0 ((lookupArray.length : Int) - 1) none none

/-! ## XMATCH -/

/-- The function `checkMatchModeRules(value, searchKey)` inside XMATCH. -/
def XMATCH.checkMatchModeRules (match_mode : Int) (value searchKey : Value) : Bool :=
  if match_mode = 0 then excelTypesComparator.isEqualsTo value searchKey
  else if match_mode = 1 then excelTypesComparator.isGreaterOrEqualThan value searchKey
  else if match_mode = -1 then excelTypesComparator.isLessOrEqualThan value searchKey
  else false

/-- The comparison function XMATCH hands to `sort`, as the relation "does not come after":
the function returns `-1` or `0`. -/
def XMATCH.sortsBefore (a b : Value) : Prop :=
  excelTypesComparator.isLessThan a b = true ∨ excelTypesComparator.isGreaterThan a b = false

instance XMATCH.sortsBeforeDecidable : DecidableRel XMATCH.sortsBefore :=
  fun a b => by unfold XMATCH.sortsBefore; exact inferInstance

/-- The call `lookup_range.slice().sort(...)` of XMATCH: a stable sort by the comparison
function, with every `undefined` moved to the end as `Array.prototype.sort` does. -/
def XMATCH.sort (lookup_range : List Value) : List Value :=
  (lookup_range.filter (fun v => v ≠ .undefined)).insertionSort XMATCH.sortsBefore ++
    lookup_range.filter (fun v => v = .undefined)

/-- JavaScript `arr.indexOf(v)`: the first index of `v`, or `-1`. -/
def indexOf (arr : List Value) (v : Value) : Int :=
  match arr.indexOf? v with
  | some i => i
  | none => -1

/-- The function `XMATCH(searchKey, lookup_range, match_mode, search_mode)`; the modes are
numbers. -/
def XMATCH (searchKey : Value) (lookup_range : Arg) (match_mode search_mode : Int) :
    Except Abort Value :=
  let searchKey := if searchKey = .undefined then .blank else searchKey
  match lookup_range with
  | .single _ => .ok error.value
  | .range rows =>
    if getVariableType lookup_range = .matrix then .ok error.value
    else if match_mode ∉ [0, 1, -1] ∨ search_mode ∉ [1, -1, 2, -2] then .ok error.value
    else
      let lookup_range := rows.flatten
      let searchKey := lowerValue searchKey
      let lookup_range := lookup_range.map lowerValue
      if search_mode ∉ [2, -2] then
        let orderedList := XMATCH.sort lookup_range
        let orderedList :=
          if (match_mode = -1 ∧ search_mode ≠ -1) ∨ (match_mode = 1 ∧ search_mode = -1) then
            orderedList.reverse
          else orderedList
        let scanned := if search_mode = 1 then orderedList else orderedList.reverse
        match scanned.find? (fun v => XMATCH.checkMatchModeRules match_mode v searchKey) with
        | some v =>
          let findedIndex := indexOf lookup_range v
          if findedIndex ≥ 0 then .ok (.number (1 + findedIndex)) else .ok error.na
        | none => .ok error.na
      else
        match xmatchCustomBinarySearch searchKey lookup_range match_mode search_mode with
        | none => .error .outOfFuel
        | some findedIndex =>
          if findedIndex ≥ 0 then .ok (.number (1 + findedIndex)) else .ok error.na

/-! ## MATCH -/

/-- An array argument of the older lookup functions: a value that is not an array, a flat
array of values, or an array of rows. -/
inductive ArrayArg where
  | scalar (v : Value)
  | flat (cells : List Value)
  | nested (rows : List (List Value))
  deriving DecidableEq, Repr

/-- The test `lookup_array.length > 1 && lookup_array[0].length > 1` of MATCH. The `length`
of a string is its number of characters, a number, a boolean and an error object have none,
and reading it from `null` or `undefined` throws. -/
def MATCH.isMatrix : ArrayArg → Except Abort Bool
  | .scalar _ => .ok false
  | .flat cells =>
    if cells.length > 1 then
      match cells.head? with
      | some (.text s) => .ok (decide (s.length > 1))
      | some .blank => .error .typeError
      | some .undefined => .error .typeError
      | _ => .ok false
    else .ok false
  | .nested rows =>
    if rows.length > 1 then
      match rows.head? with
      | some row => .ok (decide (row.length > 1))
      | none => .ok false
    else .ok false

/-- Modelled from the spec: `utils.flatten` of `utils/common.js` on an array argument, its
values in order as one flat array. -/
def ArrayArg.flatten : ArrayArg → List Value
  | .scalar v => [v]
  | .flat cells => cells
  | .nested rows => rows.flatten

/-- The first loop of the `match_type === 0` branch of MATCH, for a key that is not a
string; the second argument is `index`. The result is the value MATCH returns. -/
def MATCH.exactValue (lookup_value : Value) : List Value → Nat → Value
  | [], _ => error.na
  | x :: rest, index =>
    if x = lookup_value then .number (index + 1)
    else MATCH.exactValue lookup_value rest (index + 1)

/-- The second loop of the `match_type === 0` branch of MATCH, for a string key. -/
def MATCH.exactText (lowerCaseLookupValue : String) : List Value → Nat → Value
  | [], _ => error.na
  | x :: rest, index =>
    match x with
    | .text s =>
      if stringCompare (toLowerCase s) lowerCaseLookupValue then .number (index + 1)
      else MATCH.exactText lowerCaseLookupValue rest (index + 1)
    | _ => MATCH.exactText lowerCaseLookupValue rest (index + 1)

/-- The last loop of MATCH (`match_type < 0`), with its state `i` and `lowestValidValue`,
followed by the final `return`. -/
def MATCH.descending (valueType : JsType) (lookup_value : Value) :
    List Value → Nat → Value → Value
  | [], _, lowestValidValue =>
    match lowestValidValue with
    | .number n => .number (n + 1)
    | _ => error.na
  | x :: rest, i, lowestValidValue =>
    if valueType ≠ typeOf x then MATCH.descending valueType lookup_value rest (i + 1) lowestValidValue
    else
      let comparisonValue := lowerValue x
      if jsGt lookup_value comparisonValue then
        match lowestValidValue with
        | .number n => .number (n + 1)
        | _ => error.na
      else if jsLt lookup_value comparisonValue then
        MATCH.descending valueType lookup_value rest (i + 1) (.number i)
      else .number (i + 1)

/-- The function `MATCH(lookup_value, lookup_array, match_type)`; `match_type` is a
number. -/
def MATCH (lookup_value : Value) (lookup_array : ArrayArg) (match_type : Int) :
    Except Abort Value :=
  match lookup_array with
  | .scalar _ => .ok error.na
  | _ =>
    match lookup_value with
    | .error m => .ok (.error m)
    | _ =>
      match MATCH.isMatrix lookup_array with
      | .error e => .error e
      | .ok true => .ok error.na
      | .ok false =>
        let lookup_array := lookup_array.flatten
        let lookup_value := if lookup_value = .blank then .number 0 else lookup_value
        if match_type > 0 then
          match approximateBinarySearch lookup_value lookup_array with
          | none => .error .outOfFuel
          | some (.number result) => .ok (.number (result + 1))
          | some _ => .ok error.na
        else if match_type = 0 then
          match lookup_value with
          | .text s => .ok (MATCH.exactText (toLowerCase s) lookup_array 0)
          | _ => .ok (MATCH.exactValue lookup_value lookup_array 0)
        else
          .ok (MATCH.descending (typeOf lookup_value) (lowerValue lookup_value) lookup_array 0
            .blank)

/-! ## VLOOKUP -/

/-- The table VLOOKUP works on: `table_array` itself, or `[[table_array]]` when the argument
is not an array. -/
def VLOOKUP.table : Arg → List (List Value)
  | .single v => [[v]]
  | .range rows => rows

/-- The loop of VLOOKUP for `range_lookup` false, with its state `resultRow` (`none` is
`undefined`): every row whose first cell is strictly equal to the key replaces it. -/
def VLOOKUP.exactRow (lookup_value : Value) :
    List (List Value) → Option (List Value) → Option (List Value)
  | [], resultRow => resultRow
  | row :: rest, resultRow =>
    if jsGet row 0 = lookup_value then VLOOKUP.exactRow lookup_value rest (some row)
    else VLOOKUP.exactRow lookup_value rest resultRow

/-- The variable `resultRow` of VLOOKUP after the search of the first column; the inner
`none` is `undefined`, the outer one a loop out of fuel. -/
def VLOOKUP.resultRow (lookup_value : Value) (table_array : List (List Value))
    (range_lookup : Bool) : Option (Option (List Value)) :=
  if range_lookup then
    let firstColumn := table_array.map (fun row => jsGet row 0)
    match approximateBinarySearch lookup_value firstColumn with
    | none => none
    | some (.number rowIndex) =>
      if rowIndex < 0 then some none else some table_array[rowIndex.toNat]?
    | some _ => some none
  else some (VLOOKUP.exactRow lookup_value table_array none)

/-- The function `VLOOKUP(lookup_value, table_array, col_index_num, range_lookup)`.
`col_index_num` is a number, which `utils.getNumber` leaves as it is, and `range_lookup` a
boolean, which `utils.parseBool` leaves as it is; an omitted `range_lookup` is `true`. -/
def VLOOKUP (lookup_value : Value) (table_array : Arg) (col_index_num : Int)
    (range_lookup : Bool) : Except Abort Value :=
  match lookup_value with
  | .error m => .ok (.error m)
  | _ =>
    let table_array := VLOOKUP.table table_array
    match VLOOKUP.resultRow lookup_value table_array range_lookup with
    | none => .error .outOfFuel
    | some none => .ok error.na
    | some (some resultRow) =>
      if col_index_num < 1 then .ok error.value
      else
        match table_array.head? with
        | none => .error .typeError
        | some firstRow =>
          if col_index_num > firstRow.length then .ok error.ref
          else .ok (jsGet resultRow (col_index_num - 1))

/-! ## LOOKUP -/

/-- The variable `array` of LOOKUP after `if (!Array.isArray(array)) array = [array]` and
`if (!Array.isArray(array[0])) array[0] = [array[0]]`: a value that is not an array becomes
`[[value]]`, an empty array becomes `[[undefined]]`, and an array of rows stays as it is. -/
def LOOKUP.array : Arg → List (List Value)
  | .single v => [[v]]
  | .range [] => [[.undefined]]
  | .range (row :: rest) => row :: rest

/-- The test `result_array.length > 1 && result_array[0].length > 1` of LOOKUP, made after
the first element of `result_array` has been wrapped in an array when it was not one: a flat
array then starts with an array of one element. -/
def LOOKUP.resultIsMatrix : ArrayArg → Bool
  | .scalar _ => false
  | .flat _ => false
  | .nested rows =>
    decide (rows.length > 1) &&
      (match rows.head? with
       | some row => decide (row.length > 1)
       | none => false)

/-- The variable `result_array` of LOOKUP after `utils.flatten`: a value `v` has become
`[[v]]`, an empty array `[[undefined]]`, a flat array `[[c0], c1, ...]`, and the flattening
gives the cells in order. -/
def LOOKUP.flattenResult : ArrayArg → List Value
  | .scalar v => [v]
  | .flat [] => [.undefined]
  | .flat (cell :: rest) => cell :: rest
  | .nested [] => [.undefined]
  | .nested (row :: rest) => flatten (row :: rest)

/-- The function `LOOKUP(lookup_value, array, result_array)`, for an `array` that is a value
or an array of rows; `none` is an omitted `result_array`, and so is `undefined`. -/
def LOOKUP (lookup_value : Value) (array : Arg) (result_array : Option Arg) :
    Except Abort Value :=
  match lookup_value with
  | .error m => .ok (.error m)
  | _ =>
    let array := LOOKUP.array array
    match array.head?, array.getLast? with
    | some firstRow, some lastRow =>
      let searchFirstRow := decide (firstRow.length > array.length)
      let result_array : ArrayArg :=
        match result_array with
        | some (.range rows) => .nested rows
        | some (.single .undefined) | none =>
          if searchFirstRow then .flat lastRow
          else .flat (array.map (fun row => jsGet row ((row.length : Int) - 1)))
        | some (.single v) => .scalar v
      let array := if searchFirstRow then firstRow else array.map (fun row => jsGet row 0)
      if LOOKUP.resultIsMatrix result_array then .ok error.na
      else
        let result_array := LOOKUP.flattenResult result_array
        match approximateBinarySearch lookup_value array with
        | none => .error .outOfFuel
        | some (.number index) =>
          if index ≥ result_array.length then .ok error.ref else .ok (jsGet result_array index)
        | some _ => .ok error.na
    | _, _ => .error .typeError

/-! ## UNIQUE -/

/-- The function `rowExistInArray(targetRow, array)`: some row of `array` agrees with
`targetRow` on the first `array[0].length` cells, compared with `!==`. -/
def rowExistInArray (targetRow : List Value) (array : List (List Value)) : Except Abort Bool :=
  match array with
  | [] => .error .typeError
  | firstRow :: _ =>
    let numOfColumns := firstRow.length
    .ok (array.any (fun row =>
      (List.range numOfColumns).all (fun columnIndex =>
        decide (jsGet row columnIndex = jsGet targetRow columnIndex))))

/-- The loop of `getArrayWithoutDuplicateRows` over the rows after the first, with its
state `uniqueRows`. -/
def getArrayWithoutDuplicateRows.loop :
    List (List Value) → List (List Value) → Except Abort (List (List Value))
  | [], uniqueRows => .ok uniqueRows
  | row :: rest, uniqueRows =>
    match rowExistInArray row uniqueRows with
    | .error e => .error e
    | .ok true => getArrayWithoutDuplicateRows.loop rest uniqueRows
    | .ok false => getArrayWithoutDuplicateRows.loop rest (uniqueRows ++ [row])

/-- The function `getArrayWithoutDuplicateRows(array)`. For an empty array the source returns
`[undefined]`, on which UNIQUE throws when it reads `result[0].length`; the throw is
reported here. -/
def getArrayWithoutDuplicateRows : List (List Value) → Except Abort (List (List Value))
  | [] => .error .typeError
  | firstRow :: rest => getArrayWithoutDuplicateRows.loop rest [firstRow]

/-- The loop of UNIQUE over one row of the result: `null` becomes `0` in the first
`numOfColumns` cells. -/
def UNIQUE.zeroBlanks (numOfColumns : Nat) (row : List Value) : List Value :=
  (row.take numOfColumns).map (fun cell => if cell = .blank then .number 0 else cell) ++
    row.drop numOfColumns

/-- The function `UNIQUE(array)` with `by_col` and `exactly_once` omitted, so that the rows
are filtered by `getArrayWithoutDuplicateRows`. -/
def UNIQUE (array : Arg) : Except Abort Arg :=
  match array with
  | .single .undefined => .ok (.single (.number 0))
  | _ =>
    let array :=
      match array with
      | .single v => [[v]]
      | .range rows => rows
    match getArrayWithoutDuplicateRows array with
    | .error e => .error e
    | .ok uniqueRows =>
      match uniqueRows.head? with
      | none => .error .typeError
      | some firstRow =>
        let numOfRows := uniqueRows.length
        let numOfColumns := firstRow.length
        let result := uniqueRows.map (UNIQUE.zeroBlanks numOfColumns)
        if numOfRows = 1 ∧ numOfColumns = 1 then
          .ok (.single (jsGet (result.headD []) 0))
        else .ok (.range result)

/-! ## LOOKUP and the arrays of its caller -/

/-- An element of a row of the caller after LOOKUP has run: a cell value, or an array of
cell values that an assignment has put in the place of one. -/
inductive Entry where
  | cell (v : Value)
  | array (cells : List Value)
  deriving DecidableEq, Repr

/-- An array of rows of cell values, as the caller holds it before the call. -/
def Entry.ofRows (rows : List (List Value)) : List (List Entry) :=
  rows.map (fun row => row.map Entry.cell)

/-- The assignment `result_array[0] = [result_array[0]]` on a row of cell values: the first
cell is replaced by an array that holds it, and an empty row receives `[undefined]`. -/
def LOOKUP.wrapFirst : List Value → List Entry
  | [] => [.array [.undefined]]
  | cell :: rest => .array [cell] :: rest.map Entry.cell

/-- The contents of the caller's `array`, an array of rows, after the call
`LOOKUP(lookup_value, array, result_array)`, the two arrays being different objects. Two
statements write into it. `array[0] = [array[0]]` runs when `array[0]` is not an array, which
for an array of rows is the empty array. And when the first row is searched and `result_array`
is omitted, `result_array` is the last row `array[array.length - 1]` itself, so that
`result_array[0] = [result_array[0]]` writes into that row. An error key returns before
both. -/
def LOOKUP.arrayAfter (lookup_value : Value) (array : List (List Value))
    (result_array : Option Arg) : List (List Entry) :=
  match lookup_value with
  | .error _ => Entry.ofRows array
  | _ =>
    match array.head?, array.getLast? with
    | some firstRow, some lastRow =>
      if firstRow.length > array.length ∧
          (result_array = none ∨ result_array = some (.single .undefined)) then
        Entry.ofRows array.dropLast ++ [LOOKUP.wrapFirst lastRow]
      else Entry.ofRows array
    | _, _ => [[.cell .undefined]]

/-- The contents of the caller's `result_array`, an array of rows, after the call
`LOOKUP(lookup_value, array, result_array)`: `result_array[0] = [result_array[0]]` runs when
`result_array[0]` is not an array, which for an array of rows is the empty array. -/
def LOOKUP.resultArrayAfter (lookup_value : Value) (result_array : List (List Value)) :
    List (List Entry) :=
  match lookup_value with
  | .error _ => Entry.ofRows result_array
  | _ =>
    match result_array with
    | [] => [[.cell .undefined]]
    | row :: rest => Entry.ofRows (row :: rest)

/-! ## Notions used to state the properties -/

/-- A value that is neither `undefined` nor an error object: a number, a text, a boolean or
a blank. -/
def isPlain : Value → Bool
  | .undefined => false
  | .error _ => false
  | _ => true

/-- The cells of an argument, in the order in which XLOOKUP searches them. -/
def Arg.cells : Arg → List Value
  | .single v => [v]
  | .range rows => rows.flatten

/-- The arrays XLOOKUP accepts: a lookup value that is not an array, with a return value
or range; a lookup row with a return range whose first row has the same length; or a lookup
column with a return range of as many rows. -/
def XLOOKUP.validArrays (lookup_array return_array : Arg) : Bool :=
  match lookup_array, return_array with
  | .single v, .single r => isPlain v && isPlain r
  | .single v, .range _ => isPlain v
  | .range _, .single _ => false
  | .range lookupRows, .range returnRows =>
    if lookupRows.length = 1 then
      match lookupRows.head?, returnRows.head? with
      | some lookupRow, some returnRow => decide (returnRow.length = lookupRow.length)
      | _, _ => false
    else
      lookupRows.all (fun row => row.length = 1) &&
        decide (returnRows.length = lookupRows.length)

/-- The element `x` is a match for `key` under a match mode of XLOOKUP: equal to the key
(mode 0), equal or smaller (mode -1), equal or larger (mode 1), all under `compare` with
text compared without regard to letter case; or (mode 2) matched by the key as a wildcard
pattern when the key is a text, and strictly equal to the key otherwise. -/
def XLOOKUP.isMatch (match_mode : Int) (key x : Value) : Bool :=
  if match_mode = 0 then decide (compare (lowerValue key) x = 0)
  else if match_mode = -1 then decide (compare (lowerValue key) x ≥ 0)
  else if match_mode = 1 then decide (compare (lowerValue key) x ≤ 0)
  else lookupIndex.wildcardTest (lowerValue key) x

/-- Sorted ascending under the total order of `compare`: every element is at most every
later element. -/
def SortedAscending (arr : List Value) : Prop :=
  arr.Pairwise (fun a b => compare (lowerValue a) b ≤ 0)

instance SortedAscending.decidable (arr : List Value) : Decidable (SortedAscending arr) := by
  unfold SortedAscending; exact inferInstance

/-- Sorted descending under the total order of `compare`: every element is at least every
later element. -/
def SortedDescending (arr : List Value) : Prop :=
  arr.Pairwise (fun a b => compare (lowerValue b) a ≤ 0)

instance SortedDescending.decidable (arr : List Value) : Decidable (SortedDescending arr) := by
  unfold SortedDescending; exact inferInstance

/-- A number, a text or a boolean. -/
def isPrimitive : Value → Bool
  | .number _ => true
  | .text _ => true
  | .boolean _ => true
  | _ => false

/-- Sorted ascending under the order of `excelTypesComparator`: every element
`isLessOrEqualThan` every later element. -/
def XMatchSortedAscending (arr : List Value) : Prop :=
  arr.Pairwise (fun a b => excelTypesComparator.isLessOrEqualThan a b = true)

instance XMatchSortedAscending.decidable (arr : List Value) :
    Decidable (XMatchSortedAscending arr) := by
  unfold XMatchSortedAscending; exact inferInstance

/-- Sorted descending under the order of `excelTypesComparator`: every element is equal to
every later element or `isGreaterThan` it. -/
def XMatchSortedDescending (arr : List Value) : Prop :=
  arr.Pairwise (fun a b => a = b ∨ excelTypesComparator.isGreaterThan a b = true)

instance XMatchSortedDescending.decidable (arr : List Value) :
    Decidable (XMatchSortedDescending arr) := by
  unfold XMatchSortedDescending; exact inferInstance

/-- An error object. -/
def isErrorValue : Value → Bool
  | .error _ => true
  | _ => false

/-- A range of one row. -/
def isSingleRow (rows : List (List Value)) : Bool :=
  decide (rows.length = 1)

/-- A range of one column: at least one row, and one cell in every row. -/
def isSingleColumn (rows : List (List Value)) : Bool :=
  decide (rows ≠ []) && rows.all (fun row => decide (row.length = 1))

/-- The first column of a range: the first cell of every row. -/
def firstColumn (rows : List (List Value)) : List Value :=
  rows.map (fun row => row.headD .undefined)

/-- The last column of a range: the last cell of every row. -/
def lastColumn (rows : List (List Value)) : List Value :=
  rows.map (fun row => row.getLastD .undefined)

/-- The kinds of values the total order of XLOOKUP tells apart. -/
inductive Kind where
  | number
  | text
  | boolean
  | otherObject
  | blank
  deriving DecidableEq, Repr

/-- The kind of a value: an error object, like every value that is not a number, a text, a
boolean or `null`, is an "other object". -/
def kindOf : Value → Kind
  | .number _ => .number
  | .text _ => .text
  | .boolean _ => .boolean
  | .blank => .blank
  | .undefined => .otherObject
  | .error _ => .otherObject

/-- The place of a kind in the precedence number < text < boolean < other object < blank. -/
def Kind.rank : Kind → Nat
  | .number => 0
  | .text => 1
  | .boolean => 2
  | .otherObject => 3
  | .blank => 4

/-- A number, a text without upper-case letters, a boolean or a blank. -/
def isOrderedCell (v : Value) : Bool :=
  isPlain v && decide (lowerValue v = v)

/-- The elements of `a` that have the type of `k` are strictly ascending, text compared
without regard to letter case. -/
def StrictlyAscendingOfType (k : Value) (a : List Value) : Prop :=
  a.Pairwise (fun x y => typeOf x = typeOf k → typeOf y = typeOf k →
    jsLt (lowerValue x) (lowerValue y) = true)

instance StrictlyAscendingOfType.decidable (k : Value) (a : List Value) :
    Decidable (StrictlyAscendingOfType k a) := by
  unfold StrictlyAscendingOfType; exact inferInstance

/-- A lookup range and a return range that XLOOKUP takes as matching vectors: two single
rows with as many cells, or two single columns with as many rows. -/
def XLOOKUP.matchingVectors (lookup ret : List (List Value)) : Bool :=
  (isSingleRow lookup && isSingleRow ret &&
    decide (lookup.flatten.length = ret.flatten.length)) ||
  (isSingleColumn lookup && isSingleColumn ret && decide (lookup.length = ret.length))

/-- The index `r` holds the greatest number of `a` below `k`, or `r` is `-1` and no number of
`a` is below `k`. -/
def isNearestBelow (k : Int) (a : List Int) (r : Int) : Prop :=
  (r = -1 ∧ ∀ x ∈ a, ¬ x < k) ∨
  ∃ (i : Nat) (y : Int), r = (i : Int) ∧ a[i]? = some y ∧ y < k ∧ ∀ x ∈ a, x < k → x ≤ y

/-- The index `r` holds the least number of `a` above `k`, or `r` is `-1` and no number of
`a` is above `k`. -/
def isNearestAbove (k : Int) (a : List Int) (r : Int) : Prop :=
  (r = -1 ∧ ∀ x ∈ a, ¬ k < x) ∨
  ∃ (i : Nat) (y : Int), r = (i : Int) ∧ a[i]? = some y ∧ k < y ∧ ∀ x ∈ a, k < x → y ≤ x

/-- Strictly ascending under `compare`: every element is below every later element. -/
def StrictlyAscending (arr : List Value) : Prop :=
  arr.Pairwise (fun a b => compare (lowerValue a) b < 0)

instance StrictlyAscending.decidable (arr : List Value) : Decidable (StrictlyAscending arr) := by
  unfold StrictlyAscending; exact inferInstance

/-- The index `j` is visited before the index `i` by the loop of `lookupIndex`: from the end
when `reverse` is set, from the start otherwise. -/
def scannedBefore (reverse : Bool) (j i : Nat) : Prop :=
  if reverse = true then i < j else j < i

instance scannedBefore.decidable (reverse : Bool) : DecidableRel (scannedBefore reverse) :=
  fun j i => by unfold scannedBefore; exact inferInstance

/-- Among the indices in `S`, the index `i` holds the greatest element below the key `t` under
`compare`, and every index of `S` visited before `i` whose element is below the key holds a
smaller element: `i` is the first of the ties. -/
def isClosestSmaller (t : Value) (arr : List Value) (reverse : Bool) (S : Nat → Prop)
    (i : Nat) : Prop :=
  S i ∧ compare t (jsGet arr (i : Int)) > 0 ∧
  (∀ j : Nat, S j → compare t (jsGet arr (j : Int)) > 0 →
    compare (lowerValue (jsGet arr (j : Int))) (jsGet arr (i : Int)) ≤ 0) ∧
  (∀ j : Nat, S j → scannedBefore reverse j i → compare t (jsGet arr (j : Int)) > 0 →
    compare (lowerValue (jsGet arr (j : Int))) (jsGet arr (i : Int)) < 0)

/-! ## Theorems: MATCH with match type 0 -/

theorem MATCH_exactValue_found (v : Value) (l : List Value) (i : Nat) :
    ∀ (index : Nat), l[i]? = some v → (∀ j, j < i → l[j]? ≠ some v) →
      MATCH.exactValue v l index = .number (((index + i : Nat) : Int) + 1) := by
  induction l generalizing i with
  | nil => intro index h; simp at h
  | cons x rest ih =>
    intro index h hleast
    cases i with
    | zero =>
      simp at h
      simp [MATCH.exactValue, h]
    | succ n =>
      have hx : x ≠ v := by
        have := hleast 0 (Nat.succ_pos n)
        simpa using this
      have hrest : ∀ j, j < n → rest[j]? ≠ some v := by
        intro j hj
        have := hleast (j + 1) (Nat.succ_lt_succ hj)
        simpa using this
      have h2 : rest[n]? = some v := by simpa using h
      simp only [MATCH.exactValue, if_neg hx]
      rw [ih n (index + 1) h2 hrest]
      congr 2
      omega

theorem MATCH_exactValue_absent (v : Value) (l : List Value) :
    ∀ (index : Nat), (∀ x ∈ l, x ≠ v) → MATCH.exactValue v l index = error.na := by
  induction l with
  | nil => intro index _; rfl
  | cons x rest ih =>
    intro index h
    have hx : x ≠ v := h x (List.mem_cons_self x rest)
    simp only [MATCH.exactValue, if_neg hx]
    exact ih (index + 1) (fun y hy => h y (List.mem_cons_of_mem x hy))

theorem MATCH_isMatrix_numbers (a : List Int) :
    MATCH.isMatrix (.flat (a.map Value.number)) = .ok false := by
  cases a with
  | nil => rfl
  | cons x rest => simp only [MATCH.isMatrix, List.map_cons, List.head?_cons]; split <;> rfl

/-- C3. For every flat array of numbers `a` and every numeric key `k`, `MATCH(k, a, 0)`
returns 1 plus the least index `i` with `a[i] = k`, and `#N/A` when no element of `a`
equals `k`. -/
theorem MATCH_exact_numbers (k : Int) (a : List Int) :
    (∀ i : Nat, a[i]? = some k → (∀ j, j < i → a[j]? ≠ some k) →
      MATCH (.number k) (.flat (a.map Value.number)) 0 = .ok (.number ((i : Int) + 1))) ∧
    ((∀ x ∈ a, x ≠ k) →
      MATCH (.number k) (.flat (a.map Value.number)) 0 = .ok error.na) := by
  have hM : MATCH (.number k) (.flat (a.map Value.number)) 0 =
      .ok (MATCH.exactValue (.number k) (a.map Value.number) 0) := by
    simp [MATCH, MATCH_isMatrix_numbers, ArrayArg.flatten]
  constructor
  · intro i hi hleast
    rw [hM, MATCH_exactValue_found (.number k) (a.map Value.number) i 0]
    · simp
    · simp [hi]
    · intro j hj
      have := hleast j hj
      simp only [List.getElem?_map]
      cases h : a[j]? with
      | none => simp
      | some y =>
        rw [h] at this
        simp only [Option.map_some', ne_eq, Option.some.injEq, Value.number.injEq]
        intro hy
        exact this (by rw [hy])
  · intro h
    rw [hM, MATCH_exactValue_absent]
    intro x hx
    simp only [List.mem_map] at hx
    obtain ⟨y, hy, rfl⟩ := hx
    simp only [ne_eq, Value.number.injEq]
    exact h y hy

/-- The spec's example of C3: `MATCH(5, [1,3,5,5,9], 0)` returns `3`. -/
theorem MATCH_exact_numbers_witness :
    MATCH (.number 5) (.flat ([1, 3, 5, 5, 9].map Value.number)) 0 = .ok (.number ((2 : Nat) + 1)) :=
  (MATCH_exact_numbers 5 [1, 3, 5, 5, 9]).1 2 (by decide) (by decide)

/-- C4. `MATCH('abc', ['abc', 'def'], 0)` returns `#N/A`, although the key is the first
element of the flat array: for an array of more than one element whose first element is a
string of more than one character, the test `lookup_array[0].length > 1` that is meant to
reject a matrix reads the length of that string. -/
theorem MATCH_exact_text_flat_rejected :
    MATCH (.text "abc") (.flat [.text "abc", .text "def"]) 0 = .ok error.na := by
  decide

/-! ## Lemmas: array reads and the comparator of XLOOKUP -/

theorem jsGet_natCast (arr : List Value) (i : Nat) :
    jsGet arr (i : Int) = arr.getD i .undefined := by
  simp [jsGet]

theorem jsGet_of_getElem? (arr : List Value) (i : Nat) (x : Value) (h : arr[i]? = some x) :
    jsGet arr (i : Int) = x := by
  rw [jsGet_natCast, List.getD_eq_getElem?_getD, h]
  rfl

theorem jsGet_mem (arr : List Value) (i : Int) (h0 : 0 ≤ i) (h1 : i < arr.length) :
    jsGet arr i ∈ arr := by
  obtain ⟨n, rfl⟩ := Int.eq_ofNat_of_zero_le h0
  have hn : n < arr.length := by exact_mod_cast h1
  rw [jsGet_natCast, List.getD_eq_getElem _ _ hn]
  exact List.getElem_mem hn

theorem getTypePrecedence_lowerValue (v : Value) :
    getTypePrecedence (lowerValue v) = getTypePrecedence v := by
  cases v <;> rfl

theorem compare_eq_zero_iff (t x : Value) : compare t x = 0 ↔ t = lowerValue x := by
  unfold compare
  by_cases hp : getTypePrecedence t = getTypePrecedence x
  · simp only [hp, ne_eq, not_true_eq_false, if_false]
    by_cases he : t = lowerValue x
    · simp [he]
    · simp only [he, if_false, iff_false]
      split <;> decide
  · have hne : t ≠ lowerValue x := by
      intro he
      apply hp
      rw [he, getTypePrecedence_lowerValue]
    simp only [ne_eq, hp, not_false_eq_true, if_true, hne, iff_false]
    split <;> decide

/-! ## Lemmas: the forward scan of `lookupIndex` -/

theorem lookupIndex_exact_absent (v : Value) (arr : List Value) (order : List Nat)
    (h : ∀ j ∈ order, compare v (jsGet arr (j : Int)) ≠ 0) :
    lookupIndex.exact v arr order = .undefined := by
  induction order with
  | nil => rfl
  | cons i rest ih =>
    have hi := h i (List.mem_cons_self i rest)
    simp only [lookupIndex.exact, if_neg hi]
    exact ih (fun j hj => h j (List.mem_cons_of_mem i hj))

theorem lookupIndex_exact_range_found (v : Value) (arr : List Value) (i : Nat) :
    ∀ (n s : Nat), s ≤ i → i < s + n → compare v (jsGet arr (i : Int)) = 0 →
      (∀ j, s ≤ j → j < i → compare v (jsGet arr (j : Int)) ≠ 0) →
      lookupIndex.exact v arr (List.range' s n) = .number (i : Int) := by
  intro n
  induction n with
  | zero => intro s h1 h2; omega
  | succ n ih =>
    intro s h1 h2 hc hleast
    rw [List.range'_succ]
    by_cases hs : s = i
    · subst hs
      simp only [lookupIndex.exact, if_pos hc]
    · have hlt : s < i := by omega
      have hns := hleast s (Nat.le_refl s) hlt
      simp only [lookupIndex.exact, if_neg hns]
      exact ih (s + 1) (by omega) (by omega) hc (fun j hj1 hj2 => hleast j (by omega) hj2)

theorem lookupIndex_exact_forward (key : Value) (arr : List Value) (i : Nat)
    (hi : arr[i]?.map lowerValue = some (lowerValue key))
    (hleast : ∀ j, j < i → arr[j]?.map lowerValue ≠ some (lowerValue key)) :
    lookupIndex key arr 0 false = .number (i : Int) := by
  have hlen : i < arr.length := by
    rcases Nat.lt_or_ge i arr.length with h | h
    · exact h
    · rw [List.getElem?_eq_none h] at hi; cases hi
  simp only [lookupIndex, lookupIndex.order, if_true, Bool.false_eq_true, if_false,
    List.range_eq_range']
  apply lookupIndex_exact_range_found _ _ i arr.length 0 (Nat.zero_le i) (by omega)
  · rw [compare_eq_zero_iff, jsGet_of_getElem? arr i _ (List.getElem?_eq_getElem hlen)]
    rw [List.getElem?_eq_getElem hlen] at hi
    simpa using hi.symm
  · intro j _ hj hc
    have hjlen : j < arr.length := by omega
    have hget : arr[j]? = some arr[j] := List.getElem?_eq_getElem hjlen
    rw [compare_eq_zero_iff, jsGet_of_getElem? arr j _ hget] at hc
    apply hleast j hj
    rw [hget, Option.map_some', hc]

/-! ## Theorems: XLOOKUP with the default modes -/

/-- C1, the claim as stated fails for a key that is an error value: `XLOOKUP(#N/A, [[#N/A]],
[['a']])` has its key at index 0 of the lookup row, and returns the key `#N/A`, not the
element `'a'` of the return row. -/
theorem XLOOKUP_error_key_not_looked_up :
    [error.na][0]?.map lowerValue = some (lowerValue error.na) ∧
    [Value.text "a"][0]? = some (.text "a") ∧
    XLOOKUP (.single error.na) (.range [[error.na]]) (.range [[.text "a"]]) none 0 1 =
      .ok (.single error.na) ∧
    XLOOKUP (.single error.na) (.range [[error.na]]) (.range [[.text "a"]]) none 0 1 ≠
      .ok (.single (.text "a")) := by
  decide

/-- C1, amended. For every single-row lookup array and single-row return array of the same
length and every key that is a number, a text, a boolean or blank and occurs in the lookup
array, XLOOKUP with match mode 0 and search mode 1 returns the element of the return array
at the least index at which the lookup array equals the key, text compared without regard
to letter case. Whatever `if_not_found` is, it plays no part. -/
theorem XLOOKUP_first_occurrence (key : Value) (lookup ret : List Value)
    (if_not_found : Option Arg) (i : Nat) (r : Value)
    (hkey : isPlain key = true)
    (hlen : lookup.length = ret.length)
    (hi : lookup[i]?.map lowerValue = some (lowerValue key))
    (hleast : ∀ j, j < i → lookup[j]?.map lowerValue ≠ some (lowerValue key))
    (hr : ret[i]? = some r) :
    XLOOKUP (.single key) (.range [lookup]) (.range [ret]) if_not_found 0 1 =
      .ok (.single r) := by
  have hidx := lookupIndex_exact_forward key lookup i hi hleast
  have hany : anyError [Arg.single key, Arg.range [lookup], Arg.range [ret]] = none := by
    cases key <;> simp_all [isPlain, anyError]
  have hdef : key ≠ .undefined := by
    intro h; rw [h] at hkey; cases hkey
  have hsearch : XLOOKUP.search (.range [ret]) if_not_found 0 1 (.single key) .line lookup =
      .ok (.single r) := by
    simp only [XLOOKUP.search, xLookupSearchFunctions, hidx, getColumnAsMatrix, List.map]
    simp [jsGet, hr]
  simp only [XLOOKUP, hany]
  simp [hdef, getVariableType, flatten, hlen, hsearch]

/-- The spec's example of C1: `XLOOKUP(5, [1,3,5,5,9], ['a','b','c','d','e'])` returns
`'c'`. -/
theorem XLOOKUP_first_occurrence_witness :
    XLOOKUP (.single (.number 5))
      (.range [[.number 1, .number 3, .number 5, .number 5, .number 9]])
      (.range [[.text "a", .text "b", .text "c", .text "d", .text "e"]]) none 0 1 =
      .ok (.single (.text "c")) :=
  XLOOKUP_first_occurrence (.number 5) [.number 1, .number 3, .number 5, .number 5, .number 9]
    [.text "a", .text "b", .text "c", .text "d", .text "e"] none 2 (.text "c")
    rfl rfl (by decide) (by decide) rfl

/-! ## Lemmas: the loops of the binary searches of XLOOKUP -/

theorem jsLt_asymm (x y : Value) (h : jsLt x y = true) : jsLt y x = false := by
  cases x <;> cases y <;> simp_all [jsLt, toNumber, stringLt] <;> exact le_of_lt h

theorem compare_antisymm (a b : Value) (h : compare (lowerValue a) b ≤ 0) :
    compare (lowerValue b) a ≥ 0 := by
  unfold compare at h ⊢
  simp only [getTypePrecedence_lowerValue] at h ⊢
  by_cases hp : getTypePrecedence a = getTypePrecedence b
  · simp only [hp, ne_eq, not_true_eq_false, if_false] at h ⊢
    by_cases he : lowerValue a = lowerValue b
    · simp [he]
    · have he2 : ¬ lowerValue b = lowerValue a := fun h2 => he h2.symm
      simp only [he, he2, if_false] at h ⊢
      by_cases hlt : jsLt (lowerValue a) (lowerValue b) = true
      · simp [jsLt_asymm _ _ hlt]
      · simp [hlt] at h
  · have hp2 : ¬ getTypePrecedence b = getTypePrecedence a := fun h2 => hp h2.symm
    simp only [ne_eq, hp, hp2, not_false_eq_true, if_true] at h ⊢
    by_cases hlt : getTypePrecedence a < getTypePrecedence b
    · have : ¬ getTypePrecedence b < getTypePrecedence a := by omega
      simp [this]
    · simp [hlt] at h

theorem xLookupBinarySearch_loop_all_neg (t : Value) (arr : List Value)
    (h : ∀ x ∈ arr, compare t x < 0) :
    ∀ (fuel : Nat) (left right : Int), 0 ≤ left → right < arr.length → left ≤ right + 1 →
      (right + 1 - left).toNat < fuel →
      xLookupBinarySearch.loop t arr fuel left right = some (.exited left (left - 1)) := by
  intro fuel
  induction fuel with
  | zero => intro left right _ _ _ hf; omega
  | succ fuel ih =>
    intro left right h0 h1 h2 hf
    rw [xLookupBinarySearch.loop]
    by_cases hlr : left ≤ right
    · have hmem := h _ (jsGet_mem arr ((left + right) / 2) (by omega) (by omega))
      simp only [if_pos hlr]
      rw [if_neg (by omega), if_neg (by simp; omega)]
      exact ih left ((left + right) / 2 - 1) h0 (by omega) (by omega) (by omega)
    · have : right = left - 1 := by omega
      subst this
      rw [if_neg (by omega)]

theorem xLookupBinarySearch_loop_all_pos (t : Value) (arr : List Value)
    (h : ∀ x ∈ arr, compare t x > 0) :
    ∀ (fuel : Nat) (left right : Int), 0 ≤ left → right < arr.length → left ≤ right + 1 →
      (right + 1 - left).toNat < fuel →
      xLookupBinarySearch.loop t arr fuel left right = some (.exited (right + 1) right) := by
  intro fuel
  induction fuel with
  | zero => intro left right _ _ _ hf; omega
  | succ fuel ih =>
    intro left right h0 h1 h2 hf
    rw [xLookupBinarySearch.loop]
    by_cases hlr : left ≤ right
    · have hmem := h _ (jsGet_mem arr ((left + right) / 2) (by omega) (by omega))
      simp only [if_pos hlr]
      rw [if_neg (by omega), if_pos (by simpa using hmem)]
      exact ih ((left + right) / 2 + 1) right (by omega) h1 (by omega) (by omega)
    · have : left = right + 1 := by omega
      subst this
      rw [if_neg (by omega)]

theorem xLookupBinarySearch_loop_no_zero (t : Value) (arr : List Value)
    (h : ∀ x ∈ arr, compare t x ≠ 0) :
    ∀ (fuel : Nat) (left right : Int), 0 ≤ left → right < arr.length →
      (right + 1 - left).toNat < fuel →
      ∃ l r, xLookupBinarySearch.loop t arr fuel left right = some (.exited l r) := by
  intro fuel
  induction fuel with
  | zero => intro left right _ _ hf; omega
  | succ fuel ih =>
    intro left right h0 h1 hf
    rw [xLookupBinarySearch.loop]
    by_cases hlr : left ≤ right
    · have hmem := h _ (jsGet_mem arr ((left + right) / 2) (by omega) (by omega))
      simp only [if_pos hlr]
      rw [if_neg hmem]
      split
      · exact ih ((left + right) / 2 + 1) right (by omega) h1 (by omega)
      · exact ih left ((left + right) / 2 - 1) h0 (by omega) (by omega)
    · rw [if_neg hlr]
      exact ⟨left, right, rfl⟩

theorem invertedXLookupBinarySearch_loop_all_neg (t : Value) (arr : List Value)
    (h : ∀ x ∈ arr, compare t x < 0) :
    ∀ (fuel : Nat) (left right : Int), 0 ≤ left → right < arr.length → left ≤ right + 1 →
      (right + 1 - left).toNat < fuel →
      invertedXLookupBinarySearch.loop t arr fuel left right =
        some (.exited (right + 1) right) := by
  intro fuel
  induction fuel with
  | zero => intro left right _ _ _ hf; omega
  | succ fuel ih =>
    intro left right h0 h1 h2 hf
    rw [invertedXLookupBinarySearch.loop]
    by_cases hlr : left ≤ right
    · have hmem := h _ (jsGet_mem arr ((left + right) / 2) (by omega) (by omega))
      simp only [if_pos hlr]
      rw [if_neg (by omega), if_pos (by simpa using hmem)]
      exact ih ((left + right) / 2 + 1) right (by omega) h1 (by omega) (by omega)
    · have : left = right + 1 := by omega
      subst this
      rw [if_neg (by omega)]

theorem invertedXLookupBinarySearch_loop_all_pos (t : Value) (arr : List Value)
    (h : ∀ x ∈ arr, compare t x > 0) :
    ∀ (fuel : Nat) (left right : Int), 0 ≤ left → right < arr.length → left ≤ right + 1 →
      (right + 1 - left).toNat < fuel →
      invertedXLookupBinarySearch.loop t arr fuel left right =
        some (.exited left (left - 1)) := by
  intro fuel
  induction fuel with
  | zero => intro left right _ _ _ hf; omega
  | succ fuel ih =>
    intro left right h0 h1 h2 hf
    rw [invertedXLookupBinarySearch.loop]
    by_cases hlr : left ≤ right
    · have hmem := h _ (jsGet_mem arr ((left + right) / 2) (by omega) (by omega))
      simp only [if_pos hlr]
      rw [if_neg (by omega), if_neg (by simp; omega)]
      exact ih left ((left + right) / 2 - 1) h0 (by omega) (by omega) (by omega)
    · have : right = left - 1 := by omega
      subst this
      rw [if_neg (by omega)]

theorem invertedXLookupBinarySearch_loop_no_zero (t : Value) (arr : List Value)
    (h : ∀ x ∈ arr, compare t x ≠ 0) :
    ∀ (fuel : Nat) (left right : Int), 0 ≤ left → right < arr.length →
      (right + 1 - left).toNat < fuel →
      ∃ l r, invertedXLookupBinarySearch.loop t arr fuel left right = some (.exited l r) := by
  intro fuel
  induction fuel with
  | zero => intro left right _ _ hf; omega
  | succ fuel ih =>
    intro left right h0 h1 hf
    rw [invertedXLookupBinarySearch.loop]
    by_cases hlr : left ≤ right
    · have hmem := h _ (jsGet_mem arr ((left + right) / 2) (by omega) (by omega))
      simp only [if_pos hlr]
      rw [if_neg hmem]
      split
      · exact ih ((left + right) / 2 + 1) right (by omega) h1 (by omega)
      · exact ih left ((left + right) / 2 - 1) h0 (by omega) (by omega)
    · rw [if_neg hlr]
      exact ⟨left, right, rfl⟩

/-! ## Lemmas: a key without a match -/

theorem lookupIndex_order_lt (n : Nat) (reverse : Bool) (j : Nat)
    (h : j ∈ lookupIndex.order n reverse) : j < n := by
  unfold lookupIndex.order at h
  split at h
  · exact List.mem_range.mp (List.mem_reverse.mp h)
  · exact List.mem_range.mp h

theorem lookupIndex_smaller_none (v : Value) (arr : List Value) (order : List Nat)
    (h : ∀ j ∈ order, compare v (jsGet arr (j : Int)) < 0) :
    ∀ cs pos, lookupIndex.smaller v arr order cs pos = pos := by
  induction order with
  | nil => intro cs pos; rfl
  | cons i rest ih =>
    intro cs pos
    have hi := h i (List.mem_cons_self i rest)
    rw [lookupIndex.smaller]
    rw [if_neg (by omega), if_neg (by intro hc; have := hc.1; omega)]
    exact ih (fun j hj => h j (List.mem_cons_of_mem i hj)) cs pos

theorem lookupIndex_larger_none (v : Value) (arr : List Value) (order : List Nat)
    (h : ∀ j ∈ order, compare v (jsGet arr (j : Int)) > 0) :
    ∀ cl pos, lookupIndex.larger v arr order cl pos = pos := by
  induction order with
  | nil => intro cl pos; rfl
  | cons i rest ih =>
    intro cl pos
    have hi := h i (List.mem_cons_self i rest)
    rw [lookupIndex.larger]
    rw [if_neg (by omega), if_neg (by intro hc; have := hc.1; omega)]
    exact ih (fun j hj => h j (List.mem_cons_of_mem i hj)) cl pos

theorem lookupIndex_wildcard_absent (v : Value) (arr : List Value) (order : List Nat)
    (h : ∀ j ∈ order, lookupIndex.wildcardTest v (jsGet arr (j : Int)) = false) :
    lookupIndex.wildcard v arr order = .undefined := by
  induction order with
  | nil => rfl
  | cons i rest ih =>
    have hi := h i (List.mem_cons_self i rest)
    rw [lookupIndex.wildcard, hi]
    exact ih (fun j hj => h j (List.mem_cons_of_mem i hj))

theorem xLookupSearchFunctions_no_match (key : Value) (cells : List Value)
    (match_mode search_mode : Int)
    (hmm : match_mode ∈ [-1, 0, 1, 2])
    (hwild : match_mode = 2 → search_mode = 1 ∨ search_mode = -1)
    (hno : ∀ x ∈ cells, XLOOKUP.isMatch match_mode key x = false) :
    ∃ p, xLookupSearchFunctions search_mode key cells match_mode = some p ∧
      ∀ n, p ≠ .number n := by
  have hmm : match_mode = -1 ∨ match_mode = 0 ∨ match_mode = 1 ∨ match_mode = 2 := by
    simpa using hmm
  have hlinear : ∀ reverse, ∀ n, lookupIndex key cells match_mode reverse ≠ .number n := by
    intro reverse n
    have hmem : ∀ j ∈ lookupIndex.order cells.length reverse,
        jsGet cells (j : Int) ∈ cells := fun j hj =>
      jsGet_mem cells j (by omega) (by exact_mod_cast lookupIndex_order_lt _ _ _ hj)
    unfold lookupIndex
    simp only
    by_cases h0 : match_mode = 0
    · subst h0
      rw [if_pos rfl, lookupIndex_exact_absent]
      · exact Value.noConfusion
      · intro j hj
        have := hno _ (hmem j hj)
        simpa [XLOOKUP.isMatch] using this
    · by_cases h1 : match_mode = -1
      · subst h1
        rw [if_neg (by decide), if_pos rfl, lookupIndex_smaller_none]
        · exact Value.noConfusion
        · intro j hj
          have := hno _ (hmem j hj)
          simpa [XLOOKUP.isMatch] using this
      · by_cases h2 : match_mode = 1
        · subst h2
          rw [if_neg (by decide), if_neg (by decide), if_pos rfl, lookupIndex_larger_none]
          · exact Value.noConfusion
          · intro j hj
            have := hno _ (hmem j hj)
            simpa [XLOOKUP.isMatch] using this
        · have h3 : match_mode = 2 := by
            omega
          subst h3
          rw [if_neg (by decide), if_neg (by decide), if_neg (by decide), if_pos rfl,
            lookupIndex_wildcard_absent]
          · exact Value.noConfusion
          · intro j hj
            have := hno _ (hmem j hj)
            simpa [XLOOKUP.isMatch] using this
  have hlen : ((cells.length : Int) - 1 + 1 - 0).toNat < cells.length + 1 := by omega
  unfold xLookupSearchFunctions
  by_cases hs2 : search_mode = 2
  · rw [if_pos hs2]
    have hm2 : match_mode ≠ 2 := fun h => by have := hwild h; omega
    unfold xLookupBinarySearch
    simp only
    by_cases h0 : match_mode = 0
    · subst h0
      have hz : ∀ x ∈ cells, compare (lowerValue key) x ≠ 0 := fun x hx => by
        simpa [XLOOKUP.isMatch] using hno x hx
      obtain ⟨l, r, hloop⟩ := xLookupBinarySearch_loop_no_zero (lowerValue key) cells hz
        (cells.length + 1) 0 ((cells.length : Int) - 1) (le_refl 0) (by omega) hlen
      rw [hloop]
      exact ⟨.blank, by simp, fun n => Value.noConfusion⟩
    · by_cases h1 : match_mode = -1
      · subst h1
        have hz : ∀ x ∈ cells, compare (lowerValue key) x < 0 := fun x hx => by
          simpa [XLOOKUP.isMatch] using hno x hx
        rw [xLookupBinarySearch_loop_all_neg (lowerValue key) cells hz (cells.length + 1) 0
          ((cells.length : Int) - 1) (le_refl 0) (by omega) (by omega) hlen]
        exact ⟨.blank, by simp, fun n => Value.noConfusion⟩
      · have h2 : match_mode = 1 := by
          omega
        subst h2
        have hz : ∀ x ∈ cells, compare (lowerValue key) x > 0 := fun x hx => by
          simpa [XLOOKUP.isMatch] using hno x hx
        rw [xLookupBinarySearch_loop_all_pos (lowerValue key) cells hz (cells.length + 1) 0
          ((cells.length : Int) - 1) (le_refl 0) (by omega) (by omega) hlen]
        exact ⟨.blank, by simp, fun n => Value.noConfusion⟩
  · rw [if_neg hs2]
    by_cases hs3 : search_mode = -2
    · rw [if_pos hs3]
      have hm2 : match_mode ≠ 2 := fun h => by have := hwild h; omega
      unfold invertedXLookupBinarySearch
      simp only
      by_cases h0 : match_mode = 0
      · subst h0
        have hz : ∀ x ∈ cells, compare (lowerValue key) x ≠ 0 := fun x hx => by
          simpa [XLOOKUP.isMatch] using hno x hx
        obtain ⟨l, r, hloop⟩ := invertedXLookupBinarySearch_loop_no_zero (lowerValue key) cells
          hz (cells.length + 1) 0 ((cells.length : Int) - 1) (le_refl 0) (by omega) hlen
        rw [hloop]
        exact ⟨.blank, by simp, fun n => Value.noConfusion⟩
      · by_cases h1 : match_mode = -1
        · subst h1
          have hz : ∀ x ∈ cells, compare (lowerValue key) x < 0 := fun x hx => by
            simpa [XLOOKUP.isMatch] using hno x hx
          rw [invertedXLookupBinarySearch_loop_all_neg (lowerValue key) cells hz
            (cells.length + 1) 0 ((cells.length : Int) - 1) (le_refl 0) (by omega) (by omega)
            hlen]
          exact ⟨.blank, by simp, fun n => Value.noConfusion⟩
        · have h2 : match_mode = 1 := by
            omega
          subst h2
          have hz : ∀ x ∈ cells, compare (lowerValue key) x > 0 := fun x hx => by
            simpa [XLOOKUP.isMatch] using hno x hx
          rw [invertedXLookupBinarySearch_loop_all_pos (lowerValue key) cells hz
            (cells.length + 1) 0 ((cells.length : Int) - 1) (le_refl 0) (by omega) (by omega)
            hlen]
          exact ⟨.blank, by simp, fun n => Value.noConfusion⟩
    · rw [if_neg hs3]
      split
      · exact ⟨_, rfl, hlinear false⟩
      · exact ⟨_, rfl, hlinear true⟩

theorem XLOOKUP_search_not_found (return_array : Arg) (if_not_found : Option Arg)
    (match_mode search_mode : Int) (key : Value) (lookup_arrayType : VariableType)
    (cells : List Value)
    (h : ∃ p, xLookupSearchFunctions search_mode key cells match_mode = some p ∧
      ∀ n, p ≠ .number n) :
    XLOOKUP.search return_array if_not_found match_mode search_mode (.single key)
      lookup_arrayType cells =
      .ok (match if_not_found with
        | none => .single error.na
        | some (.single .undefined) => .single error.na
        | some fallback => fallback) := by
  obtain ⟨p, hp, hn⟩ := h
  simp only [XLOOKUP.search, hp]
  cases p with
  | number n => exact absurd rfl (hn n)
  | _ =>
    cases if_not_found with
    | none => rfl
    | some fallback =>
      cases fallback with
      | single v => cases v <;> rfl
      | range rows => rfl

theorem anyError_plain_key (key : Value) (lookup_array return_array : Arg)
    (hkey : isPlain key = true)
    (hvalid : XLOOKUP.validArrays lookup_array return_array = true) :
    anyError [.single key, lookup_array, return_array] = none ∧
    ¬ (Arg.single key = .single .undefined ∨ lookup_array = .single .undefined ∨
      return_array = .single .undefined) := by
  cases lookup_array with
  | single v =>
    cases return_array with
    | single r =>
      cases key <;> cases v <;> cases r <;>
        simp_all [isPlain, anyError, XLOOKUP.validArrays]
    | range returnRows =>
      cases key <;> cases v <;> simp_all [isPlain, anyError, XLOOKUP.validArrays]
  | range lookupRows =>
    cases return_array with
    | single r => simp [XLOOKUP.validArrays] at hvalid
    | range returnRows => cases key <;> simp_all [isPlain, anyError]

/-! ## Theorems: XLOOKUP without a match -/

/-- C2, the claim as stated fails for a key that is an error value: `XLOOKUP(#VALUE!,
[[1,3,5]], [['a','b','c']], 'missing')` has a key that matches no element of the lookup
row, and returns the key `#VALUE!`, not the fallback `'missing'`. -/
theorem XLOOKUP_error_key_not_redirected :
    (∀ x ∈ [Value.number 1, Value.number 3, Value.number 5],
      XLOOKUP.isMatch 0 error.value x = false) ∧
    XLOOKUP (.single error.value) (.range [[.number 1, .number 3, .number 5]])
      (.range [[.text "a", .text "b", .text "c"]]) (some (.single (.text "missing"))) 0 1 =
      .ok (.single error.value) ∧
    XLOOKUP (.single error.value) (.range [[.number 1, .number 3, .number 5]])
      (.range [[.text "a", .text "b", .text "c"]]) (some (.single (.text "missing"))) 0 1 ≠
      .ok (.single (.text "missing")) := by
  decide

/-- C2, amended. For every key that is a number, a text, a boolean or blank and matches no
element of a valid lookup array under the chosen match mode, and for each of the four
search modes, XLOOKUP returns the `if_not_found` argument when it is supplied and `#N/A`
when it is omitted; an `if_not_found` passed as `undefined` counts as omitted. -/
theorem XLOOKUP_not_found (key : Value) (lookup_array return_array : Arg)
    (if_not_found : Option Arg) (match_mode search_mode : Int)
    (hkey : isPlain key = true)
    (hmm : match_mode ∈ [-1, 0, 1, 2]) (hsm : search_mode ∈ [-2, -1, 1, 2])
    (hwild : match_mode = 2 → search_mode = 1 ∨ search_mode = -1)
    (hvalid : XLOOKUP.validArrays lookup_array return_array = true)
    (hno : ∀ x ∈ lookup_array.cells, XLOOKUP.isMatch match_mode key x = false) :
    (∀ fallback, if_not_found = some fallback → fallback ≠ .single .undefined →
      XLOOKUP (.single key) lookup_array return_array if_not_found match_mode search_mode =
        .ok fallback) ∧
    (if_not_found = none ∨ if_not_found = some (.single .undefined) →
      XLOOKUP (.single key) lookup_array return_array if_not_found match_mode search_mode =
        .ok (.single error.na)) := by
  have hs := xLookupSearchFunctions_no_match key lookup_array.cells match_mode search_mode
    hmm hwild hno
  obtain ⟨hany, hundef⟩ := anyError_plain_key key lookup_array return_array hkey hvalid
  have hmodes : ¬ (match_mode ∉ [-1, 0, 1, 2] ∨ search_mode ∉ [-2, -1, 1, 2]) := by
    simp only [not_or, not_not]
    exact ⟨hmm, hsm⟩
  have hw : ¬ (match_mode = 2 ∧ (search_mode = 2 ∨ search_mode = -2)) := by
    rintro ⟨h1, h2⟩
    have := hwild h1
    omega
  have hmain : XLOOKUP (.single key) lookup_array return_array if_not_found match_mode
      search_mode =
      .ok (match if_not_found with
        | none => .single error.na
        | some (.single .undefined) => .single error.na
        | some fallback => fallback) := by
    unfold XLOOKUP
    rw [if_neg hundef]
    simp only [hany]
    rw [if_neg hmodes, if_neg hw]
    cases lookup_array with
    | single v => exact XLOOKUP_search_not_found _ _ _ _ _ _ _ hs
    | range lookupRows =>
      cases return_array with
      | single r => simp [XLOOKUP.validArrays] at hvalid
      | range returnRows =>
        simp only [XLOOKUP.validArrays] at hvalid
        simp only [getVariableType]
        by_cases h1 : lookupRows.length = 1
        · simp only [h1, if_true] at hvalid ⊢
          cases hl : lookupRows.head? with
          | none => simp [hl] at hvalid
          | some lookupRow =>
            cases hr : returnRows.head? with
            | none => simp [hl, hr] at hvalid
            | some returnRow =>
              simp only [hl, hr, decide_eq_true_eq] at hvalid
              simp only [reduceCtorEq, if_false, ne_eq, hvalid, not_true_eq_false]
              exact XLOOKUP_search_not_found _ _ _ _ _ _ _ hs
        · simp only [h1, if_false, Bool.and_eq_true, decide_eq_true_eq] at hvalid ⊢
          simp only [hvalid.1, if_true, reduceCtorEq, if_false, ne_eq, hvalid.2,
            not_true_eq_false]
          exact XLOOKUP_search_not_found _ _ _ _ _ _ _ hs
  constructor
  · intro fallback hf hne
    rw [hmain, hf]
    cases fallback with
    | single v =>
      cases v with
      | undefined => exact absurd rfl hne
      | _ => rfl
    | range rows => rfl
  · rintro (hf | hf) <;> rw [hmain, hf]

/-- The spec's examples of C2: `XLOOKUP(99, [1,3,5], ['a','b','c'], 'missing')` returns
`'missing'`, and `#N/A` without the fallback or with `undefined` in its place. -/
theorem XLOOKUP_not_found_witness :
    XLOOKUP (.single (.number 99)) (.range [[.number 1, .number 3, .number 5]])
      (.range [[.text "a", .text "b", .text "c"]]) (some (.single (.text "missing"))) 0 1 =
      .ok (.single (.text "missing")) ∧
    XLOOKUP (.single (.number 99)) (.range [[.number 1, .number 3, .number 5]])
      (.range [[.text "a", .text "b", .text "c"]]) none 0 1 = .ok (.single error.na) ∧
    XLOOKUP (.single (.number 99)) (.range [[.number 1, .number 3, .number 5]])
      (.range [[.text "a", .text "b", .text "c"]]) (some (.single .undefined)) 0 (-1) =
      .ok (.single error.na) :=
  ⟨(XLOOKUP_not_found (.number 99) (.range [[.number 1, .number 3, .number 5]])
      (.range [[.text "a", .text "b", .text "c"]]) (some (.single (.text "missing"))) 0 1
      rfl (by decide) (by decide) (by decide) rfl (by decide)).1 _ rfl (by decide),
    (XLOOKUP_not_found (.number 99) (.range [[.number 1, .number 3, .number 5]])
      (.range [[.text "a", .text "b", .text "c"]]) none 0 1
      rfl (by decide) (by decide) (by decide) rfl (by decide)).2 (Or.inl rfl),
    (XLOOKUP_not_found (.number 99) (.range [[.number 1, .number 3, .number 5]])
      (.range [[.text "a", .text "b", .text "c"]]) (some (.single .undefined)) 0 (-1)
      rfl (by decide) (by decide) (by decide) rfl (by decide)).2 (Or.inr rfl)⟩

/-! ## Lemmas: the sorted copy of XMATCH -/

theorem XMATCH_mem_sort (l : List Value) (x : Value) : x ∈ XMATCH.sort l ↔ x ∈ l := by
  unfold XMATCH.sort
  rw [List.mem_append, List.mem_insertionSort, List.mem_filter, List.mem_filter]
  by_cases h : x = .undefined <;> simp [h]

theorem find?_decide_eq_of_mem (l : List Value) (k : Value) (h : k ∈ l) :
    l.find? (fun v => decide (v = k)) = some k := by
  induction l with
  | nil => cases h
  | cons x rest ih =>
    by_cases hx : x = k
    · simp [hx]
    · have hk : k ∈ rest := by
        rcases List.mem_cons.mp h with h1 | h1
        · exact absurd h1.symm hx
        · exact h1
      simp [hx, ih hk]

theorem indexOf_first (l : List Value) (k : Value) (i : Nat) (hi : l[i]? = some k)
    (hleast : ∀ j, j < i → l[j]? ≠ some k) : indexOf l k = (i : Int) := by
  have hlen : i < l.length := by
    rcases Nat.lt_or_ge i l.length with h | h
    · exact h
    · rw [List.getElem?_eq_none h] at hi; cases hi
  have hfind : l.indexOf? k = some i := by
    unfold List.indexOf?
    rw [List.findIdx?_eq_some_iff_getElem]
    refine ⟨hlen, ?_, ?_⟩
    · rw [List.getElem?_eq_getElem hlen] at hi
      simpa using hi
    · intro j hj
      have hjl : j < l.length := by omega
      have := hleast j hj
      rw [List.getElem?_eq_getElem hjl] at this
      simpa using this
  simp only [indexOf, hfind]

/-! ## Theorems: XMATCH with match mode 0 and search mode 1 -/

/-- C5. For every single-row or single-column range and every key (one that is present, not
`undefined`), `XMATCH(key, range, 0, 1)` returns 1 plus the index of the first occurrence
of the key among the cells of the range in their original order, text compared without
regard to letter case, and `#N/A` when the key does not occur. -/
theorem XMATCH_first_occurrence (key : Value) (rows : List (List Value))
    (hkey : key ≠ .undefined) (hshape : getVariableType (.range rows) ≠ .matrix) :
    (∀ i : Nat, rows.flatten[i]?.map lowerValue = some (lowerValue key) →
      (∀ j, j < i → rows.flatten[j]?.map lowerValue ≠ some (lowerValue key)) →
      XMATCH key (.range rows) 0 1 = .ok (.number (1 + (i : Int)))) ∧
    ((∀ x ∈ rows.flatten, lowerValue x ≠ lowerValue key) →
      XMATCH key (.range rows) 0 1 = .ok error.na) := by
  have hcheck : (fun v => XMATCH.checkMatchModeRules 0 v (lowerValue key)) =
      (fun v => decide (v = lowerValue key)) := by
    funext v
    simp [XMATCH.checkMatchModeRules, excelTypesComparator.isEqualsTo]
  have hX : XMATCH key (.range rows) 0 1 =
      match (XMATCH.sort (rows.flatten.map lowerValue)).find?
          (fun v => decide (v = lowerValue key)) with
      | some v =>
        if indexOf (rows.flatten.map lowerValue) v ≥ 0 then
          .ok (.number (1 + indexOf (rows.flatten.map lowerValue) v))
        else .ok error.na
      | none => .ok error.na := by
    unfold XMATCH
    simp only [if_neg hkey, if_neg hshape]
    simp [hcheck]
  constructor
  · intro i hi hleast
    have hi2 : (rows.flatten.map lowerValue)[i]? = some (lowerValue key) := by
      rw [List.getElem?_map]; exact hi
    have hleast2 : ∀ j, j < i → (rows.flatten.map lowerValue)[j]? ≠ some (lowerValue key) := by
      intro j hj
      rw [List.getElem?_map]; exact hleast j hj
    have hmem : lowerValue key ∈ XMATCH.sort (rows.flatten.map lowerValue) := by
      rw [XMATCH_mem_sort]
      exact List.getElem?_mem hi2
    rw [hX, find?_decide_eq_of_mem _ _ hmem]
    simp only [indexOf_first _ _ i hi2 hleast2]
    rw [if_pos (by omega)]
  · intro hno
    have hnone : (XMATCH.sort (rows.flatten.map lowerValue)).find?
        (fun v => decide (v = lowerValue key)) = none := by
      rw [List.find?_eq_none]
      intro x hx
      rw [XMATCH_mem_sort, List.mem_map] at hx
      obtain ⟨y, hy, rfl⟩ := hx
      simpa using hno y hy
    rw [hX, hnone]

/-- The spec's example of C5: `XMATCH(2, [3,1,2,2], 0, 1)` returns `3`. -/
theorem XMATCH_first_occurrence_witness :
    XMATCH (.number 2) (.range [[.number 3, .number 1, .number 2, .number 2]]) 0 1 =
      .ok (.number (1 + ((2 : Nat) : Int))) :=
  (XMATCH_first_occurrence (.number 2) [[.number 3, .number 1, .number 2, .number 2]]
    (by decide) (by decide)).1 2 (by decide) (by decide)

/-! ## Lemmas: approximateBinarySearch on an array of numbers -/

theorem jsGet_map_number (a : List Int) (j : Nat) (hj : j < a.length) :
    jsGet (a.map Value.number) (j : Int) = .number (a.getD j 0) := by
  rw [jsGet_natCast, List.getD_eq_getElem _ _ (by simpa using hj),
    List.getD_eq_getElem _ _ hj]
  simp

theorem jsLt_number (x y : Int) : jsLt (.number x) (.number y) = decide (x < y) := rfl

theorem approximateBinarySearch_skip_same_type (valueType : JsType) (arr : List Value)
    (n : Nat) (middle end_ : Int) (h : typeOf (jsGet arr middle) = valueType) :
    approximateBinarySearch.skip valueType arr n middle end_ = middle := by
  cases n with
  | zero => rfl
  | succ n =>
    rw [approximateBinarySearch.skip, if_neg]
    rintro ⟨_, h2⟩
    exact h2 h.symm

theorem sorted_getD_le (a : List Int) (hsorted : a.Pairwise (· ≤ ·)) (i j : Nat)
    (hij : i ≤ j) (hj : j < a.length) : a.getD i 0 ≤ a.getD j 0 := by
  rcases Nat.eq_or_lt_of_le hij with h | h
  · subst h; exact le_refl _
  · have hi : i < a.length := by omega
    rw [List.getD_eq_getElem _ _ hi, List.getD_eq_getElem _ _ hj]
    exact (List.pairwise_iff_getElem.mp hsorted) i j hi hj h

theorem approximateBinarySearch_loop_numbers (k : Int) (a : List Int)
    (hsorted : a.Pairwise (· ≤ ·)) :
    ∀ (fuel : Nat) (start end_ : Int) (highestValidValue : Value),
      0 ≤ start → end_ < a.length → start ≤ end_ + 1 → (end_ + 1 - start).toNat < fuel →
      (∀ j : Nat, (j : Int) < start → a.getD j 0 < k) →
      (∀ j : Nat, j < a.length → end_ < (j : Int) → k < a.getD j 0) →
      highestValidValue = (if start = 0 then Value.blank else Value.number (start - 1)) →
      ∃ r, approximateBinarySearch.loop .number (.number k) (a.map Value.number) fuel start end_
          highestValidValue = some r ∧
        ((r = .blank ∧ ∀ j : Nat, j < a.length → k < a.getD j 0) ∨
         (∃ i : Nat, r = .number (i : Int) ∧ i < a.length ∧ a.getD i 0 ≤ k ∧
            (a.getD i 0 ≠ k → ∀ j : Nat, j < a.length → a.getD j 0 ≤ k → j ≤ i))) := by
  intro fuel
  induction fuel with
  | zero => intro start end_ _ _ _ _ hf; omega
  | succ fuel ih =>
    intro start end_ hvv h0 h1 h2 hf hlow hhigh hhvv
    rw [approximateBinarySearch.loop]
    by_cases hse : end_ ≥ start
    · have htdiv : Int.tdiv (end_ - start) 2 = (end_ - start) / 2 :=
        Int.tdiv_eq_ediv (by omega) (by decide)
      rw [htdiv]
      obtain ⟨m, hm⟩ := Int.eq_ofNat_of_zero_le (show 0 ≤ start + (end_ - start) / 2 by omega)
      have hm1 : start ≤ (m : Int) := by omega
      have hm2 : (m : Int) ≤ end_ := by omega
      have hmlen : m < a.length := by omega
      rw [hm]
      have hget := jsGet_map_number a m hmlen
      have hskip := approximateBinarySearch_skip_same_type .number (a.map Value.number)
        (end_ + 1 - (m : Int)).toNat (m : Int) end_ (by rw [hget]; rfl)
      simp only [if_pos hse, hskip, hget, lowerValue]
      rw [if_neg (by omega), if_neg (by omega)]
      by_cases hgt : a.getD m 0 < k
      · have hg : jsGt (Value.number k) (Value.number (a.getD m 0)) = true := by
          rw [jsGt, jsLt_number]; exact decide_eq_true hgt
        rw [if_pos hg]
        apply ih ((m : Int) + 1) end_ _ (by omega) h1 (by omega) (by omega)
        · intro j hj
          have hjm : j ≤ m := by omega
          exact lt_of_le_of_lt (sorted_getD_le a hsorted j m hjm hmlen) hgt
        · exact hhigh
        · rw [if_neg (by omega)]
          congr 1
          omega
      · have hg : ¬ jsGt (Value.number k) (Value.number (a.getD m 0)) = true := by
          rw [jsGt, jsLt_number]; simpa using hgt
        rw [if_neg hg]
        by_cases hlt : k < a.getD m 0
        · have hl : jsLt (Value.number k) (Value.number (a.getD m 0)) = true := by
            rw [jsLt_number]; exact decide_eq_true hlt
          rw [if_pos hl]
          apply ih start ((m : Int) - 1) _ h0 (by omega) (by omega) (by omega) hlow
          · intro j hjlen hj
            have hmj : m ≤ j := by omega
            exact lt_of_lt_of_le hlt (sorted_getD_le a hsorted m j hmj hjlen)
          · exact hhvv
        · have hl : ¬ jsLt (Value.number k) (Value.number (a.getD m 0)) = true := by
            rw [jsLt_number]; simpa using hlt
          rw [if_neg hl]
          refine ⟨_, rfl, Or.inr ⟨m, rfl, hmlen, by omega, ?_⟩⟩
          intro hne
          omega
    · rw [if_neg hse]
      refine ⟨_, rfl, ?_⟩
      by_cases hs0 : start = 0
      · left
        rw [hhvv, if_pos hs0]
        refine ⟨rfl, ?_⟩
        intro j hj
        exact hhigh j hj (by omega)
      · right
        obtain ⟨i, hi⟩ := Int.eq_ofNat_of_zero_le (show 0 ≤ start - 1 by omega)
        refine ⟨i, ?_, by omega, ?_, ?_⟩
        · rw [hhvv, if_neg hs0, hi]
        · exact le_of_lt (hlow i (by omega))
        · intro _ j hjlen hjk
          by_contra hcon
          have := hhigh j hjlen (by omega)
          omega

/-! ## Theorems: approximateBinarySearch on a sorted array of numbers -/

/-- C6, the claim as stated fails on duplicates of the key: in the ascending array
`[5, 5, 5]` the search for `5` returns index 1, the first midpoint, although index 2 also
holds an element that is at most the key. -/
theorem approximateBinarySearch_duplicate_key_not_last :
    List.Pairwise (fun x y : Int => x ≤ y) [5, 5, 5] ∧
    approximateBinarySearch (.number 5) ([5, 5, 5].map Value.number) = some (.number 1) ∧
    ([5, 5, 5] : List Int).getD 2 0 ≤ 5 := by
  decide

/-- C6, amended. For every array of numbers `a` sorted in ascending (non-decreasing) order
and every numeric key `k`, `approximateBinarySearch(k, a)` returns `null` when every element
is greater than `k`, and otherwise an index `i` with `a[i] <= k`; when `a[i]` is not `k`
itself, `i` is the greatest index with `a[i] <= k`, and when `a[i]` is `k` it is the index
of one of the elements equal to `k`, not necessarily the last of them. -/
theorem approximateBinarySearch_sorted_numbers (k : Int) (a : List Int)
    (hsorted : a.Pairwise (fun x y => x ≤ y)) :
    ∃ r, approximateBinarySearch (.number k) (a.map Value.number) = some r ∧
      ((r = .blank ∧ ∀ j : Nat, j < a.length → k < a.getD j 0) ∨
       (∃ i : Nat, r = .number (i : Int) ∧ i < a.length ∧ a.getD i 0 ≤ k ∧
          (a.getD i 0 ≠ k → ∀ j : Nat, j < a.length → a.getD j 0 ≤ k → j ≤ i))) := by
  unfold approximateBinarySearch
  simp only [typeOf, lowerValue, List.length_map]
  apply approximateBinarySearch_loop_numbers k a hsorted (a.length + 1) 0
    ((a.length : Int) - 1) .blank (le_refl 0) (by omega) (by omega) (by omega)
  · intro j hj; omega
  · intro j hj hj2; omega
  · rfl

/-- An instance of C6 as amended: the sorted array `[1, 3, 5, 5, 9]` and the key `5`. -/
theorem approximateBinarySearch_sorted_numbers_witness :
    List.Pairwise (fun x y : Int => x ≤ y) [1, 3, 5, 5, 9] ∧
    ∃ r, approximateBinarySearch (.number 5) ([1, 3, 5, 5, 9].map Value.number) = some r ∧
      ((r = .blank ∧ ∀ j : Nat, j < [1, 3, 5, 5, (9 : Int)].length →
          5 < [1, 3, 5, 5, (9 : Int)].getD j 0) ∨
       (∃ i : Nat, r = .number (i : Int) ∧ i < [1, 3, 5, 5, (9 : Int)].length ∧
          [1, 3, 5, 5, (9 : Int)].getD i 0 ≤ 5 ∧
          ([1, 3, 5, 5, (9 : Int)].getD i 0 ≠ 5 → ∀ j : Nat, j < [1, 3, 5, 5, (9 : Int)].length →
            [1, 3, 5, 5, (9 : Int)].getD j 0 ≤ 5 → j ≤ i))) :=
  ⟨by decide, approximateBinarySearch_sorted_numbers 5 [1, 3, 5, 5, 9] (by decide)⟩

/-! ## Lemmas: the binary searches of XLOOKUP on a sorted array that holds the key -/

theorem xLookupBinarySearch_walk_eq (t : Value) (arr : List Value) (i : Nat) :
    ∀ m : Nat, i ≤ m →
      (∀ j : Nat, i ≤ j → j < m → compare t (jsGet arr (j : Int)) = 0) →
      (∀ j : Nat, j + 1 = i → compare t (jsGet arr (j : Int)) ≠ 0) →
      xLookupBinarySearch.walk t arr m = i := by
  intro m
  induction m with
  | zero => intro h _ _; rw [xLookupBinarySearch.walk]; omega
  | succ m ih =>
    intro him hrun hstop
    rw [xLookupBinarySearch.walk]
    by_cases hi : i = m + 1
    · rw [if_neg (hstop m hi.symm), hi]
    · rw [if_pos (hrun m (by omega) (by omega))]
      exact ih (by omega) (fun j h1 h2 => hrun j h1 (by omega)) hstop

theorem xLookupBinarySearch_loop_found (t : Value) (arr : List Value) (i : Nat)
    (hi : i < arr.length)
    (hzero : compare t (jsGet arr (i : Int)) = 0)
    (hbefore : ∀ j : Nat, j < i → compare t (jsGet arr (j : Int)) > 0)
    (hafter : ∀ j : Nat, i ≤ j → j < arr.length → compare t (jsGet arr (j : Int)) ≤ 0)
    (hrun : ∀ j m : Nat, i ≤ j → j ≤ m → m < arr.length →
      compare t (jsGet arr (m : Int)) = 0 → compare t (jsGet arr (j : Int)) = 0) :
    ∀ (fuel : Nat) (left right : Int), 0 ≤ left → left ≤ i → (i : Int) ≤ right →
      right < arr.length → (right + 1 - left).toNat < fuel →
      xLookupBinarySearch.loop t arr fuel left right = some (.returned (.number (i : Int))) := by
  intro fuel
  induction fuel with
  | zero => intro left right _ _ _ _ hf; omega
  | succ fuel ih =>
    intro left right h0 hl hr hlen hf
    rw [xLookupBinarySearch.loop, if_pos (by omega)]
    obtain ⟨m, hm⟩ := Int.eq_ofNat_of_zero_le (show 0 ≤ (left + right) / 2 by omega)
    have hm1 : left ≤ (m : Int) := by omega
    have hm2 : (m : Int) ≤ right := by omega
    have hmlen : m < arr.length := by omega
    rw [hm]
    simp only
    by_cases hc : compare t (jsGet arr (m : Int)) = 0
    · rw [if_pos hc]
      have him : i ≤ m := by
        by_contra hcon
        have := hbefore m (by omega)
        omega
      have hw := xLookupBinarySearch_walk_eq t arr i m him
        (fun j h1 h2 => hrun j m h1 (by omega) hmlen hc)
        (fun j hj => by have := hbefore j (by omega); omega)
      simp only [Int.toNat_ofNat, hw]
    · rw [if_neg hc]
      by_cases hpos : compare t (jsGet arr (m : Int)) > 0
      · have hmi : m < i := by
          by_contra hcon
          have := hafter m (by omega) hmlen
          omega
        rw [if_pos (by simpa using hpos)]
        exact ih ((m : Int) + 1) right (by omega) (by omega) hr hlen (by omega)
      · have hmi : i < m := by
          by_contra hcon
          rcases Nat.lt_or_ge m i with h | h
          · exact hpos (hbefore m h)
          · have : m = i := by omega
            subst this
            exact hc hzero
        rw [if_neg (by simpa using hpos)]
        exact ih left ((m : Int) - 1) h0 hl (by omega) (by omega) (by omega)

theorem sortedAscending_get (arr : List Value) (hsorted : SortedAscending arr) (i j : Nat)
    (hij : i < j) (hj : j < arr.length) :
    compare (lowerValue (jsGet arr (i : Int))) (jsGet arr (j : Int)) ≤ 0 := by
  have hi : i < arr.length := by omega
  rw [jsGet_of_getElem? arr i _ (List.getElem?_eq_getElem hi),
    jsGet_of_getElem? arr j _ (List.getElem?_eq_getElem hj)]
  exact (List.pairwise_iff_getElem.mp hsorted) i j hi hj hij

theorem sortedDescending_get (arr : List Value) (hsorted : SortedDescending arr) (i j : Nat)
    (hij : i < j) (hj : j < arr.length) :
    compare (lowerValue (jsGet arr (j : Int))) (jsGet arr (i : Int)) ≤ 0 := by
  have hi : i < arr.length := by omega
  rw [jsGet_of_getElem? arr i _ (List.getElem?_eq_getElem hi),
    jsGet_of_getElem? arr j _ (List.getElem?_eq_getElem hj)]
  exact (List.pairwise_iff_getElem.mp hsorted) i j hi hj hij

theorem sortedAscending_before (t : Value) (arr : List Value) (hsorted : SortedAscending arr)
    (j m : Nat) (hjm : j < m) (hm : m < arr.length)
    (hzero : compare t (jsGet arr (m : Int)) = 0) : compare t (jsGet arr (j : Int)) ≥ 0 := by
  rw [compare_eq_zero_iff] at hzero
  rw [hzero]
  exact compare_antisymm _ _ (sortedAscending_get arr hsorted j m hjm hm)

theorem sortedAscending_after (t : Value) (arr : List Value) (hsorted : SortedAscending arr)
    (m j : Nat) (hmj : m < j) (hj : j < arr.length)
    (hzero : compare t (jsGet arr (m : Int)) = 0) : compare t (jsGet arr (j : Int)) ≤ 0 := by
  rw [compare_eq_zero_iff] at hzero
  rw [hzero]
  exact sortedAscending_get arr hsorted m j hmj hj

theorem key_at_of_getElem?_map (key : Value) (arr : List Value) (i : Nat) :
    arr[i]?.map lowerValue = some (lowerValue key) ↔
      i < arr.length ∧ compare (lowerValue key) (jsGet arr (i : Int)) = 0 := by
  rw [compare_eq_zero_iff]
  constructor
  · intro h
    have hlen : i < arr.length := by
      rcases Nat.lt_or_ge i arr.length with h1 | h1
      · exact h1
      · rw [List.getElem?_eq_none h1] at h; cases h
    refine ⟨hlen, ?_⟩
    rw [jsGet_of_getElem? arr i _ (List.getElem?_eq_getElem hlen)]
    rw [List.getElem?_eq_getElem hlen] at h
    simpa using h.symm
  · rintro ⟨hlen, h⟩
    rw [jsGet_of_getElem? arr i _ (List.getElem?_eq_getElem hlen)] at h
    rw [List.getElem?_eq_getElem hlen, Option.map_some', h]

theorem xLookupBinarySearch_found_lowest (key : Value) (arr : List Value) (i : Nat)
    (match_mode : Int) (hsorted : SortedAscending arr)
    (hi : arr[i]?.map lowerValue = some (lowerValue key))
    (hleast : ∀ j, j < i → arr[j]?.map lowerValue ≠ some (lowerValue key)) :
    xLookupBinarySearch key arr match_mode = some (.number (i : Int)) := by
  obtain ⟨hlen, hzero⟩ := (key_at_of_getElem?_map key arr i).mp hi
  have hbefore : ∀ j : Nat, j < i → compare (lowerValue key) (jsGet arr (j : Int)) > 0 := by
    intro j hj
    have h1 := sortedAscending_before _ arr hsorted j i hj hlen hzero
    have h2 : compare (lowerValue key) (jsGet arr (j : Int)) ≠ 0 := by
      intro h0
      exact hleast j hj ((key_at_of_getElem?_map key arr j).mpr ⟨by omega, h0⟩)
    omega
  have hafter : ∀ j : Nat, i ≤ j → j < arr.length →
      compare (lowerValue key) (jsGet arr (j : Int)) ≤ 0 := by
    intro j hij hj
    rcases Nat.eq_or_lt_of_le hij with h | h
    · subst h; omega
    · exact sortedAscending_after _ arr hsorted i j h hj hzero
  have hrun : ∀ j m : Nat, i ≤ j → j ≤ m → m < arr.length →
      compare (lowerValue key) (jsGet arr (m : Int)) = 0 →
      compare (lowerValue key) (jsGet arr (j : Int)) = 0 := by
    intro j m hij hjm hm hmz
    rcases Nat.eq_or_lt_of_le hjm with h | h
    · subst h; exact hmz
    · have h1 := sortedAscending_before _ arr hsorted j m h hm hmz
      have h2 := hafter j hij (by omega)
      omega
  unfold xLookupBinarySearch
  simp only
  rw [xLookupBinarySearch_loop_found (lowerValue key) arr i hlen hzero hbefore hafter hrun
    (arr.length + 1) 0 ((arr.length : Int) - 1) (le_refl 0) (by omega) (by omega) (by omega)
    (by omega)]

/-! ## Theorems: the binary searches of XLOOKUP and a run of duplicates -/

/-- C7. For every array sorted ascending under the total order of `compare` and every key
that occurs in it, `xLookupBinarySearch(key, arr, 0)` returns the lowest index of the
elements equal to the key. An element is equal to the key when the two are the same value
once text is lower-cased, which is when `compare` returns 0 for them. -/
theorem xLookupBinarySearch_exact_lowest (key : Value) (arr : List Value) (i : Nat)
    (hsorted : SortedAscending arr)
    (hi : arr[i]?.map lowerValue = some (lowerValue key))
    (hleast : ∀ j, j < i → arr[j]?.map lowerValue ≠ some (lowerValue key)) :
    xLookupBinarySearch key arr 0 = some (.number (i : Int)) := by
  exact xLookupBinarySearch_found_lowest key arr i 0 hsorted hi hleast

/-- An instance of C7: in `[1, 'b', 'B', 'b', true]` the key `'B'` has its run at the
indices 1 to 3, and the search returns 1. -/
theorem xLookupBinarySearch_exact_lowest_witness :
    xLookupBinarySearch (.text "B")
      [.number 1, .text "b", .text "B", .text "b", .boolean true] 0 =
      some (.number ((1 : Nat) : Int)) :=
  xLookupBinarySearch_exact_lowest (.text "B")
    [.number 1, .text "b", .text "B", .text "b", .boolean true] 1
    (by decide) (by decide) (by decide)

/-! ## Lemmas: the descending binary search of XLOOKUP on an array that holds the key -/

theorem invertedXLookupBinarySearch_walk_eq (t : Value) (arr : List Value) (i : Nat)
    (hi : i < arr.length) :
    ∀ (n m : Nat), m ≤ i → arr.length - 1 - m ≤ n →
      (∀ j : Nat, m < j → j ≤ i → compare t (jsGet arr (j : Int)) = 0) →
      (∀ j : Nat, j = i + 1 → j < arr.length → compare t (jsGet arr (j : Int)) ≠ 0) →
      invertedXLookupBinarySearch.walk t arr n (m : Int) = (i : Int) := by
  intro n
  induction n with
  | zero =>
    intro m hmi hn _ _
    rw [invertedXLookupBinarySearch.walk]
    have : m = i := by omega
    rw [this]
  | succ n ih =>
    intro m hmi hn hrun hstop
    rw [invertedXLookupBinarySearch.walk]
    have hcast : ((m : Int) + 1) = ((m + 1 : Nat) : Int) := by push_cast; rfl
    by_cases hm : m = i
    · subst hm
      rw [if_neg]
      rintro ⟨h1, h2⟩
      rw [hcast] at h2
      exact hstop (m + 1) rfl (by omega) h2
    · have hlt : m < i := by omega
      rw [if_pos ⟨by omega, by rw [hcast]; exact hrun (m + 1) (by omega) (by omega)⟩, hcast]
      exact ih (m + 1) (by omega) (by omega) (fun j h1 h2 => hrun j (by omega) h2) hstop

theorem invertedXLookupBinarySearch_loop_found (t : Value) (arr : List Value) (i : Nat)
    (hi : i < arr.length)
    (hzero : compare t (jsGet arr (i : Int)) = 0)
    (hafter : ∀ j : Nat, i < j → j < arr.length → compare t (jsGet arr (j : Int)) > 0)
    (hbefore : ∀ j : Nat, j ≤ i → compare t (jsGet arr (j : Int)) ≤ 0)
    (hrun : ∀ m j : Nat, m ≤ j → j ≤ i →
      compare t (jsGet arr (m : Int)) = 0 → compare t (jsGet arr (j : Int)) = 0) :
    ∀ (fuel : Nat) (left right : Int), 0 ≤ left → left ≤ i → (i : Int) ≤ right →
      right < arr.length → (right + 1 - left).toNat < fuel →
      invertedXLookupBinarySearch.loop t arr fuel left right =
        some (.returned (.number (i : Int))) := by
  intro fuel
  induction fuel with
  | zero => intro left right _ _ _ _ hf; omega
  | succ fuel ih =>
    intro left right h0 hl hr hlen hf
    rw [invertedXLookupBinarySearch.loop, if_pos (by omega)]
    obtain ⟨m, hm⟩ := Int.eq_ofNat_of_zero_le (show 0 ≤ (left + right) / 2 by omega)
    have hm1 : left ≤ (m : Int) := by omega
    have hm2 : (m : Int) ≤ right := by omega
    have hmlen : m < arr.length := by omega
    rw [hm]
    simp only
    by_cases hc : compare t (jsGet arr (m : Int)) = 0
    · rw [if_pos hc]
      have hmi : m ≤ i := by
        by_contra hcon
        have := hafter m (by omega) hmlen
        omega
      have hw := invertedXLookupBinarySearch_walk_eq t arr i hi
        ((arr.length : Int) - 1 - (m : Int)).toNat m hmi (by omega)
        (fun j h1 h2 => hrun m j (by omega) h2 hc)
        (fun j hj hjl => by have := hafter j (by omega) hjl; omega)
      rw [hw]
    · rw [if_neg hc]
      by_cases hneg : compare t (jsGet arr (m : Int)) < 0
      · have hmi : m < i := by
          by_contra hcon
          rcases Nat.lt_or_ge i m with h | h
          · have := hafter m h hmlen
            omega
          · have : m = i := by omega
            subst this
            exact hc hzero
        rw [if_pos (by simpa using hneg)]
        exact ih ((m : Int) + 1) right (by omega) (by omega) hr hlen (by omega)
      · have hmi : i < m := by
          by_contra hcon
          have := hbefore m (by omega)
          omega
        rw [if_neg (by simpa using hneg)]
        exact ih left ((m : Int) - 1) h0 hl (by omega) (by omega) (by omega)

/-! ## Theorems: the descending binary search of XLOOKUP and a run of duplicates -/

/-- C8, the claim as stated fails: in the descending array `[5, 5, 3]` the key `5` has its
run at the indices 0 and 1, and `invertedXLookupBinarySearch(5, arr, 0)` returns 1, the
highest index of the run, not 0. -/
theorem invertedXLookupBinarySearch_returns_last_of_run :
    SortedDescending [.number 5, .number 5, .number 3] ∧
    [Value.number 5, .number 5, .number 3][0]?.map lowerValue =
      some (lowerValue (.number 5)) ∧
    invertedXLookupBinarySearch (.number 5) [.number 5, .number 5, .number 3] 0 =
      some (.number 1) := by
  decide

/-- C8, amended. For every array sorted descending under the total order of `compare` and
every key that occurs in it, `invertedXLookupBinarySearch(key, arr, 0)` returns the highest
index of the elements equal to the key: from the element found the search walks toward the
end of the array. -/
theorem invertedXLookupBinarySearch_exact_highest (key : Value) (arr : List Value) (i : Nat)
    (hsorted : SortedDescending arr)
    (hi : arr[i]?.map lowerValue = some (lowerValue key))
    (hgreatest : ∀ j, j < arr.length → i < j →
      arr[j]?.map lowerValue ≠ some (lowerValue key)) :
    invertedXLookupBinarySearch key arr 0 = some (.number (i : Int)) := by
  obtain ⟨hlen, hzero⟩ := (key_at_of_getElem?_map key arr i).mp hi
  have hle_before : ∀ j m : Nat, j < m → m < arr.length →
      compare (lowerValue key) (jsGet arr (m : Int)) = 0 →
      compare (lowerValue key) (jsGet arr (j : Int)) ≤ 0 := by
    intro j m hjm hm hmz
    rw [compare_eq_zero_iff] at hmz
    rw [hmz]
    exact sortedDescending_get arr hsorted j m hjm hm
  have hge_after : ∀ m j : Nat, m < j → j < arr.length →
      compare (lowerValue key) (jsGet arr (m : Int)) = 0 →
      compare (lowerValue key) (jsGet arr (j : Int)) ≥ 0 := by
    intro m j hmj hj hmz
    rw [compare_eq_zero_iff] at hmz
    rw [hmz]
    exact compare_antisymm _ _ (sortedDescending_get arr hsorted m j hmj hj)
  have hafter : ∀ j : Nat, i < j → j < arr.length →
      compare (lowerValue key) (jsGet arr (j : Int)) > 0 := by
    intro j hij hj
    have h1 := hge_after i j hij hj hzero
    have h2 : compare (lowerValue key) (jsGet arr (j : Int)) ≠ 0 := by
      intro h0
      exact hgreatest j hj hij ((key_at_of_getElem?_map key arr j).mpr ⟨hj, h0⟩)
    omega
  have hbefore : ∀ j : Nat, j ≤ i → compare (lowerValue key) (jsGet arr (j : Int)) ≤ 0 := by
    intro j hji
    rcases Nat.eq_or_lt_of_le hji with h | h
    · subst h; omega
    · exact hle_before j i h hlen hzero
  have hrun : ∀ m j : Nat, m ≤ j → j ≤ i →
      compare (lowerValue key) (jsGet arr (m : Int)) = 0 →
      compare (lowerValue key) (jsGet arr (j : Int)) = 0 := by
    intro m j hmj hji hmz
    rcases Nat.eq_or_lt_of_le hmj with h | h
    · subst h; exact hmz
    · have h1 := hge_after m j h (by omega) hmz
      have h2 := hbefore j hji
      omega
  unfold invertedXLookupBinarySearch
  simp only
  rw [invertedXLookupBinarySearch_loop_found (lowerValue key) arr i hlen hzero hafter hbefore
    hrun (arr.length + 1) 0 ((arr.length : Int) - 1) (le_refl 0) (by omega) (by omega)
    (by omega) (by omega)]

/-- An instance of C8 as amended: in `[true, 'b', 'B', 'b', 1]` the key `'B'` has its run
at the indices 1 to 3, and the search returns 3. -/
theorem invertedXLookupBinarySearch_exact_highest_witness :
    invertedXLookupBinarySearch (.text "B")
      [.boolean true, .text "b", .text "B", .text "b", .number 1] 0 =
      some (.number ((3 : Nat) : Int)) :=
  invertedXLookupBinarySearch_exact_highest (.text "B")
    [.boolean true, .text "b", .text "B", .text "b", .number 1] 3
    (by decide) (by decide) (by decide)

/-! ## Lemmas: the comparator and the binary search of XMATCH -/

theorem excelTypesComparator_isLessThan_asymm (a b : Value)
    (h : excelTypesComparator.isLessThan a b = true) :
    excelTypesComparator.isLessThan b a = false := by
  cases a <;> cases b <;>
    simp [excelTypesComparator.isLessThan, typeOf] at h ⊢ <;>
    exact jsLt_asymm _ _ h

theorem excelTypesComparator_isGreaterThan_eq (a b : Value) :
    excelTypesComparator.isGreaterThan a b = excelTypesComparator.isLessThan b a := by
  cases a <;> cases b <;>
    simp [excelTypesComparator.isGreaterThan, excelTypesComparator.isLessThan, typeOf, jsGt]

theorem xmatchCustomBinarySearch_loop_exit (lookupValue : Value) (arr : List Value)
    (match_mode search_mode : Int) (fuel : Nat) (low up : Int) (lastMatch exactMatch : Option Int)
    (h : ¬ low ≤ up) :
    xmatchCustomBinarySearch.loop lookupValue arr match_mode search_mode (fuel + 1) low up
      lastMatch exactMatch =
      match exactMatch, lastMatch with
      | some e, _ => some e
      | none, some l => some l
      | none, none => some (-1) := by
  rw [xmatchCustomBinarySearch.loop.eq_def]
  simp only [if_neg h]

theorem xmatchCustomBinarySearch_loop_step_ascending (lookupValue : Value) (arr : List Value)
    (match_mode : Int) (hmm : match_mode = 0 ∨ match_mode = 1 ∨ match_mode = -1)
    (fuel : Nat) (low up : Int) (lastMatch exactMatch : Option Int) (h : low ≤ up) :
    xmatchCustomBinarySearch.loop lookupValue arr match_mode 2 (fuel + 1) low up
      lastMatch exactMatch =
      if jsGet arr ((low + up) / 2) = lookupValue then
        xmatchCustomBinarySearch.loop lookupValue arr match_mode 2 fuel low
          ((low + up) / 2 - 1) lastMatch (some ((low + up) / 2))
      else if excelTypesComparator.isLessThan (jsGet arr ((low + up) / 2)) lookupValue = true then
        xmatchCustomBinarySearch.loop lookupValue arr match_mode 2 fuel ((low + up) / 2 + 1) up
          (if match_mode = -1 then some ((low + up) / 2) else lastMatch) exactMatch
      else
        xmatchCustomBinarySearch.loop lookupValue arr match_mode 2 fuel low
          ((low + up) / 2 - 1) (if match_mode = 1 then some ((low + up) / 2) else lastMatch)
          exactMatch := by
  rw [xmatchCustomBinarySearch.loop.eq_def]
  simp only [if_pos h]
  rcases hmm with rfl | rfl | rfl <;> simp

theorem xmatchCustomBinarySearch_loop_step_descending (lookupValue : Value) (arr : List Value)
    (match_mode : Int) (hmm : match_mode = 0 ∨ match_mode = 1 ∨ match_mode = -1)
    (fuel : Nat) (low up : Int) (lastMatch exactMatch : Option Int) (h : low ≤ up) :
    xmatchCustomBinarySearch.loop lookupValue arr match_mode (-2) (fuel + 1) low up
      lastMatch exactMatch =
      if jsGet arr ((low + up) / 2) = lookupValue then
        xmatchCustomBinarySearch.loop lookupValue arr match_mode (-2) fuel ((low + up) / 2 + 1)
          up lastMatch (some ((low + up) / 2))
      else if excelTypesComparator.isLessThan (jsGet arr ((low + up) / 2)) lookupValue = true then
        xmatchCustomBinarySearch.loop lookupValue arr match_mode (-2) fuel low
          ((low + up) / 2 - 1) (if match_mode = -1 then some ((low + up) / 2) else lastMatch)
          exactMatch
      else
        xmatchCustomBinarySearch.loop lookupValue arr match_mode (-2) fuel ((low + up) / 2 + 1)
          up (if match_mode = 1 then some ((low + up) / 2) else lastMatch) exactMatch := by
  rw [xmatchCustomBinarySearch.loop.eq_def]
  simp only [if_pos h]
  rcases hmm with rfl | rfl | rfl <;> simp

theorem xmatchCustomBinarySearch_ascending_tail (key : Value) (arr : List Value)
    (match_mode : Int) (hmm : match_mode = 0 ∨ match_mode = 1 ∨ match_mode = -1) (i : Nat)
    (hbefore : ∀ j : Nat, j < i → jsGet arr (j : Int) ≠ key ∧
      excelTypesComparator.isLessThan (jsGet arr (j : Int)) key = true) :
    ∀ (fuel : Nat) (low : Int) (lastMatch : Option Int), 0 ≤ low → low ≤ i →
      ((i : Int) - low).toNat < fuel →
      xmatchCustomBinarySearch.loop key arr match_mode 2 fuel low ((i : Int) - 1) lastMatch
        (some (i : Int)) = some (i : Int) := by
  intro fuel
  induction fuel with
  | zero => intro low _ _ _ hf; omega
  | succ fuel ih =>
    intro low lastMatch h0 hl hf
    by_cases hlu : low ≤ (i : Int) - 1
    · rw [xmatchCustomBinarySearch_loop_step_ascending key arr match_mode hmm fuel low _ _ _ hlu]
      obtain ⟨m, hm⟩ := Int.eq_ofNat_of_zero_le (show 0 ≤ (low + ((i : Int) - 1)) / 2 by omega)
      rw [hm]
      have hmi : m < i := by omega
      rw [if_neg (hbefore m hmi).1, if_pos (hbefore m hmi).2]
      exact ih ((m : Int) + 1) _ (by omega) (by omega) (by omega)
    · rw [xmatchCustomBinarySearch_loop_exit _ _ _ _ _ _ _ _ _ hlu]

theorem xmatchCustomBinarySearch_ascending_found (key : Value) (arr : List Value)
    (match_mode : Int) (hmm : match_mode = 0 ∨ match_mode = 1 ∨ match_mode = -1) (i : Nat)
    (heq : jsGet arr (i : Int) = key)
    (hbefore : ∀ j : Nat, j < i → jsGet arr (j : Int) ≠ key ∧
      excelTypesComparator.isLessThan (jsGet arr (j : Int)) key = true)
    (hafter : ∀ j : Nat, i ≤ j → j < arr.length →
      excelTypesComparator.isLessThan (jsGet arr (j : Int)) key = false) :
    ∀ (fuel : Nat) (low up : Int) (lastMatch exactMatch : Option Int), 0 ≤ low → low ≤ i →
      (i : Int) ≤ up → up < arr.length → (up + 1 - low).toNat < fuel →
      xmatchCustomBinarySearch.loop key arr match_mode 2 fuel low up lastMatch exactMatch =
        some (i : Int) := by
  intro fuel
  induction fuel with
  | zero => intro low up _ _ _ _ _ _ hf; omega
  | succ fuel ih =>
    intro low up lastMatch exactMatch h0 hl hu hlen hf
    rw [xmatchCustomBinarySearch_loop_step_ascending key arr match_mode hmm fuel low up _ _
      (by omega)]
    obtain ⟨m, hm⟩ := Int.eq_ofNat_of_zero_le (show 0 ≤ (low + up) / 2 by omega)
    have hm1 : low ≤ (m : Int) := by omega
    have hm2 : (m : Int) ≤ up := by omega
    have hmlen : m < arr.length := by omega
    rw [hm]
    rcases Nat.lt_trichotomy m i with hlt | heq2 | hgt
    · rw [if_neg (hbefore m hlt).1, if_pos (hbefore m hlt).2]
      exact ih ((m : Int) + 1) up _ _ (by omega) (by omega) hu hlen (by omega)
    · subst heq2
      rw [if_pos heq]
      exact xmatchCustomBinarySearch_ascending_tail key arr match_mode hmm m hbefore fuel low _
        h0 hl (by omega)
    · by_cases he : jsGet arr (m : Int) = key
      · rw [if_pos he]
        exact ih low ((m : Int) - 1) _ _ h0 hl (by omega) (by omega) (by omega)
      · rw [if_neg he, if_neg (by rw [hafter m (by omega) hmlen]; decide)]
        exact ih low ((m : Int) - 1) _ _ h0 hl (by omega) (by omega) (by omega)

theorem xmatchCustomBinarySearch_descending_tail (key : Value) (arr : List Value)
    (match_mode : Int) (hmm : match_mode = 0 ∨ match_mode = 1 ∨ match_mode = -1) (i : Nat)
    (hafter : ∀ j : Nat, i < j → j < arr.length → jsGet arr (j : Int) ≠ key ∧
      excelTypesComparator.isLessThan (jsGet arr (j : Int)) key = true) :
    ∀ (fuel : Nat) (up : Int) (lastMatch : Option Int), (i : Int) ≤ up → up < arr.length →
      (up - (i : Int)).toNat < fuel →
      xmatchCustomBinarySearch.loop key arr match_mode (-2) fuel ((i : Int) + 1) up lastMatch
        (some (i : Int)) = some (i : Int) := by
  intro fuel
  induction fuel with
  | zero => intro up _ _ _ hf; omega
  | succ fuel ih =>
    intro up lastMatch hu hlen hf
    by_cases hlu : (i : Int) + 1 ≤ up
    · rw [xmatchCustomBinarySearch_loop_step_descending key arr match_mode hmm fuel _ up _ _ hlu]
      obtain ⟨m, hm⟩ := Int.eq_ofNat_of_zero_le (show 0 ≤ ((i : Int) + 1 + up) / 2 by omega)
      rw [hm]
      have hmi : i < m := by omega
      have hmlen : m < arr.length := by omega
      rw [if_neg (hafter m hmi hmlen).1, if_pos (hafter m hmi hmlen).2]
      exact ih ((m : Int) - 1) _ (by omega) (by omega) (by omega)
    · rw [xmatchCustomBinarySearch_loop_exit _ _ _ _ _ _ _ _ _ hlu]

theorem xmatchCustomBinarySearch_descending_found (key : Value) (arr : List Value)
    (match_mode : Int) (hmm : match_mode = 0 ∨ match_mode = 1 ∨ match_mode = -1) (i : Nat)
    (heq : jsGet arr (i : Int) = key)
    (hafter : ∀ j : Nat, i < j → j < arr.length → jsGet arr (j : Int) ≠ key ∧
      excelTypesComparator.isLessThan (jsGet arr (j : Int)) key = true)
    (hbefore : ∀ j : Nat, j ≤ i →
      excelTypesComparator.isLessThan (jsGet arr (j : Int)) key = false) :
    ∀ (fuel : Nat) (low up : Int) (lastMatch exactMatch : Option Int), 0 ≤ low → low ≤ i →
      (i : Int) ≤ up → up < arr.length → (up + 1 - low).toNat < fuel →
      xmatchCustomBinarySearch.loop key arr match_mode (-2) fuel low up lastMatch exactMatch =
        some (i : Int) := by
  intro fuel
  induction fuel with
  | zero => intro low up _ _ _ _ _ _ hf; omega
  | succ fuel ih =>
    intro low up lastMatch exactMatch h0 hl hu hlen hf
    rw [xmatchCustomBinarySearch_loop_step_descending key arr match_mode hmm fuel low up _ _
      (by omega)]
    obtain ⟨m, hm⟩ := Int.eq_ofNat_of_zero_le (show 0 ≤ (low + up) / 2 by omega)
    have hm1 : low ≤ (m : Int) := by omega
    have hm2 : (m : Int) ≤ up := by omega
    have hmlen : m < arr.length := by omega
    rw [hm]
    rcases Nat.lt_trichotomy m i with hlt | heq2 | hgt
    · by_cases he : jsGet arr (m : Int) = key
      · rw [if_pos he]
        exact ih ((m : Int) + 1) up _ _ (by omega) (by omega) hu hlen (by omega)
      · rw [if_neg he, if_neg (by rw [hbefore m (by omega)]; decide)]
        exact ih ((m : Int) + 1) up _ _ (by omega) (by omega) hu hlen (by omega)
    · subst heq2
      rw [if_pos heq]
      exact xmatchCustomBinarySearch_descending_tail key arr match_mode hmm m hafter fuel up _
        hu hlen (by omega)
    · rw [if_neg (hafter m hgt hmlen).1, if_pos (hafter m hgt hmlen).2]
      exact ih low ((m : Int) - 1) _ _ h0 hl (by omega) (by omega) (by omega)

theorem excelTypesComparator_lt_of_le_of_ne (a b : Value) (ha : isPrimitive a = true)
    (hb : isPrimitive b = true) (hle : excelTypesComparator.isLessOrEqualThan a b = true)
    (hne : a ≠ b) : excelTypesComparator.isLessThan a b = true := by
  cases a <;> cases b <;>
    simp_all [excelTypesComparator.isLessThan, excelTypesComparator.isLessOrEqualThan, typeOf,
      jsLt, jsLe, toNumber, stringLt, isPrimitive]
  · omega
  · exact lt_of_le_of_ne hle (fun h => hne (String.ext h))
  · rename_i x y
    cases x <;> cases y <;> simp_all

theorem excelTypesComparator_not_lt_of_le (a b : Value) (ha : isPrimitive a = true)
    (hb : isPrimitive b = true) (hle : excelTypesComparator.isLessOrEqualThan a b = true) :
    excelTypesComparator.isLessThan b a = false := by
  cases a <;> cases b <;>
    simp_all [excelTypesComparator.isLessThan, excelTypesComparator.isLessOrEqualThan, typeOf,
      jsLt, jsLe, toNumber, stringLt, isPrimitive]

/-! ## Theorems: the binary search of XMATCH and a run of duplicates -/

/-- C9. For every array of numbers, text and booleans sorted ascending under the XMATCH
order and every key that occurs in it, `xmatchCustomBinarySearch(key, arr, 0, 2)` returns
the lowest index of the elements equal to the key. -/
theorem xmatchCustomBinarySearch_exact_ascending_lowest (key : Value) (arr : List Value)
    (i : Nat) (hprim : ∀ x ∈ arr, isPrimitive x = true) (hsorted : XMatchSortedAscending arr)
    (hi : arr[i]? = some key) (hleast : ∀ j, j < i → arr[j]? ≠ some key) :
    xmatchCustomBinarySearch key arr 0 2 = some (i : Int) := by
  have hlen : i < arr.length := by
    rcases Nat.lt_or_ge i arr.length with h | h
    · exact h
    · rw [List.getElem?_eq_none h] at hi; cases hi
  have hget : ∀ j : Nat, (hj : j < arr.length) → jsGet arr (j : Int) = arr[j] := fun j hj =>
    jsGet_of_getElem? arr j _ (List.getElem?_eq_getElem hj)
  have hkey : arr[i] = key := by
    rw [List.getElem?_eq_getElem hlen] at hi
    exact Option.some.inj hi
  have hpair := List.pairwise_iff_getElem.mp hsorted
  unfold xmatchCustomBinarySearch
  apply xmatchCustomBinarySearch_ascending_found key arr 0 (Or.inl rfl) i
  · rw [hget i hlen, hkey]
  · intro j hj
    have hjl : j < arr.length := by omega
    have hne : arr[j] ≠ key := by
      intro h
      apply hleast j hj
      rw [List.getElem?_eq_getElem hjl, h]
    rw [hget j hjl]
    refine ⟨hne, ?_⟩
    have hle := hpair j i hjl hlen hj
    rw [hkey] at hle
    exact excelTypesComparator_lt_of_le_of_ne _ _ (hprim _ (List.getElem_mem hjl))
      (hkey ▸ hprim _ (List.getElem_mem hlen)) hle hne
  · intro j hij hjl
    rw [hget j hjl]
    rcases Nat.eq_or_lt_of_le hij with h | h
    · subst h
      rw [hkey]
      cases hlt : excelTypesComparator.isLessThan key key
      · rfl
      · have := excelTypesComparator_isLessThan_asymm key key hlt
        rw [hlt] at this
        cases this
    · have hle := hpair i j hlen hjl h
      rw [hkey] at hle
      exact excelTypesComparator_not_lt_of_le _ _ (hkey ▸ hprim _ (List.getElem_mem hlen))
        (hprim _ (List.getElem_mem hjl)) hle
  · exact le_refl 0
  · exact Int.ofNat_nonneg i
  · omega
  · omega
  · omega

/-- An instance of C9: in `[1, 2, 2, 'a', true]` the key `2` has its run at the indices 1
and 2, and the search returns 1. -/
theorem xmatchCustomBinarySearch_exact_ascending_lowest_witness :
    xmatchCustomBinarySearch (.number 2)
      [.number 1, .number 2, .number 2, .text "a", .boolean true] 0 2 =
      some ((1 : Nat) : Int) :=
  xmatchCustomBinarySearch_exact_ascending_lowest (.number 2)
    [.number 1, .number 2, .number 2, .text "a", .boolean true] 1
    (by decide) (by decide) (by decide) (by decide)

/-- C10, the claim as stated fails: in the descending array `[5, 5, 3]` the key `5` has its
run at the indices 0 and 1, and `xmatchCustomBinarySearch(5, arr, 0, -2)` returns 1, the
highest index of the run, not 0; with match mode 1 it returns 1 as well. -/
theorem xmatchCustomBinarySearch_descending_returns_last_of_run :
    XMatchSortedDescending [.number 5, .number 5, .number 3] ∧
    [Value.number 5, .number 5, .number 3][0]? = some (.number 5) ∧
    xmatchCustomBinarySearch (.number 5) [.number 5, .number 5, .number 3] 0 (-2) = some 1 ∧
    xmatchCustomBinarySearch (.number 5) [.number 5, .number 5, .number 3] 1 (-2) = some 1 := by
  decide

/-- C10, amended. For every array sorted descending under the XMATCH order and every key
that occurs in it, `xmatchCustomBinarySearch(key, arr, 0, -2)`, and likewise with match
mode 1 and search mode -2, returns the highest index of the elements equal to the key: on
an exact match the search keeps narrowing toward higher indices. -/
theorem xmatchCustomBinarySearch_exact_descending_highest (key : Value) (arr : List Value)
    (match_mode : Int) (i : Nat) (hmm : match_mode = 0 ∨ match_mode = 1)
    (hsorted : XMatchSortedDescending arr)
    (hi : arr[i]? = some key)
    (hgreatest : ∀ j, j < arr.length → i < j → arr[j]? ≠ some key) :
    xmatchCustomBinarySearch key arr match_mode (-2) = some (i : Int) := by
  have hlen : i < arr.length := by
    rcases Nat.lt_or_ge i arr.length with h | h
    · exact h
    · rw [List.getElem?_eq_none h] at hi; cases hi
  have hget : ∀ j : Nat, (hj : j < arr.length) → jsGet arr (j : Int) = arr[j] := fun j hj =>
    jsGet_of_getElem? arr j _ (List.getElem?_eq_getElem hj)
  have hkey : arr[i] = key := by
    rw [List.getElem?_eq_getElem hlen] at hi
    exact Option.some.inj hi
  have hpair := List.pairwise_iff_getElem.mp hsorted
  have hirr : excelTypesComparator.isLessThan key key = false := by
    cases hlt : excelTypesComparator.isLessThan key key
    · rfl
    · have := excelTypesComparator_isLessThan_asymm key key hlt
      rw [hlt] at this
      cases this
  have hmm3 : match_mode = 0 ∨ match_mode = 1 ∨ match_mode = -1 := by omega
  unfold xmatchCustomBinarySearch
  apply xmatchCustomBinarySearch_descending_found key arr match_mode hmm3 i
  · rw [hget i hlen, hkey]
  · intro j hij hjl
    have hne : arr[j] ≠ key := by
      intro h
      apply hgreatest j hjl hij
      rw [List.getElem?_eq_getElem hjl, h]
    rw [hget j hjl]
    refine ⟨hne, ?_⟩
    have hor := hpair i j hlen hjl hij
    rw [hkey] at hor
    rcases hor with h | h
    · exact absurd h.symm hne
    · rw [← excelTypesComparator_isGreaterThan_eq]; exact h
  · intro j hji
    have hjl : j < arr.length := by omega
    rw [hget j hjl]
    rcases Nat.eq_or_lt_of_le hji with h | h
    · subst h; rw [hkey]; exact hirr
    · have hor := hpair j i hjl hlen h
      rw [hkey] at hor
      rcases hor with h2 | h2
      · rw [h2]; exact hirr
      · rw [excelTypesComparator_isGreaterThan_eq] at h2
        exact excelTypesComparator_isLessThan_asymm _ _ h2
  · exact le_refl 0
  · exact Int.ofNat_nonneg i
  · omega
  · omega
  · omega

/-- An instance of C10 as amended: in `[true, 'a', 2, 2, 1]` the key `2` has its run at the
indices 2 and 3, and the search with match mode 1 returns 3. -/
theorem xmatchCustomBinarySearch_exact_descending_highest_witness :
    xmatchCustomBinarySearch (.number 2)
      [.boolean true, .text "a", .number 2, .number 2, .number 1] 1 (-2) =
      some ((3 : Nat) : Int) :=
  xmatchCustomBinarySearch_exact_descending_highest (.number 2)
    [.boolean true, .text "a", .number 2, .number 2, .number 1] 1 3
    (by decide) (by decide) (by decide) (by decide)

/-! ## Lemmas: the exact search of VLOOKUP -/

theorem VLOOKUP_exactRow_none (key : Value) (table : List (List Value))
    (h : ∀ row ∈ table, jsGet row 0 ≠ key) :
    ∀ resultRow, VLOOKUP.exactRow key table resultRow = resultRow := by
  induction table with
  | nil => intro resultRow; rfl
  | cons row rest ih =>
    intro resultRow
    rw [VLOOKUP.exactRow, if_neg (h row (List.mem_cons_self row rest))]
    exact ih (fun r hr => h r (List.mem_cons_of_mem row hr)) resultRow

theorem VLOOKUP_exactRow_last (key : Value) (table : List (List Value)) :
    ∀ (i : Nat) (row : List Value) (resultRow : Option (List Value)),
      table[i]? = some row → jsGet row 0 = key →
      (∀ j, j < table.length → i < j → table[j]?.map (fun r => jsGet r 0) ≠ some key) →
      VLOOKUP.exactRow key table resultRow = some row := by
  induction table with
  | nil => intro i row resultRow h; simp at h
  | cons x rest ih =>
    intro i row resultRow hi hrow hlast
    cases i with
    | zero =>
      have hx : x = row := by simpa using hi
      subst hx
      rw [VLOOKUP.exactRow, if_pos hrow]
      apply VLOOKUP_exactRow_none
      intro r hr hr0
      obtain ⟨j, hj, hjr⟩ := List.mem_iff_getElem.mp hr
      have := hlast (j + 1) (by simp; omega) (Nat.succ_pos j)
      apply this
      simp [hj, hjr, hr0]
    | succ n =>
      have hi2 : rest[n]? = some row := by simpa using hi
      have hlast2 : ∀ j, j < rest.length → n < j →
          rest[j]?.map (fun r => jsGet r 0) ≠ some key := by
        intro j hj hnj
        have := hlast (j + 1) (by simp; omega) (by omega)
        simpa using this
      rw [VLOOKUP.exactRow]
      split
      · exact ih n row _ hi2 hrow hlast2
      · exact ih n row _ hi2 hrow hlast2

/-! ## Theorems: VLOOKUP with range_lookup false -/

/-- C12, the claim as stated fails: `VLOOKUP(1, [[1,'a'],[2,'b'],[1,'c']], 1, false)` returns
`1`, the first cell of the last row whose first cell is `1`, not `'c'`. -/
theorem VLOOKUP_column_one_is_key_column :
    VLOOKUP (.number 1)
      (.range [[.number 1, .text "a"], [.number 2, .text "b"], [.number 1, .text "c"]]) 1 false ≠
      .ok (.text "c") := by
  decide

/-- C12, amended. `VLOOKUP(1, [[1,'a'],[2,'b'],[1,'c']], 2, false)` returns `'c'`, the second
cell of the last row whose first cell is `1`; with `col_index_num` 1 the call returns the
first cell of that row, `1`. -/
theorem VLOOKUP_last_exact_match_example :
    VLOOKUP (.number 1)
      (.range [[.number 1, .text "a"], [.number 2, .text "b"], [.number 1, .text "c"]]) 2 false =
      .ok (.text "c") ∧
    VLOOKUP (.number 1)
      (.range [[.number 1, .text "a"], [.number 2, .text "b"], [.number 1, .text "c"]]) 1 false =
      .ok (.number 1) := by
  decide

/-- C13, the claim as stated fails for a key that is an error value: in
`VLOOKUP(#N/A, [[#N/A, 'a']], 2, false)` the first cell of the only row is the key, and the
call returns the key `#N/A`, not the cell `'a'`; and `VLOOKUP(#REF!, [[1, 'a']], 2, false)`,
where no first cell is the key, returns the key `#REF!`, not `#N/A`. -/
theorem VLOOKUP_error_key_returned :
    jsGet [error.na, .text "a"] 0 = error.na ∧
    VLOOKUP error.na (.range [[error.na, .text "a"]]) 2 false = .ok error.na ∧
    VLOOKUP error.na (.range [[error.na, .text "a"]]) 2 false ≠ .ok (.text "a") ∧
    VLOOKUP error.ref (.range [[.number 1, .text "a"]]) 2 false = .ok error.ref := by
  decide

/-- C13, amended. For every 2-D table, every key that is not an error value and every
integer `col_index_num` from 1 to the number of columns (the length of the first row), when
no first cell of the table differs from the key in letter case only,
`VLOOKUP(key, table, col_index_num, false)` returns cell `col_index_num` of the last row
whose first cell is equal to the key, and returns `#N/A` when no row's first cell is equal
to the key. Equality is taken without regard to letter case, as the other lookups take it;
what the call does with a first cell that differs from the key in letter case only is left
open here. -/
theorem VLOOKUP_exact_last_row (key : Value) (table : List (List Value)) (col : Int)
    (hkey : isErrorValue key = false)
    (hcase : ∀ row ∈ table, lowerValue (jsGet row 0) = lowerValue key → jsGet row 0 = key) :
    (∀ (i : Nat) (row firstRow : List Value), table.head? = some firstRow →
      1 ≤ col → col ≤ firstRow.length → table[i]? = some row →
      lowerValue (jsGet row 0) = lowerValue key →
      (∀ j, j < table.length → i < j →
        table[j]?.map (fun r => lowerValue (jsGet r 0)) ≠ some (lowerValue key)) →
      VLOOKUP key (.range table) col false = .ok (jsGet row (col - 1))) ∧
    ((∀ row ∈ table, lowerValue (jsGet row 0) ≠ lowerValue key) →
      VLOOKUP key (.range table) col false = .ok error.na) := by
  constructor
  · intro i row firstRow hhead h1 h2 hi hlow hlater
    have hrow : jsGet row 0 = key := hcase row (List.getElem?_mem hi) hlow
    have hlast : ∀ j, j < table.length → i < j →
        table[j]?.map (fun r => jsGet r 0) ≠ some key := by
      intro j hj hij h
      rw [List.getElem?_eq_getElem hj, Option.map_some'] at h
      injection h with h
      apply hlater j hj hij
      rw [List.getElem?_eq_getElem hj, Option.map_some', h]
    have hsearch := VLOOKUP_exactRow_last key table i row none hi hrow hlast
    cases key <;> simp_all [VLOOKUP, VLOOKUP.table, VLOOKUP.resultRow, isErrorValue] <;>
      rw [if_neg (by omega), if_neg (by omega)]
  · intro hno
    have hno2 : ∀ row ∈ table, jsGet row 0 ≠ key :=
      fun row hrow h => hno row hrow (congrArg lowerValue h)
    have hsearch := VLOOKUP_exactRow_none key table hno2 none
    cases key <;> simp_all [VLOOKUP, VLOOKUP.table, VLOOKUP.resultRow, isErrorValue]

/-- An instance of C13: the table `[[1,'a'],[2,'b'],[1,'c']]`, the key `1` and column 2. -/
theorem VLOOKUP_exact_last_row_witness :
    VLOOKUP (.number 1)
      (.range [[.number 1, .text "a"], [.number 2, .text "b"], [.number 1, .text "c"]]) 2 false =
      .ok (jsGet [.number 1, .text "c"] (2 - 1)) :=
  (VLOOKUP_exact_last_row (.number 1)
    [[.number 1, .text "a"], [.number 2, .text "b"], [.number 1, .text "c"]] 2 rfl
    (by decide)).1
    2 [.number 1, .text "c"] [.number 1, .text "a"] rfl (by decide) (by decide) rfl rfl
    (by decide)

/-- C15, the claim as stated fails. A key that is an error value is returned before
`col_index_num` is looked at: `VLOOKUP(#N/A, [[1,'a']], 0, false)` is `#N/A`. And when the
search finds no row the call returns `#N/A` whatever `col_index_num` is:
`VLOOKUP(9, [[1,'a']], 0, false)` and `VLOOKUP(9, [[1,'a']], 3, false)` are `#N/A`, not
`#VALUE!` and `#REF!`. -/
theorem VLOOKUP_column_checked_after_search :
    VLOOKUP error.na (.range [[.number 1, .text "a"]]) 0 false = .ok error.na ∧
    VLOOKUP (.number 9) (.range [[.number 1, .text "a"]]) 0 false = .ok error.na ∧
    VLOOKUP (.number 9) (.range [[.number 1, .text "a"]]) 3 false = .ok error.na ∧
    error.na ≠ error.value ∧ error.na ≠ error.ref := by
  decide

/-- C15, amended. For every key that is not an error value and every 2-D table in which the
search of the first column finds a row (with `range_lookup` true or false), VLOOKUP returns
`#VALUE!` whenever `col_index_num` is less than 1 and `#REF!` whenever `col_index_num` is
greater than the number of columns of the table, the length of its first row. -/
theorem VLOOKUP_column_out_of_range (key : Value) (table : List (List Value)) (col : Int)
    (range_lookup : Bool) (row firstRow : List Value)
    (hkey : isErrorValue key = false)
    (hfound : VLOOKUP.resultRow key table range_lookup = some (some row))
    (hhead : table.head? = some firstRow) :
    (col < 1 → VLOOKUP key (.range table) col range_lookup = .ok error.value) ∧
    (col > firstRow.length → VLOOKUP key (.range table) col range_lookup = .ok error.ref) := by
  constructor
  · intro hc
    cases key <;> simp_all [VLOOKUP, VLOOKUP.table, isErrorValue]
  · intro hc
    by_cases h1 : col < 1
    · have : (firstRow.length : Int) ≥ 0 := Int.ofNat_nonneg _
      omega
    · cases key <;> simp_all [VLOOKUP, VLOOKUP.table, isErrorValue]

/-- An instance of C15: in the table `[[1,'a'],[2,'b']]` the key `2` is found, column 0 gives
`#VALUE!` and column 3 gives `#REF!`. -/
theorem VLOOKUP_column_out_of_range_witness :
    (((0 : Int) < 1 → VLOOKUP (.number 2) (.range [[.number 1, .text "a"],
        [.number 2, .text "b"]]) 0 false = .ok error.value) ∧
      ((0 : Int) > ([Value.number 1, .text "a"].length : Int) →
        VLOOKUP (.number 2) (.range [[.number 1, .text "a"], [.number 2, .text "b"]]) 0 false =
          .ok error.ref)) ∧
    (((3 : Int) < 1 → VLOOKUP (.number 2) (.range [[.number 1, .text "a"],
        [.number 2, .text "b"]]) 3 false = .ok error.value) ∧
      ((3 : Int) > ([Value.number 1, .text "a"].length : Int) →
        VLOOKUP (.number 2) (.range [[.number 1, .text "a"], [.number 2, .text "b"]]) 3 false =
          .ok error.ref)) :=
  ⟨VLOOKUP_column_out_of_range (.number 2) [[.number 1, .text "a"], [.number 2, .text "b"]] 0
      false [.number 2, .text "b"] [.number 1, .text "a"] rfl (by decide) rfl,
    VLOOKUP_column_out_of_range (.number 2) [[.number 1, .text "a"], [.number 2, .text "b"]] 3
      false [.number 2, .text "b"] [.number 1, .text "a"] rfl (by decide) rfl⟩

/-- C16. `VLOOKUP('ABC', [['abc','x']], 2, false)` returns `#N/A`: the loop for
`range_lookup` false tests `table_array[y][0] === lookup_value` on the strings as they are.
With `range_lookup` true the same call finds the row and returns `'x'`, because
`approximateBinarySearch` lower-cases the key and the cells. -/
theorem VLOOKUP_exact_is_case_sensitive :
    VLOOKUP (.text "ABC") (.range [[.text "abc", .text "x"]]) 2 false = .ok error.na ∧
    VLOOKUP (.text "abc") (.range [[.text "abc", .text "x"]]) 2 false = .ok (.text "x") ∧
    VLOOKUP (.text "ABC") (.range [[.text "abc", .text "x"]]) 2 true = .ok (.text "x") := by
  decide

/-! ## Theorems: VLOOKUP with range_lookup true -/

theorem approximateBinarySearch_numbers (k : Int) (a : List Int)
    (hsorted : a.Pairwise (fun x y => x ≤ y)) :
    ∃ r, approximateBinarySearch (.number k) (a.map Value.number) = some r ∧
      ((r = .blank ∧ ∀ j : Nat, j < a.length → k < a.getD j 0) ∨
       (∃ i : Nat, r = .number (i : Int) ∧ i < a.length ∧ a.getD i 0 ≤ k ∧
          (a.getD i 0 ≠ k → ∀ j : Nat, j < a.length → a.getD j 0 ≤ k → j ≤ i))) := by
  unfold approximateBinarySearch
  simp only [typeOf, lowerValue, List.length_map]
  apply approximateBinarySearch_loop_numbers k a hsorted (a.length + 1) 0
    ((a.length : Int) - 1) .blank (le_refl 0) (by omega) (by omega) (by omega)
  · intro j hj; omega
  · intro j hj hj2; omega
  · rfl

theorem strictly_ascending_getD_lt (a : List Int) (hsorted : a.Pairwise (fun x y => x < y))
    (i j : Nat) (hij : i < j) (hj : j < a.length) : a.getD i 0 < a.getD j 0 := by
  have hi : i < a.length := by omega
  rw [List.getD_eq_getElem a 0 hi, List.getD_eq_getElem a 0 hj]
  exact List.pairwise_iff_getElem.mp hsorted i j hi hj hij

theorem strictly_ascending_getD_inj (a : List Int) (hsorted : a.Pairwise (fun x y => x < y))
    (i j : Nat) (hi : i < a.length) (hj : j < a.length) (h : a.getD i 0 = a.getD j 0) :
    i = j := by
  rcases Nat.lt_trichotomy i j with hlt | heq | hgt
  · have := strictly_ascending_getD_lt a hsorted i j hlt hj
    omega
  · exact heq
  · have := strictly_ascending_getD_lt a hsorted j i hgt hi
    omega

/-- C14. For every table whose first column holds the numbers `a`, strictly ascending, and
every numeric key `k`: `VLOOKUP(k, table, col_index_num, true)` returns cell `col_index_num`
(from 1 to the number of columns) of the row `i` whose first cell `a[i]` is the greatest
first-column value that is at most `k`, and returns `#N/A` when `k` is smaller than every
first-column value. -/
theorem VLOOKUP_approximate_strictly_ascending (k : Int) (a : List Int)
    (table : List (List Value)) (col : Int)
    (hcolumn : table.map (fun row => jsGet row 0) = a.map Value.number)
    (hsorted : a.Pairwise (fun x y => x < y)) :
    (∀ (i : Nat) (row firstRow : List Value), table.head? = some firstRow →
      1 ≤ col → col ≤ firstRow.length → table[i]? = some row → a.getD i 0 ≤ k →
      (∀ j : Nat, j < a.length → a.getD j 0 ≤ k → a.getD j 0 ≤ a.getD i 0) →
      VLOOKUP (.number k) (.range table) col true = .ok (jsGet row (col - 1))) ∧
    ((∀ j : Nat, j < a.length → k < a.getD j 0) →
      VLOOKUP (.number k) (.range table) col true = .ok error.na) := by
  have hle : a.Pairwise (fun x y => x ≤ y) := hsorted.imp (fun h => le_of_lt h)
  have hlen : table.length = a.length := by
    have := congrArg List.length hcolumn
    simpa using this
  obtain ⟨r, hr, hcases⟩ := approximateBinarySearch_numbers k a hle
  constructor
  · intro i row firstRow hhead h1 h2 hi hik hgreatest
    have hia : i < a.length := by
      have := (List.getElem?_eq_some_iff.mp hi).1
      omega
    rcases hcases with ⟨_, hall⟩ | ⟨i2, hri, hi2, hi2k, hmax⟩
    · have := hall i hia
      omega
    · have heq : a.getD i2 0 = a.getD i 0 := by
        have h3 := hgreatest i2 hi2 hi2k
        by_cases hk : a.getD i2 0 = k
        · omega
        · have hle2 := hmax hk i hia hik
          rcases Nat.lt_or_ge i i2 with hlt | hge
          · have := strictly_ascending_getD_lt a hsorted i i2 hlt hi2
            omega
          · have : i = i2 := by omega
            rw [this]
      have hii : i2 = i := strictly_ascending_getD_inj a hsorted i2 i hi2 hia heq
      subst hii
      simp only [VLOOKUP, VLOOKUP.table, VLOOKUP.resultRow, if_true, hcolumn, hr, hri,
        if_neg (show ¬ ((i2 : Int) < 0) by omega), Int.toNat_ofNat, hi, hhead,
        if_neg (show ¬ (col < 1) by omega), if_neg (show ¬ (col > (firstRow.length : Int)) by omega)]
  · intro hall
    rcases hcases with ⟨hblank, _⟩ | ⟨i2, _, hi2, hi2k, _⟩
    · simp only [VLOOKUP, VLOOKUP.table, VLOOKUP.resultRow, if_true, hcolumn, hr, hblank]
    · have := hall i2 hi2
      omega

/-- An instance of C14: the first column `[10, 20, 30]`, the key `25` and column 2. -/
theorem VLOOKUP_approximate_strictly_ascending_witness :
    VLOOKUP (.number 25) (.range [[.number 10, .text "a"], [.number 20, .text "b"],
      [.number 30, .text "c"]]) 2 true = .ok (jsGet [.number 20, .text "b"] (2 - 1)) :=
  (VLOOKUP_approximate_strictly_ascending 25 [10, 20, 30]
    [[.number 10, .text "a"], [.number 20, .text "b"], [.number 30, .text "c"]] 2 rfl
    (by decide)).1 1 [.number 20, .text "b"] [.number 10, .text "a"] rfl (by decide) (by decide)
    rfl (by decide) (by decide)

/-! ## Theorems: MATCH with match type -1 -/

theorem MATCH_descending_loop_numbers (k : Int) (b : List Int) :
    b.Pairwise (fun x y => x ≥ y) →
    ∀ (i : Nat) (lowestValidValue : Value),
      (MATCH.descending .number (.number k) (b.map Value.number) i lowestValidValue =
          MATCH.descending .number (.number k) [] i lowestValidValue ∧
        ∀ y ∈ b, y < k) ∨
      (∃ (j : Nat) (v : Int),
        MATCH.descending .number (.number k) (b.map Value.number) i lowestValidValue =
          .number (((i + j : Nat) : Int) + 1) ∧
        b[j]? = some v ∧ k ≤ v ∧ ∀ y ∈ b, k ≤ y → v ≤ y) := by
  induction b with
  | nil => intro _ i lowestValidValue; left; exact ⟨rfl, by simp⟩
  | cons x rest ih =>
    intro hsorted i lowestValidValue
    have hx : ∀ y ∈ rest, x ≥ y := (List.pairwise_cons.mp hsorted).1
    have hrest := (List.pairwise_cons.mp hsorted).2
    simp only [List.map_cons, MATCH.descending, typeOf, lowerValue, ne_eq, not_true_eq_false,
      if_false, jsGt, jsLt_number]
    by_cases hgt : x < k
    · left
      simp only [hgt, decide_True, if_true]
      refine ⟨trivial, ?_⟩
      intro y hy
      rcases List.mem_cons.mp hy with h | h
      · omega
      · have := hx y h
        omega
    · simp only [hgt, decide_False, Bool.false_eq_true, if_false]
      by_cases hlt : k < x
      · simp only [hlt, decide_True, if_true]
        right
        rcases ih hrest (i + 1) (.number i) with ⟨heq, hall⟩ | ⟨j, v, heq, hj, hkv, hmin⟩
        · refine ⟨0, x, ?_, by simp, by omega, ?_⟩
          · rw [heq]; simp [MATCH.descending]
          · intro y hy hky
            rcases List.mem_cons.mp hy with h | h
            · omega
            · have := hall y h
              omega
        · refine ⟨j + 1, v, ?_, by simpa using hj, hkv, ?_⟩
          · rw [heq]; congr 2; push_cast; omega
          · intro y hy hky
            rcases List.mem_cons.mp hy with h | h
            · have := hx v (List.getElem?_mem hj)
              omega
            · exact hmin y h hky
      · simp only [hlt, decide_False, Bool.false_eq_true, if_false]
        right
        refine ⟨0, x, by simp, by simp, by omega, ?_⟩
        intro y _ hky
        omega

/-- C17. For every flat array of numbers `a` sorted in descending (non-increasing) order and
every numeric key `k`, `MATCH(k, a, -1)` returns `i + 1` for an index `i` whose element is
the smallest value of `a` that is greater than or equal to `k`, and returns `#N/A` when
every element of `a` is smaller than `k`. -/
theorem MATCH_descending_numbers (k : Int) (a : List Int)
    (hsorted : a.Pairwise (fun x y => x ≥ y)) :
    (MATCH (.number k) (.flat (a.map Value.number)) (-1) = .ok error.na ∧ ∀ y ∈ a, y < k) ∨
    (∃ (i : Nat) (v : Int),
      MATCH (.number k) (.flat (a.map Value.number)) (-1) = .ok (.number ((i : Int) + 1)) ∧
      a[i]? = some v ∧ k ≤ v ∧ ∀ y ∈ a, k ≤ y → v ≤ y) := by
  have hmatrix : MATCH.isMatrix (.flat (a.map Value.number)) = .ok false := by
    cases a with
    | nil => rfl
    | cons x rest => simp only [MATCH.isMatrix, List.map_cons, List.head?_cons]; split <;> rfl
  have hmatch : MATCH (.number k) (.flat (a.map Value.number)) (-1) =
      .ok (MATCH.descending .number (.number k) (a.map Value.number) 0 .blank) := by
    simp [MATCH, hmatrix, ArrayArg.flatten, typeOf, lowerValue]
  rw [hmatch]
  rcases MATCH_descending_loop_numbers k a hsorted 0 .blank with ⟨heq, hall⟩ | ⟨j, v, heq, h⟩
  · left
    rw [heq]
    exact ⟨rfl, hall⟩
  · right
    refine ⟨j, v, ?_, h⟩
    rw [heq]
    simp

/-- An instance of C17: the descending array `[9, 7, 7, 4, 1]`. -/
theorem MATCH_descending_numbers_witness :
    List.Pairwise (fun x y : Int => x ≥ y) [9, 7, 7, 4, 1] ∧
    MATCH (.number 5) (.flat ([9, 7, 7, 4, 1].map Value.number)) (-1) = .ok (.number 3) ∧
    ((MATCH (.number 5) (.flat ([9, 7, 7, 4, 1].map Value.number)) (-1) = .ok error.na ∧
        ∀ y ∈ ([9, 7, 7, 4, 1] : List Int), y < 5) ∨
      (∃ (i : Nat) (v : Int),
        MATCH (.number 5) (.flat ([9, 7, 7, 4, 1].map Value.number)) (-1) =
          .ok (.number ((i : Int) + 1)) ∧
        ([9, 7, 7, 4, 1] : List Int)[i]? = some v ∧ 5 ≤ v ∧
        ∀ y ∈ ([9, 7, 7, 4, 1] : List Int), 5 ≤ y → v ≤ y)) :=
  ⟨by decide, by decide, MATCH_descending_numbers 5 [9, 7, 7, 4, 1] (by decide)⟩

/-! ## Lemmas: approximateBinarySearch always ends, with `null` or an index of the array -/

theorem approximateBinarySearch_skip_ge (valueType : JsType) (arr : List Value) (end_ : Int) :
    ∀ (n : Nat) (middle : Int),
      middle ≤ approximateBinarySearch.skip valueType arr n middle end_ := by
  intro n
  induction n with
  | zero => intro middle; exact le_refl _
  | succ n ih =>
    intro middle
    rw [approximateBinarySearch.skip]
    split
    · have := ih (middle + 1)
      omega
    · exact le_refl _

theorem approximateBinarySearch_loop_total (valueType : JsType) (key : Value)
    (arr : List Value) :
    ∀ (fuel : Nat) (start end_ : Int) (highestValidValue : Value),
      0 ≤ start → end_ < arr.length → (end_ + 1 - start).toNat < fuel →
      (highestValidValue = .blank ∨
        ∃ i : Nat, highestValidValue = .number (i : Int) ∧ i < arr.length) →
      ∃ r, approximateBinarySearch.loop valueType key arr fuel start end_ highestValidValue =
          some r ∧
        (r = .blank ∨ ∃ i : Nat, r = .number (i : Int) ∧ i < arr.length) := by
  intro fuel
  induction fuel with
  | zero => intro start end_ _ _ _ hf; omega
  | succ fuel ih =>
    intro start end_ hvv h0 h1 hf hhvv
    rw [approximateBinarySearch.loop]
    by_cases hse : end_ ≥ start
    · have htdiv : Int.tdiv (end_ - start) 2 = (end_ - start) / 2 :=
        Int.tdiv_eq_ediv (by omega) (by decide)
      rw [htdiv]
      have hge := approximateBinarySearch_skip_ge valueType arr end_
        (end_ + 1 - (start + (end_ - start) / 2)).toNat (start + (end_ - start) / 2)
      simp only [if_pos hse]
      generalize approximateBinarySearch.skip valueType arr
        (end_ + 1 - (start + (end_ - start) / 2)).toNat (start + (end_ - start) / 2) end_ =
        middle at hge
      by_cases hover : middle > end_
      · rw [if_pos hover]
        exact ih start _ hvv h0 (by omega) (by omega) hhvv
      · rw [if_neg hover]
        by_cases hunder : middle < start
        · rw [if_pos hunder]
          exact ⟨hvv, rfl, hhvv⟩
        · rw [if_neg hunder]
          obtain ⟨m, hm⟩ := Int.eq_ofNat_of_zero_le (show 0 ≤ middle by omega)
          have hmlen : m < arr.length := by omega
          split
          · exact ih (middle + 1) end_ _ (by omega) h1 (by omega)
              (Or.inr ⟨m, by rw [hm], hmlen⟩)
          · split
            · exact ih start (middle - 1) hvv h0 (by omega) (by omega) hhvv
            · exact ⟨_, rfl, Or.inr ⟨m, by rw [hm], hmlen⟩⟩
    · rw [if_neg hse]
      exact ⟨hvv, rfl, hhvv⟩

theorem approximateBinarySearch_total (key : Value) (arr : List Value) :
    ∃ r, approximateBinarySearch key arr = some r ∧
      (r = .blank ∨ ∃ i : Nat, r = .number (i : Int) ∧ i < arr.length) := by
  unfold approximateBinarySearch
  exact approximateBinarySearch_loop_total _ _ arr (arr.length + 1) 0 _ .blank (le_refl 0)
    (by omega) (by omega) (Or.inl rfl)

/-! ## Lemmas: the edges of the array of LOOKUP -/

theorem jsGet_zero (row : List Value) : jsGet row 0 = row.headD .undefined := by
  cases row <;> rfl

theorem jsGet_last (row : List Value) :
    jsGet row ((row.length : Int) - 1) = row.getLastD .undefined := by
  rcases List.eq_nil_or_concat row with h | ⟨front, x, h⟩
  · subst h; rfl
  · subst h
    rw [List.concat_eq_append]
    have h1 : (((front ++ [x]).length : Int) - 1) = (front.length : Int) := by
      simp
    rw [h1, jsGet_natCast]
    simp [List.getLastD_eq_getLast?]

theorem map_jsGet_zero_eq_firstColumn (rows : List (List Value)) :
    rows.map (fun row => jsGet row 0) = firstColumn rows := by
  unfold firstColumn
  exact List.map_congr_left (fun row _ => jsGet_zero row)

theorem map_jsGet_last_eq_lastColumn (rows : List (List Value)) :
    rows.map (fun row => jsGet row ((row.length : Int) - 1)) = lastColumn rows := by
  unfold lastColumn
  exact List.map_congr_left (fun row _ => jsGet_last row)

theorem firstColumn_single_column (rows : List (List Value))
    (h : ∀ row ∈ rows, row.length = 1) : firstColumn rows = rows.flatten := by
  induction rows with
  | nil => rfl
  | cons row rest ih =>
    have hrow := h row (List.mem_cons_self row rest)
    have ih2 := ih (fun r hr => h r (List.mem_cons_of_mem row hr))
    unfold firstColumn at ih2 ⊢
    rw [List.map_cons, List.flatten_cons, ih2]
    match row, hrow with
    | [x], _ => rfl

/-! ## Theorems: LOOKUP -/

theorem LOOKUP_unfold (key : Value) (array : Arg) (result_array : Option Arg)
    (firstRow lastRow : List Value) (hkey : isErrorValue key = false)
    (hfirst : (LOOKUP.array array).head? = some firstRow)
    (hlast : (LOOKUP.array array).getLast? = some lastRow) :
    LOOKUP key array result_array =
      if LOOKUP.resultIsMatrix
          (match result_array with
           | some (.range rows) => .nested rows
           | some (.single .undefined) | none =>
             if decide (firstRow.length > (LOOKUP.array array).length) then .flat lastRow
             else .flat ((LOOKUP.array array).map (fun row => jsGet row ((row.length : Int) - 1)))
           | some (.single v) => .scalar v) then .ok error.na
      else
        match approximateBinarySearch key
            (if decide (firstRow.length > (LOOKUP.array array).length) then firstRow
             else (LOOKUP.array array).map (fun row => jsGet row 0)) with
        | none => .error .outOfFuel
        | some (.number index) =>
          if index ≥ (LOOKUP.flattenResult
              (match result_array with
               | some (.range rows) => .nested rows
               | some (.single .undefined) | none =>
                 if decide (firstRow.length > (LOOKUP.array array).length) then .flat lastRow
                 else .flat ((LOOKUP.array array).map
                   (fun row => jsGet row ((row.length : Int) - 1)))
               | some (.single v) => .scalar v)).length then .ok error.ref
          else .ok (jsGet (LOOKUP.flattenResult
              (match result_array with
               | some (.range rows) => .nested rows
               | some (.single .undefined) | none =>
                 if decide (firstRow.length > (LOOKUP.array array).length) then .flat lastRow
                 else .flat ((LOOKUP.array array).map
                   (fun row => jsGet row ((row.length : Int) - 1)))
               | some (.single v) => .scalar v)) index)
        | some _ => .ok error.na := by
  cases key with
  | error m => simp [isErrorValue] at hkey
  | _ => simp only [LOOKUP, hfirst, hlast]

theorem LOOKUP_flattenResult_flat (cells : List Value) (h : cells ≠ []) :
    LOOKUP.flattenResult (.flat cells) = cells := by
  cases cells with
  | nil => exact absurd rfl h
  | cons cell rest => rfl

theorem LOOKUP_flattenResult_nested (rows : List (List Value)) (h : rows ≠ []) :
    LOOKUP.flattenResult (.nested rows) = rows.flatten := by
  cases rows with
  | nil => exact absurd rfl h
  | cons row rest => rfl

theorem LOOKUP_array_range (rows : List (List Value)) (h : rows ≠ []) :
    LOOKUP.array (.range rows) = rows := by
  cases rows with
  | nil => exact absurd rfl h
  | cons row rest => rfl

/-- C18, the claim as stated fails for a key that is an error value. In the 2-by-2 array
`[[#N/A, 1], [5, 6]]` the lookup edge is the first column `[#N/A, 5]`, in which
`approximateBinarySearch` finds the key `#N/A` at index 0, and the cell of the last column at
index 0 is `1`; `LOOKUP(#N/A, [[#N/A, 1], [5, 6]])` returns the key `#N/A` instead. -/
theorem LOOKUP_error_key_not_searched :
    approximateBinarySearch error.na (firstColumn [[error.na, .number 1], [.number 5, .number 6]]) =
      some (.number 0) ∧
    (lastColumn [[error.na, .number 1], [.number 5, .number 6]]).getD 0 .undefined = .number 1 ∧
    LOOKUP error.na (.range [[error.na, .number 1], [.number 5, .number 6]]) none =
      .ok error.na := by
  decide

/-- C18, amended. For every key that is not an error value and every rectangular 2-D array
with `r >= 1` rows and `c` columns, without a `result_array` argument: when `c > r`,
`LOOKUP(key, array)` searches the first row with `approximateBinarySearch` and returns the
cell of the last row at the index found; otherwise it searches the first column and returns
the cell of the last column at the index found. In both cases the search ends, and LOOKUP
returns `#N/A` when it finds no index. -/
theorem LOOKUP_array_form (key : Value) (rows : List (List Value)) (c : Nat)
    (firstRow lastRow : List Value)
    (hkey : isErrorValue key = false)
    (hrect : ∀ row ∈ rows, row.length = c)
    (hfirst : rows.head? = some firstRow) (hlast : rows.getLast? = some lastRow) :
    (c > rows.length →
      ∃ r, approximateBinarySearch key firstRow = some r ∧
        ((r = .blank ∧ LOOKUP key (.range rows) none = .ok error.na) ∨
         (∃ i : Nat, r = .number (i : Int) ∧ i < c ∧
            LOOKUP key (.range rows) none = .ok (lastRow.getD i .undefined)))) ∧
    (c ≤ rows.length →
      ∃ r, approximateBinarySearch key (firstColumn rows) = some r ∧
        ((r = .blank ∧ LOOKUP key (.range rows) none = .ok error.na) ∨
         (∃ i : Nat, r = .number (i : Int) ∧ i < rows.length ∧
            LOOKUP key (.range rows) none = .ok ((lastColumn rows).getD i .undefined)))) := by
  have hne : rows ≠ [] := by
    intro h; rw [h] at hfirst; simp at hfirst
  have harr := LOOKUP_array_range rows hne
  have hunfold := LOOKUP_unfold key (.range rows) none firstRow lastRow hkey
    (by rw [harr]; exact hfirst) (by rw [harr]; exact hlast)
  rw [harr] at hunfold
  have hfirstLen : firstRow.length = c := hrect firstRow (List.mem_of_mem_head? hfirst)
  have hlastLen : lastRow.length = c := hrect lastRow (List.mem_of_mem_getLast? hlast)
  have hrows : 0 < rows.length := List.length_pos.mpr hne
  constructor
  · intro hc
    have hmode : decide (firstRow.length > rows.length) = true := by
      rw [hfirstLen]; exact decide_eq_true hc
    have hflat : LOOKUP.flattenResult (.flat lastRow) = lastRow :=
      LOOKUP_flattenResult_flat lastRow (by
        intro h; rw [h] at hlastLen; simp at hlastLen; omega)
    simp only [hmode, if_true, LOOKUP.resultIsMatrix, Bool.false_eq_true, if_false, hflat]
      at hunfold
    obtain ⟨r, hr, hcases⟩ := approximateBinarySearch_total key firstRow
    refine ⟨r, hr, ?_⟩
    rw [hr] at hunfold
    rcases hcases with hblank | ⟨i, hi, hilen⟩
    · left
      subst hblank
      exact ⟨rfl, hunfold⟩
    · right
      subst hi
      refine ⟨i, rfl, by omega, ?_⟩
      rw [hunfold]
      simp only [ge_iff_le, Nat.cast_le]
      rw [if_neg (by omega), jsGet_natCast]
  · intro hc
    have hmode : decide (firstRow.length > rows.length) = false := by
      rw [hfirstLen]; exact decide_eq_false (by omega)
    have hflat : LOOKUP.flattenResult (.flat (lastColumn rows)) = lastColumn rows :=
      LOOKUP_flattenResult_flat (lastColumn rows) (by
        intro h
        have := congrArg List.length h
        simp [lastColumn] at this
        exact hne this)
    simp only [hmode, Bool.false_eq_true, if_false, LOOKUP.resultIsMatrix,
      map_jsGet_zero_eq_firstColumn, map_jsGet_last_eq_lastColumn, hflat] at hunfold
    obtain ⟨r, hr, hcases⟩ := approximateBinarySearch_total key (firstColumn rows)
    refine ⟨r, hr, ?_⟩
    rw [hr] at hunfold
    have hlen1 : (firstColumn rows).length = rows.length := by simp [firstColumn]
    have hlen2 : (lastColumn rows).length = rows.length := by simp [lastColumn]
    rcases hcases with hblank | ⟨i, hi, hilen⟩
    · left
      subst hblank
      exact ⟨rfl, hunfold⟩
    · right
      subst hi
      refine ⟨i, rfl, by omega, ?_⟩
      rw [hunfold]
      simp only [ge_iff_le, Nat.cast_le]
      rw [if_neg (by omega), jsGet_natCast]

/-- An instance of C18: the array `[[1, 5, 8], [10, 20, 30]]` of 2 rows and 3 columns, whose
first row is searched. -/
theorem LOOKUP_array_form_witness :
    LOOKUP (.number 6) (.range [[.number 1, .number 5, .number 8],
      [.number 10, .number 20, .number 30]]) none = .ok (.number 20) ∧
    ∃ r, approximateBinarySearch (.number 6) [.number 1, .number 5, .number 8] = some r ∧
      ((r = .blank ∧ LOOKUP (.number 6) (.range [[.number 1, .number 5, .number 8],
          [.number 10, .number 20, .number 30]]) none = .ok error.na) ∨
       (∃ i : Nat, r = .number (i : Int) ∧ i < 3 ∧
          LOOKUP (.number 6) (.range [[.number 1, .number 5, .number 8],
            [.number 10, .number 20, .number 30]]) none =
            .ok ([Value.number 10, .number 20, .number 30].getD i .undefined))) :=
  ⟨by decide,
    (LOOKUP_array_form (.number 6) [[.number 1, .number 5, .number 8],
      [.number 10, .number 20, .number 30]] 3 [.number 1, .number 5, .number 8]
      [.number 10, .number 20, .number 30] rfl (by decide) rfl rfl).1 (by decide)⟩

theorem LOOKUP_resultIsMatrix_vector (result : List (List Value))
    (h : (isSingleRow result || isSingleColumn result) = true) :
    LOOKUP.resultIsMatrix (.nested result) = false := by
  cases result with
  | nil => rfl
  | cons row rest =>
    simp only [isSingleRow, isSingleColumn, Bool.or_eq_true, decide_eq_true_eq,
      Bool.and_eq_true, List.all_eq_true] at h
    simp only [LOOKUP.resultIsMatrix, List.head?_cons, Bool.and_eq_false_iff,
      decide_eq_false_iff_not]
    rcases h with h | ⟨_, h⟩
    · left; omega
    · right
      have := h row (List.mem_cons_self row rest)
      omega

theorem LOOKUP_lookup_edge_vector (lookup : List (List Value)) (firstRow : List Value)
    (hvector : (isSingleRow lookup || isSingleColumn lookup) = true)
    (hcells : lookup.flatten ≠ []) (hfirst : lookup.head? = some firstRow) :
    (if decide (firstRow.length > lookup.length) then firstRow
      else lookup.map (fun row => jsGet row 0)) = lookup.flatten := by
  simp only [isSingleRow, isSingleColumn, Bool.or_eq_true, decide_eq_true_eq,
    Bool.and_eq_true, List.all_eq_true] at hvector
  by_cases hcolumn : ∀ row ∈ lookup, row.length = 1
  · have hlen : firstRow.length = 1 := hcolumn firstRow (List.mem_of_mem_head? hfirst)
    have hpos : 0 < lookup.length := by
      cases lookup with
      | nil => simp at hfirst
      | cons row rest => simp
    rw [if_neg (by simp only [decide_eq_true_eq]; omega), map_jsGet_zero_eq_firstColumn]
    exact firstColumn_single_column lookup hcolumn
  · have hrow : lookup.length = 1 := by
      rcases hvector with h | ⟨_, h⟩
      · exact h
      · exact absurd h hcolumn
    match lookup, hrow, hfirst, hcolumn, hcells with
    | [row], _, hfirst, hcolumn, hcells =>
      have hrow2 : row = firstRow := by simpa using hfirst
      subst hrow2
      have hne : row ≠ [] := by simpa using hcells
      have hlen1 : row.length ≠ 1 := by simpa using hcolumn
      have hpos : 0 < row.length := List.length_pos.mpr hne
      rw [if_pos (by simp only [decide_eq_true_eq, List.length_singleton]; omega)]
      simp

/-- C19, the claim as stated fails for a key that is an error value:
`approximateBinarySearch` finds no match for `#DIV/0!` in `[1, 2, 3]`, and
`LOOKUP(#DIV/0!, [[1, 2, 3]], [[4, 5, 6]])` returns the key `#DIV/0!`, not `#N/A`. -/
theorem LOOKUP_error_key_returned :
    approximateBinarySearch (.error "#DIV/0!") [.number 1, .number 2, .number 3] =
      some .blank ∧
    LOOKUP (.error "#DIV/0!") (.range [[.number 1, .number 2, .number 3]])
      (some (.range [[.number 4, .number 5, .number 6]])) = .ok (.error "#DIV/0!") ∧
    Value.error "#DIV/0!" ≠ error.na := by
  decide

/-- C19, amended. For every key that is not an error value, every lookup vector (a range of
one row or one column with at least one cell) and every explicitly supplied `result_array`
of one row or one column: the search of the lookup vector by `approximateBinarySearch` ends;
LOOKUP returns `#N/A` when it finds no match (`null`), `#REF!` when the index found is not
smaller than the length of the flattened `result_array`, and otherwise the element of the
flattened `result_array` at the index found. -/
theorem LOOKUP_vector_form (key : Value) (lookup result : List (List Value))
    (hkey : isErrorValue key = false)
    (hlookup : (isSingleRow lookup || isSingleColumn lookup) = true)
    (hcells : (Arg.range lookup).cells ≠ [])
    (hresult : (isSingleRow result || isSingleColumn result) = true) :
    ∃ r, approximateBinarySearch key (Arg.range lookup).cells = some r ∧
      ((r = .blank ∧
          LOOKUP key (.range lookup) (some (.range result)) = .ok error.na) ∨
       (∃ i : Nat, r = .number (i : Int) ∧
          ((Arg.range result).cells.length ≤ i →
            LOOKUP key (.range lookup) (some (.range result)) = .ok error.ref) ∧
          (i < (Arg.range result).cells.length →
            LOOKUP key (.range lookup) (some (.range result)) =
              .ok ((Arg.range result).cells.getD i .undefined)))) := by
  simp only [Arg.cells] at hcells ⊢
  have hne : lookup ≠ [] := by
    intro h; rw [h] at hcells; simp at hcells
  have hne2 : result ≠ [] := by
    intro h; rw [h] at hresult; simp [isSingleRow, isSingleColumn] at hresult
  obtain ⟨firstRow, hfirst⟩ : ∃ firstRow, lookup.head? = some firstRow := by
    cases lookup with
    | nil => exact absurd rfl hne
    | cons row rest => exact ⟨row, rfl⟩
  obtain ⟨lastRow, hlast⟩ : ∃ lastRow, lookup.getLast? = some lastRow :=
    ⟨lookup.getLast hne, List.getLast?_eq_getLast lookup hne⟩
  have harr := LOOKUP_array_range lookup hne
  have hunfold := LOOKUP_unfold key (.range lookup) (some (.range result)) firstRow lastRow hkey
    (by rw [harr]; exact hfirst) (by rw [harr]; exact hlast)
  rw [harr] at hunfold
  simp only [LOOKUP_lookup_edge_vector lookup firstRow hlookup hcells hfirst,
    LOOKUP_resultIsMatrix_vector result hresult, Bool.false_eq_true, if_false,
    LOOKUP_flattenResult_nested result hne2] at hunfold
  obtain ⟨r, hr, hcases⟩ := approximateBinarySearch_total key lookup.flatten
  refine ⟨r, hr, ?_⟩
  rw [hr] at hunfold
  rcases hcases with hblank | ⟨i, hi, _⟩
  · left
    subst hblank
    exact ⟨rfl, hunfold⟩
  · right
    subst hi
    refine ⟨i, rfl, ?_, ?_⟩
    · intro hlen
      rw [hunfold]
      simp only [ge_iff_le, Nat.cast_le]
      rw [if_pos hlen]
    · intro hlen
      rw [hunfold]
      simp only [ge_iff_le, Nat.cast_le]
      rw [if_neg (by omega), jsGet_natCast]

/-- An instance of C19: the lookup row `[1, 2, 3]` and the result column `[['a'], ['b']]`. -/
theorem LOOKUP_vector_form_witness :
    LOOKUP (.number 2) (.range [[.number 1, .number 2, .number 3]])
      (some (.range [[.text "a"], [.text "b"]])) = .ok (.text "b") ∧
    LOOKUP (.number 3) (.range [[.number 1, .number 2, .number 3]])
      (some (.range [[.text "a"], [.text "b"]])) = .ok error.ref ∧
    ∃ r, approximateBinarySearch (.number 2)
        (Arg.range [[.number 1, .number 2, .number 3]]).cells = some r ∧
      ((r = .blank ∧
          LOOKUP (.number 2) (.range [[.number 1, .number 2, .number 3]])
            (some (.range [[.text "a"], [.text "b"]])) = .ok error.na) ∨
       (∃ i : Nat, r = .number (i : Int) ∧
          ((Arg.range [[.text "a"], [.text "b"]]).cells.length ≤ i →
            LOOKUP (.number 2) (.range [[.number 1, .number 2, .number 3]])
              (some (.range [[.text "a"], [.text "b"]])) = .ok error.ref) ∧
          (i < (Arg.range [[.text "a"], [.text "b"]]).cells.length →
            LOOKUP (.number 2) (.range [[.number 1, .number 2, .number 3]])
              (some (.range [[.text "a"], [.text "b"]])) =
              .ok ((Arg.range [[.text "a"], [.text "b"]]).cells.getD i .undefined)))) :=
  ⟨by decide, by decide,
    LOOKUP_vector_form (.number 2) [[.number 1, .number 2, .number 3]]
      [[.text "a"], [.text "b"]] rfl (by decide) (by decide) (by decide)⟩

/-! ## Theorems: a round trip through xLookupBinarySearch -/

theorem xLookupBinarySearch_walk_le (t : Value) (arr : List Value) :
    ∀ m : Nat, xLookupBinarySearch.walk t arr m ≤ m := by
  intro m
  induction m with
  | zero => rw [xLookupBinarySearch.walk]
  | succ m ih =>
    rw [xLookupBinarySearch.walk]
    split
    · omega
    · exact le_refl _

theorem xLookupBinarySearch_loop_bounds (t : Value) (arr : List Value) :
    ∀ (fuel : Nat) (left right : Int) (e : LoopEnd), 0 ≤ left → right < arr.length →
      xLookupBinarySearch.loop t arr fuel left right = some e →
      (∀ v, e = .returned v → ∃ m : Nat, v = .number (m : Int) ∧ m < arr.length) ∧
      (∀ l r, e = .exited l r → 0 ≤ l ∧ r < arr.length) := by
  intro fuel
  induction fuel with
  | zero => intro left right e _ _ h; simp [xLookupBinarySearch.loop] at h
  | succ fuel ih =>
    intro left right e h0 h1 h
    rw [xLookupBinarySearch.loop] at h
    by_cases hlr : left ≤ right
    · simp only [if_pos hlr] at h
      obtain ⟨m, hm⟩ := Int.eq_ofNat_of_zero_le (show 0 ≤ (left + right) / 2 by omega)
      have hmlen : m < arr.length := by omega
      rw [hm] at h
      split at h
      · simp only [Int.toNat_ofNat, Option.some.injEq] at h
        subst h
        constructor
        · intro v hv
          cases hv
          have := xLookupBinarySearch_walk_le t arr m
          exact ⟨_, rfl, by omega⟩
        · intro l r hlr2; cases hlr2
      · split at h
        · exact ih _ _ e (by omega) h1 h
        · exact ih _ _ e h0 (by omega) h
    · simp only [if_neg hlr, Option.some.injEq] at h
      subst h
      constructor
      · intro v hv; cases hv
      · intro l r hlr2
        cases hlr2
        exact ⟨h0, h1⟩

theorem xLookupBinarySearch_next_smaller_in_range (key : Value) (arr : List Value) (i : Int)
    (h : xLookupBinarySearch key arr (-1) = some (.number i)) : 0 ≤ i ∧ i < arr.length := by
  unfold xLookupBinarySearch at h
  simp only at h
  split at h
  · cases h
  · rename_i mid heq
    have hb := (xLookupBinarySearch_loop_bounds (lowerValue key) arr _ _ _ _ (le_refl 0)
      (by omega) heq).1 mid rfl
    obtain ⟨m, hm, hmlen⟩ := hb
    simp only [Option.some.injEq] at h
    rw [hm] at h
    cases h
    omega
  · rename_i left right heq
    have hb := (xLookupBinarySearch_loop_bounds (lowerValue key) arr _ _ _ _ (le_refl 0)
      (by omega) heq).2 left right rfl
    simp only [show ¬ ((-1 : Int) = 0) by decide, if_false, if_true] at h
    split at h
    · cases h
    · split at h
      · cases h; omega
      · split at h
        · cases h; omega
        · cases h

/-- C11, the claim as stated fails when the element found is repeated. The array
`[1, 3, 3, 5]` is sorted ascending and `xLookupBinarySearch(4, arr, -1)` returns 2, the last
index of the run of `3`; `arr[2]` is `3`, and `xLookupBinarySearch(3, arr, 0)` returns 1, the
first index of the run. -/
theorem xLookupBinarySearch_round_trip_moves_to_run_start :
    SortedAscending [.number 1, .number 3, .number 3, .number 5] ∧
    xLookupBinarySearch (.number 4) [.number 1, .number 3, .number 3, .number 5] (-1) =
      some (.number 2) ∧
    jsGet [.number 1, .number 3, .number 3, .number 5] 2 = .number 3 ∧
    xLookupBinarySearch (.number 3) [.number 1, .number 3, .number 3, .number 5] 0 =
      some (.number 1) := by
  decide

/-- C11, amended. For every array `arr` sorted ascending under the total order of `compare`
and every key for which `xLookupBinarySearch(key, arr, -1)` returns an index `i`: `i` is an
index of `arr`, and `xLookupBinarySearch(arr[i], arr, 0)` returns the lowest index `j` of the
elements equal to `arr[i]` (once text is lower-cased), so `j <= i`, and `j = i` when no
element before index `i` is equal to `arr[i]`. -/
theorem xLookupBinarySearch_round_trip (key : Value) (arr : List Value) (i : Int)
    (hsorted : SortedAscending arr)
    (hfound : xLookupBinarySearch key arr (-1) = some (.number i)) :
    0 ≤ i ∧ i < arr.length ∧
    ∃ j : Nat, (j : Int) ≤ i ∧
      xLookupBinarySearch (jsGet arr i) arr 0 = some (.number (j : Int)) ∧
      arr[j]?.map lowerValue = some (lowerValue (jsGet arr i)) ∧
      (∀ m : Nat, m < j → arr[m]?.map lowerValue ≠ some (lowerValue (jsGet arr i))) ∧
      ((∀ m : Nat, (m : Int) < i → arr[m]?.map lowerValue ≠ some (lowerValue (jsGet arr i))) →
        (j : Int) = i) := by
  obtain ⟨h0, hlen⟩ := xLookupBinarySearch_next_smaller_in_range key arr i hfound
  obtain ⟨n, hn⟩ := Int.eq_ofNat_of_zero_le h0
  subst hn
  have hnlen : n < arr.length := by omega
  refine ⟨h0, hlen, ?_⟩
  have hex : ∃ m : Nat, arr[m]?.map lowerValue = some (lowerValue (jsGet arr (n : Int))) := by
    refine ⟨n, ?_⟩
    rw [jsGet_of_getElem? arr n _ (List.getElem?_eq_getElem hnlen),
      List.getElem?_eq_getElem hnlen, Option.map_some']
  have hj := Nat.find_spec hex
  have hmin : ∀ m : Nat, m < Nat.find hex →
      arr[m]?.map lowerValue ≠ some (lowerValue (jsGet arr (n : Int))) :=
    fun m hm => Nat.find_min hex hm
  have hle : Nat.find hex ≤ n := Nat.find_min' hex (by
    rw [jsGet_of_getElem? arr n _ (List.getElem?_eq_getElem hnlen),
      List.getElem?_eq_getElem hnlen, Option.map_some'])
  refine ⟨Nat.find hex, by omega, ?_, hj, hmin, ?_⟩
  · exact xLookupBinarySearch_found_lowest (jsGet arr (n : Int)) arr (Nat.find hex) 0 hsorted
      hj hmin
  · intro hnone
    rcases Nat.lt_or_ge (Nat.find hex) n with hlt | hge
    · exact absurd hj (hnone (Nat.find hex) (by omega))
    · omega

/-- An instance of C11 as amended: the array `[1, 3, 3, 5]` and the key `4`, for which the
search with match mode -1 returns 2. -/
theorem xLookupBinarySearch_round_trip_witness :
    (0 : Int) ≤ 2 ∧ (2 : Int) < [Value.number 1, .number 3, .number 3, .number 5].length ∧
    ∃ j : Nat, (j : Int) ≤ 2 ∧
      xLookupBinarySearch (jsGet [.number 1, .number 3, .number 3, .number 5] 2)
        [.number 1, .number 3, .number 3, .number 5] 0 = some (.number (j : Int)) ∧
      [Value.number 1, .number 3, .number 3, .number 5][j]?.map lowerValue =
        some (lowerValue (jsGet [.number 1, .number 3, .number 3, .number 5] 2)) ∧
      (∀ m : Nat, m < j → [Value.number 1, .number 3, .number 3, .number 5][m]?.map lowerValue ≠
        some (lowerValue (jsGet [.number 1, .number 3, .number 3, .number 5] 2))) ∧
      ((∀ m : Nat, (m : Int) < 2 →
          [Value.number 1, .number 3, .number 3, .number 5][m]?.map lowerValue ≠
            some (lowerValue (jsGet [.number 1, .number 3, .number 3, .number 5] 2))) →
        (j : Int) = 2) :=
  xLookupBinarySearch_round_trip (.number 4) [.number 1, .number 3, .number 3, .number 5] 2
    (by decide) (by decide)

/-! ## Lemmas: the sorted copy of XMATCH is sorted -/

theorem XMATCH_sortsBefore_iff (a b : Value) :
    XMATCH.sortsBefore a b ↔ excelTypesComparator.isLessThan b a = false := by
  unfold XMATCH.sortsBefore
  rw [excelTypesComparator_isGreaterThan_eq]
  constructor
  · rintro (h | h)
    · exact excelTypesComparator_isLessThan_asymm a b h
    · exact h
  · intro h; exact Or.inr h

theorem XMATCH_sortsBefore_total (a b : Value) :
    XMATCH.sortsBefore a b ∨ XMATCH.sortsBefore b a := by
  rw [XMATCH_sortsBefore_iff, XMATCH_sortsBefore_iff]
  by_cases h : excelTypesComparator.isLessThan b a = true
  · exact Or.inr (excelTypesComparator_isLessThan_asymm b a h)
  · exact Or.inl (by simpa using h)

theorem XMATCH_sortsBefore_trans (a b c : Value) (ha : isPrimitive a = true)
    (hb : isPrimitive b = true) (hc : isPrimitive c = true)
    (hab : XMATCH.sortsBefore a b) (hbc : XMATCH.sortsBefore b c) : XMATCH.sortsBefore a c := by
  rw [XMATCH_sortsBefore_iff] at hab hbc ⊢
  cases a <;> try (simp [isPrimitive] at ha; done)
  all_goals cases b <;> try (simp [isPrimitive] at hb; done)
  all_goals cases c <;> try (simp [isPrimitive] at hc; done)
  all_goals
    simp_all [excelTypesComparator.isLessThan, typeOf, jsLt, toNumber, stringLt]
  · omega
  · exact le_trans hab hbc
  · rename_i x y z
    cases x <;> cases y <;> cases z <;> simp_all

theorem XMATCH_orderedInsert_pairwise (a : Value) (ha : isPrimitive a = true) :
    ∀ l : List Value, (∀ x ∈ l, isPrimitive x = true) → l.Pairwise XMATCH.sortsBefore →
      (l.orderedInsert XMATCH.sortsBefore a).Pairwise XMATCH.sortsBefore := by
  intro l
  induction l with
  | nil => intro _ _; simp
  | cons b rest ih =>
    intro hl hs
    have hb : isPrimitive b = true := hl b (List.mem_cons_self b rest)
    have hrest : ∀ x ∈ rest, isPrimitive x = true :=
      fun x hx => hl x (List.mem_cons_of_mem b hx)
    obtain ⟨hbx, hs2⟩ := List.pairwise_cons.mp hs
    rw [List.orderedInsert]
    split
    · rename_i hab
      refine List.pairwise_cons.mpr ⟨?_, hs⟩
      intro x hx
      rcases List.mem_cons.mp hx with h | h
      · rw [h]; exact hab
      · exact XMATCH_sortsBefore_trans a b x ha hb (hrest x h) hab (hbx x h)
    · rename_i hab
      have hba : XMATCH.sortsBefore b a := by
        rcases XMATCH_sortsBefore_total a b with h | h
        · exact absurd h hab
        · exact h
      refine List.pairwise_cons.mpr ⟨?_, ih hrest hs2⟩
      intro x hx
      rcases (List.mem_orderedInsert XMATCH.sortsBefore).mp hx with h | h
      · rw [h]; exact hba
      · exact hbx x h

theorem XMATCH_insertionSort_pairwise :
    ∀ l : List Value, (∀ x ∈ l, isPrimitive x = true) →
      (l.insertionSort XMATCH.sortsBefore).Pairwise XMATCH.sortsBefore := by
  intro l
  induction l with
  | nil => intro _; simp
  | cons a rest ih =>
    intro hl
    rw [List.insertionSort_cons_eq_take_drop, ← List.orderedInsert_eq_take_drop]
    apply XMATCH_orderedInsert_pairwise a (hl a (List.mem_cons_self a rest))
    · intro x hx
      rw [List.mem_insertionSort] at hx
      exact hl x (List.mem_cons_of_mem a hx)
    · exact ih (fun x hx => hl x (List.mem_cons_of_mem a hx))

theorem XMATCH_sort_pairwise (l : List Value) (hl : ∀ x ∈ l, isPrimitive x = true) :
    (XMATCH.sort l).Pairwise XMATCH.sortsBefore := by
  have h1 : l.filter (fun v => decide (v ≠ .undefined)) = l := by
    rw [List.filter_eq_self]
    intro x hx
    have := hl x hx
    cases x <;> simp_all [isPrimitive]
  have h2 : l.filter (fun v => decide (v = .undefined)) = [] := by
    rw [List.filter_eq_nil_iff]
    intro x hx
    have := hl x hx
    cases x <;> simp_all [isPrimitive]
  unfold XMATCH.sort
  rw [h1, h2, List.append_nil]
  exact XMATCH_insertionSort_pairwise l hl

theorem find?_first_of_pairwise (r : Value → Value → Prop) (p : Value → Bool) (v : Value)
    (hv : p v = true) :
    ∀ l : List Value, l.Pairwise r → v ∈ l → (∀ w ∈ l, p w = true → w ≠ v → ¬ r w v) →
      l.find? p = some v := by
  intro l
  induction l with
  | nil => intro _ h; cases h
  | cons x rest ih =>
    intro hs hmem hmin
    obtain ⟨hx, hs2⟩ := List.pairwise_cons.mp hs
    by_cases hpx : p x = true
    · by_cases hxv : x = v
      · rw [List.find?_cons_of_pos _ hpx, hxv]
      · have hvr : v ∈ rest := by
          rcases List.mem_cons.mp hmem with h | h
          · exact absurd h.symm hxv
          · exact h
        exact absurd (hx v hvr) (hmin x (List.mem_cons_self x rest) hpx hxv)
    · have hxv : x ≠ v := by
        intro h; rw [h] at hpx; exact hpx hv
      have hvr : v ∈ rest := by
        rcases List.mem_cons.mp hmem with h | h
        · exact absurd h.symm hxv
        · exact h
      rw [List.find?_cons_of_neg _ hpx]
      exact ih hs2 hvr (fun w hw => hmin w (List.mem_cons_of_mem x hw))

theorem isPrimitive_lowerValue (v : Value) : isPrimitive (lowerValue v) = isPrimitive v := by
  cases v <;> rfl

theorem XMATCH_linear_unfold (key : Value) (rows : List (List Value))
    (match_mode search_mode : Int) (hkey : key ≠ .undefined)
    (hshape : getVariableType (.range rows) ≠ .matrix)
    (hmm : match_mode = 1 ∨ match_mode = -1) (hsm : search_mode = 1 ∨ search_mode = -1) :
    XMATCH key (.range rows) match_mode search_mode =
      match (if match_mode = 1 then XMATCH.sort (rows.flatten.map lowerValue)
          else (XMATCH.sort (rows.flatten.map lowerValue)).reverse).find?
          (fun v => XMATCH.checkMatchModeRules match_mode v (lowerValue key)) with
      | some v =>
        if indexOf (rows.flatten.map lowerValue) v ≥ 0 then
          .ok (.number (1 + indexOf (rows.flatten.map lowerValue) v))
        else .ok error.na
      | none => .ok error.na := by
  unfold XMATCH
  simp only [if_neg hkey, if_neg hshape]
  rcases hmm with rfl | rfl <;> rcases hsm with rfl | rfl <;> simp

theorem XMATCH_linear_found (key : Value) (rows : List (List Value))
    (match_mode search_mode : Int) (hkey : key ≠ .undefined)
    (hshape : getVariableType (.range rows) ≠ .matrix)
    (hmm : match_mode = 1 ∨ match_mode = -1) (hsm : search_mode = 1 ∨ search_mode = -1)
    (i : Nat) (v : Value) (hi : rows.flatten[i]? = some v)
    (hfirst : ∀ j, j < i → rows.flatten[j]?.map lowerValue ≠ some (lowerValue v))
    (hfind : (if match_mode = 1 then XMATCH.sort (rows.flatten.map lowerValue)
        else (XMATCH.sort (rows.flatten.map lowerValue)).reverse).find?
        (fun w => XMATCH.checkMatchModeRules match_mode w (lowerValue key)) =
        some (lowerValue v)) :
    XMATCH key (.range rows) match_mode search_mode = .ok (.number (1 + (i : Int))) := by
  have hi2 : (rows.flatten.map lowerValue)[i]? = some (lowerValue v) := by
    rw [List.getElem?_map, hi]; rfl
  have hleast2 : ∀ j, j < i → (rows.flatten.map lowerValue)[j]? ≠ some (lowerValue v) := by
    intro j hj
    rw [List.getElem?_map]; exact hfirst j hj
  rw [XMATCH_linear_unfold key rows match_mode search_mode hkey hshape hmm hsm, hfind]
  simp only [indexOf_first _ _ i hi2 hleast2]
  rw [if_pos (by omega)]

theorem XMATCH_linear_absent (key : Value) (rows : List (List Value))
    (match_mode search_mode : Int) (hkey : key ≠ .undefined)
    (hshape : getVariableType (.range rows) ≠ .matrix)
    (hmm : match_mode = 1 ∨ match_mode = -1) (hsm : search_mode = 1 ∨ search_mode = -1)
    (hno : ∀ w ∈ rows.flatten,
      XMATCH.checkMatchModeRules match_mode (lowerValue w) (lowerValue key) = false) :
    XMATCH key (.range rows) match_mode search_mode = .ok error.na := by
  have hnone : (if match_mode = 1 then XMATCH.sort (rows.flatten.map lowerValue)
      else (XMATCH.sort (rows.flatten.map lowerValue)).reverse).find?
      (fun w => XMATCH.checkMatchModeRules match_mode w (lowerValue key)) = none := by
    rw [List.find?_eq_none]
    intro x hx
    have hx2 : x ∈ XMATCH.sort (rows.flatten.map lowerValue) := by
      split at hx
      · exact hx
      · exact List.mem_reverse.mp hx
    rw [XMATCH_mem_sort, List.mem_map] at hx2
    obtain ⟨y, hy, rfl⟩ := hx2
    simp [hno y hy]
  rw [XMATCH_linear_unfold key rows match_mode search_mode hkey hshape hmm hsm, hnone]

/-! ## Theorems: XMATCH with an approximate match mode and a linear search mode -/

/-- C20. For every single-row or single-column range of numbers, text and booleans, every
key (one that is present, not `undefined`) and each `search_mode` in `1`, `-1`, with the
elements and the key compared by `excelTypesComparator` after text is lower-cased:
`XMATCH(key, range, 1, search_mode)` returns 1 plus the index of the first occurrence, in
the original order, of the smallest element that is greater than or equal to the key, and
`#N/A` when no element is greater than or equal to the key; `XMATCH(key, range, -1,
search_mode)` returns 1 plus the index of the first occurrence of the greatest element that
is less than or equal to the key, and `#N/A` when no element is less than or equal to the
key. -/
theorem XMATCH_linear_approximate (key : Value) (rows : List (List Value)) (search_mode : Int)
    (hkey : key ≠ .undefined) (hshape : getVariableType (.range rows) ≠ .matrix)
    (hcells : ∀ x ∈ rows.flatten, isPrimitive x = true)
    (hsm : search_mode = 1 ∨ search_mode = -1) :
    (∀ (i : Nat) (v : Value), rows.flatten[i]? = some v →
      excelTypesComparator.isGreaterOrEqualThan (lowerValue v) (lowerValue key) = true →
      (∀ w ∈ rows.flatten,
        excelTypesComparator.isGreaterOrEqualThan (lowerValue w) (lowerValue key) = true →
        excelTypesComparator.isLessOrEqualThan (lowerValue v) (lowerValue w) = true) →
      (∀ j, j < i → rows.flatten[j]?.map lowerValue ≠ some (lowerValue v)) →
      XMATCH key (.range rows) 1 search_mode = .ok (.number (1 + (i : Int)))) ∧
    ((∀ w ∈ rows.flatten,
        excelTypesComparator.isGreaterOrEqualThan (lowerValue w) (lowerValue key) = false) →
      XMATCH key (.range rows) 1 search_mode = .ok error.na) ∧
    (∀ (i : Nat) (v : Value), rows.flatten[i]? = some v →
      excelTypesComparator.isLessOrEqualThan (lowerValue v) (lowerValue key) = true →
      (∀ w ∈ rows.flatten,
        excelTypesComparator.isLessOrEqualThan (lowerValue w) (lowerValue key) = true →
        excelTypesComparator.isLessOrEqualThan (lowerValue w) (lowerValue v) = true) →
      (∀ j, j < i → rows.flatten[j]?.map lowerValue ≠ some (lowerValue v)) →
      XMATCH key (.range rows) (-1) search_mode = .ok (.number (1 + (i : Int)))) ∧
    ((∀ w ∈ rows.flatten,
        excelTypesComparator.isLessOrEqualThan (lowerValue w) (lowerValue key) = false) →
      XMATCH key (.range rows) (-1) search_mode = .ok error.na) := by
  have hL : ∀ x ∈ rows.flatten.map lowerValue, isPrimitive x = true := by
    intro x hx
    obtain ⟨y, hy, rfl⟩ := List.mem_map.mp hx
    rw [isPrimitive_lowerValue]; exact hcells y hy
  have hsorted := XMATCH_sort_pairwise _ hL
  refine ⟨?_, ?_, ?_, ?_⟩
  · intro i v hi hge hmin hfirst
    have hvmem : v ∈ rows.flatten := List.getElem?_mem hi
    apply XMATCH_linear_found key rows 1 search_mode hkey hshape (Or.inl rfl) hsm i v hi hfirst
    rw [if_pos rfl]
    apply find?_first_of_pairwise XMATCH.sortsBefore _ (lowerValue v)
      (by simpa [XMATCH.checkMatchModeRules] using hge) _ hsorted
    · rw [XMATCH_mem_sort]; exact List.mem_map_of_mem lowerValue hvmem
    · intro w hw hpw hne hbefore
      rw [XMATCH_mem_sort] at hw
      obtain ⟨y, hy, rfl⟩ := List.mem_map.mp hw
      have hle := hmin y hy (by simpa [XMATCH.checkMatchModeRules] using hpw)
      have hlt := excelTypesComparator_lt_of_le_of_ne (lowerValue v) (lowerValue y)
        (by rw [isPrimitive_lowerValue]; exact hcells v hvmem)
        (by rw [isPrimitive_lowerValue]; exact hcells y hy) hle (fun h => hne h.symm)
      rw [XMATCH_sortsBefore_iff, hlt] at hbefore
      cases hbefore
  · intro hno
    apply XMATCH_linear_absent key rows 1 search_mode hkey hshape (Or.inl rfl) hsm
    intro w hw
    simpa [XMATCH.checkMatchModeRules] using hno w hw
  · intro i v hi hle hmax hfirst
    have hvmem : v ∈ rows.flatten := List.getElem?_mem hi
    apply XMATCH_linear_found key rows (-1) search_mode hkey hshape (Or.inr rfl) hsm i v hi
      hfirst
    rw [if_neg (by decide)]
    apply find?_first_of_pairwise (fun a b => XMATCH.sortsBefore b a) _ (lowerValue v)
      (by simpa [XMATCH.checkMatchModeRules] using hle) _ (List.pairwise_reverse.mpr hsorted)
    · rw [List.mem_reverse, XMATCH_mem_sort]; exact List.mem_map_of_mem lowerValue hvmem
    · intro w hw hpw hne hbefore
      rw [List.mem_reverse, XMATCH_mem_sort] at hw
      obtain ⟨y, hy, rfl⟩ := List.mem_map.mp hw
      have hle2 := hmax y hy (by simpa [XMATCH.checkMatchModeRules] using hpw)
      have hlt := excelTypesComparator_lt_of_le_of_ne (lowerValue y) (lowerValue v)
        (by rw [isPrimitive_lowerValue]; exact hcells y hy)
        (by rw [isPrimitive_lowerValue]; exact hcells v hvmem) hle2 hne
      rw [XMATCH_sortsBefore_iff, hlt] at hbefore
      cases hbefore
  · intro hno
    apply XMATCH_linear_absent key rows (-1) search_mode hkey hshape (Or.inr rfl) hsm
    intro w hw
    simpa [XMATCH.checkMatchModeRules] using hno w hw

/-- An instance of C20: in the row `[5, 'b', 9, 5, true, 7]` the smallest element that is at
least `6` is `7`, at index 5, and the greatest element that is at most `6` is `5`, first at
index 0; the search mode is `-1`. -/
theorem XMATCH_linear_approximate_witness :
    XMATCH (.number 6)
      (.range [[.number 5, .text "b", .number 9, .number 5, .boolean true, .number 7]]) 1 (-1) =
      .ok (.number (1 + ((5 : Nat) : Int))) ∧
    XMATCH (.number 6)
      (.range [[.number 5, .text "b", .number 9, .number 5, .boolean true, .number 7]]) (-1)
      (-1) = .ok (.number (1 + ((0 : Nat) : Int))) :=
  ⟨(XMATCH_linear_approximate (.number 6)
      [[.number 5, .text "b", .number 9, .number 5, .boolean true, .number 7]] (-1)
      (by decide) (by decide) (by decide) (by decide)).1 5 (.number 7) rfl (by decide)
      (by decide) (by decide),
    (XMATCH_linear_approximate (.number 6)
      [[.number 5, .text "b", .number 9, .number 5, .boolean true, .number 7]] (-1)
      (by decide) (by decide) (by decide) (by decide)).2.2.1 0 (.number 5) rfl (by decide)
      (by decide) (by decide)⟩

/-! ## Theorems: the total order of `compare` -/

/-- C29. For all values `a` and `b` of different kinds, `compare(a, b)` is `-1` exactly when
the kind of `a` comes before the kind of `b` in the precedence number < text < boolean <
other object < blank (`null`), is `1` otherwise, and is never `0`. -/
theorem compare_across_kinds (a b : Value) (h : kindOf a ≠ kindOf b) :
    (compare a b = -1 ↔ (kindOf a).rank < (kindOf b).rank) ∧
    (compare a b = 1 ↔ ¬ (kindOf a).rank < (kindOf b).rank) ∧
    compare a b ≠ 0 := by
  cases a <;> cases b <;> simp_all [compare, getTypePrecedence, kindOf, Kind.rank]

/-- An instance of C29: a text comes before a blank, and a blank after a text. -/
theorem compare_across_kinds_witness :
    ((compare (.text "z") .blank = -1 ↔ (kindOf (.text "z")).rank < (kindOf .blank).rank) ∧
      (compare (.text "z") .blank = 1 ↔ ¬ (kindOf (.text "z")).rank < (kindOf .blank).rank) ∧
      compare (.text "z") .blank ≠ 0) ∧
    compare (.text "z") .blank = -1 ∧ compare .blank (.text "z") = 1 :=
  ⟨compare_across_kinds (.text "z") .blank (by decide), by decide, by decide⟩

theorem compare_self_of_ordered (a : Value) (ha : isOrderedCell a = true) : compare a a = 0 := by
  rw [compare_eq_zero_iff]
  simp only [isOrderedCell, Bool.and_eq_true, decide_eq_true_eq] at ha
  exact ha.2.symm

theorem compare_neg_of_ordered (a b : Value) (ha : isOrderedCell a = true)
    (hb : isOrderedCell b = true) : compare a b = -compare b a := by
  simp only [isOrderedCell, Bool.and_eq_true, decide_eq_true_eq] at ha hb
  unfold compare
  rw [ha.2, hb.2]
  by_cases hp : getTypePrecedence a = getTypePrecedence b
  · simp only [hp, ne_eq, not_true_eq_false, if_false]
    by_cases he : a = b
    · simp [he]
    · have he2 : ¬ b = a := fun h => he h.symm
      simp only [he, he2, if_false]
      have hab : jsLt a b = true ∨ jsLt b a = true := by
        obtain ⟨hpa, _⟩ := ha
        obtain ⟨hpb, _⟩ := hb
        cases a <;> cases b <;>
          simp_all [jsLt, toNumber, stringLt, isPlain, getTypePrecedence]
        · exact fun h => he (String.ext h)
        · rename_i x y _ _
          cases x <;> cases y <;> simp_all
      rcases hab with h | h
      · simp [h, jsLt_asymm _ _ h]
      · simp [h, jsLt_asymm _ _ h]
  · have hp2 : ¬ getTypePrecedence b = getTypePrecedence a := fun h => hp h.symm
    simp only [ne_eq, hp, hp2, not_false_eq_true, if_true]
    by_cases hlt : getTypePrecedence a < getTypePrecedence b
    · have : ¬ getTypePrecedence b < getTypePrecedence a := by omega
      simp [hlt, this]
    · have : getTypePrecedence b < getTypePrecedence a := by omega
      simp [hlt, this]

theorem compare_trans_of_ordered (a b c : Value) (ha : isOrderedCell a = true)
    (hb : isOrderedCell b = true) (hc : isOrderedCell c = true)
    (hab : compare a b ≤ 0) (hbc : compare b c ≤ 0) : compare a c ≤ 0 := by
  simp only [isOrderedCell, Bool.and_eq_true, decide_eq_true_eq] at ha hb hc
  obtain ⟨hpa, hla⟩ := ha
  obtain ⟨hpb, hlb⟩ := hb
  obtain ⟨hpc, hlc⟩ := hc
  unfold compare at hab hbc ⊢
  rw [hlb] at hab
  rw [hlc] at hbc ⊢
  cases a <;> try (simp [isPlain] at hpa; done)
  all_goals cases b <;> try (simp [isPlain] at hpb; done)
  all_goals cases c <;> try (simp [isPlain] at hpc; done)
  all_goals simp_all [getTypePrecedence, jsLt, toNumber, stringLt]
  · split_ifs at hab hbc ⊢ <;> omega
  · rename_i s1 s2 s3
    by_cases h12 : s1 = s2
    · subst h12
      exact hbc
    · by_cases h23 : s2 = s3
      · subst h23
        exact hab
      · simp only [h12, h23, if_false] at hab hbc
        have hlt12 : s1.data < s2.data := by
          by_contra hn
          simp [hn] at hab
        have hlt23 : s2.data < s3.data := by
          by_contra hn
          simp [hn] at hbc
        have hlt13 : s1.data < s3.data := lt_trans hlt12 hlt23
        have hne : s1 ≠ s3 := fun h => by
          rw [h] at hlt13
          exact lt_irrefl _ hlt13
        simp [hne, hlt13]
  · rename_i x y z
    cases x <;> cases y <;> cases z <;> simp_all

/-- C30. On numbers, texts without upper-case letters, booleans and blanks `compare` is a
total order: `compare(a, a)` is `0`, `compare(a, b)` is `-compare(b, a)`, and
`compare(a, b) <= 0` together with `compare(b, c) <= 0` implies `compare(a, c) <= 0`. -/
theorem compare_total_order (a b c : Value) (ha : isOrderedCell a = true)
    (hb : isOrderedCell b = true) (hc : isOrderedCell c = true) :
    compare a a = 0 ∧ compare a b = -compare b a ∧
    (compare a b ≤ 0 → compare b c ≤ 0 → compare a c ≤ 0) :=
  ⟨compare_self_of_ordered a ha, compare_neg_of_ordered a b ha hb,
    compare_trans_of_ordered a b c ha hb hc⟩

/-- An instance of C30: the number `3`, the text `'abc'` and the blank. -/
theorem compare_total_order_witness :
    compare (.number 3) (.number 3) = 0 ∧
    compare (.number 3) (.text "abc") = -compare (.text "abc") (.number 3) ∧
    (compare (.number 3) (.text "abc") ≤ 0 → compare (.text "abc") .blank ≤ 0 →
      compare (.number 3) .blank ≤ 0) :=
  compare_total_order (.number 3) (.text "abc") .blank (by decide) (by decide) (by decide)

/-! ## Theorems: a mode outside its allowed set -/

/-- C24, the claim as stated fails: `XLOOKUP(1, [[1]], [[2]])` with `match_mode` 5, and with
`search_mode` 3, and `XMATCH(1, [[1]])` with `match_mode` 2, and with `search_mode` 0, all
return `#VALUE!`, which is not `#NUM!`. -/
theorem modes_out_of_range_not_num :
    XLOOKUP (.single (.number 1)) (.range [[.number 1]]) (.range [[.number 2]]) none 5 1 =
      .ok (.single error.value) ∧
    XLOOKUP (.single (.number 1)) (.range [[.number 1]]) (.range [[.number 2]]) none 0 3 =
      .ok (.single error.value) ∧
    XMATCH (.number 1) (.range [[.number 1]]) 2 1 = .ok error.value ∧
    XMATCH (.number 1) (.range [[.number 1]]) 0 0 = .ok error.value ∧
    error.value ≠ error.num := by
  decide

/-- C24, amended. When `match_mode` lies outside `-1, 0, 1, 2` or `search_mode` outside
`-2, -1, 1, 2`, XLOOKUP returns `#VALUE!`, provided none of its first three arguments is
`undefined` (then it returns `#N/A`) or an error value (then it returns that error). When
`match_mode` lies outside `0, 1, -1` or `search_mode` outside `1, -1, 2, -2`, XMATCH returns
`#VALUE!`. -/
theorem modes_out_of_range_value (match_mode search_mode : Int) :
    (∀ (lookup_value lookup_array return_array : Arg) (if_not_found : Option Arg),
      lookup_value ≠ .single .undefined → lookup_array ≠ .single .undefined →
      return_array ≠ .single .undefined →
      anyError [lookup_value, lookup_array, return_array] = none →
      match_mode ∉ [-1, 0, 1, 2] ∨ search_mode ∉ [-2, -1, 1, 2] →
      XLOOKUP lookup_value lookup_array return_array if_not_found match_mode search_mode =
        .ok (.single error.value)) ∧
    (∀ (searchKey : Value) (lookup_range : Arg),
      match_mode ∉ [0, 1, -1] ∨ search_mode ∉ [1, -1, 2, -2] →
      XMATCH searchKey lookup_range match_mode search_mode = .ok error.value) := by
  constructor
  · intro lookup_value lookup_array return_array if_not_found h1 h2 h3 herr hmode
    unfold XLOOKUP
    rw [if_neg (by simp [h1, h2, h3]), herr]
    simp only
    rw [if_pos hmode]
  · intro searchKey lookup_range hmode
    unfold XMATCH
    cases lookup_range with
    | single v => rfl
    | range rows =>
      by_cases hshape : getVariableType (.range rows) = .matrix
      · simp only [if_pos hshape]
      · simp only [if_neg hshape, if_pos hmode]

/-- An instance of C24 as amended: `match_mode` 5 for XLOOKUP and XMATCH. -/
theorem modes_out_of_range_value_witness :
    XLOOKUP (.single (.number 1)) (.range [[.number 1]]) (.range [[.number 2]]) none 5 1 =
      .ok (.single error.value) ∧
    XMATCH (.number 1) (.range [[.number 1]]) 5 1 = .ok error.value :=
  ⟨(modes_out_of_range_value 5 1).1 (.single (.number 1)) (.range [[.number 1]])
      (.range [[.number 2]]) none (by decide) (by decide) (by decide) rfl (by decide),
    (modes_out_of_range_value 5 1).2 (.number 1) (.range [[.number 1]]) (by decide)⟩

/-! ## Theorems: MATCH and exceptions -/

/-- C25. `MATCH(1, [null, 1], 0)` throws a `TypeError`: the flat array has more than one
element, so the test `lookup_array.length > 1 && lookup_array[0].length > 1` reads the
property `length` of `null`. The call throws for the match types `1` and `-1` and for a text
key as well. -/
theorem MATCH_blank_first_throws :
    MATCH (.number 1) (.flat [.blank, .number 1]) 0 = .error .typeError ∧
    MATCH (.number 1) (.flat [.blank, .number 1]) 1 = .error .typeError ∧
    MATCH (.number 1) (.flat [.blank, .number 1]) (-1) = .error .typeError ∧
    MATCH (.text "a") (.flat [.blank, .text "a"]) 0 = .error .typeError := by
  decide

/-! ## Theorems: XMATCH with match mode 0 and the reverse linear search -/

theorem find?_decide_eq (l : List Value) (k : Value) :
    l.find? (fun v => decide (v = k)) = if k ∈ l then some k else none := by
  by_cases h : k ∈ l
  · rw [if_pos h]; exact find?_decide_eq_of_mem l k h
  · rw [if_neg h, List.find?_eq_none]
    intro x hx hxk
    simp only [decide_eq_true_eq] at hxk
    exact h (hxk ▸ hx)

theorem find?_decide_reverse (l : List Value) (k : Value) :
    l.reverse.find? (fun v => decide (v = k)) = l.find? (fun v => decide (v = k)) := by
  rw [find?_decide_eq, find?_decide_eq]
  simp only [List.mem_reverse]

theorem XMATCH_exact_linear_unfold (key : Value) (rows : List (List Value)) (search_mode : Int)
    (hkey : key ≠ .undefined) (hshape : getVariableType (.range rows) ≠ .matrix)
    (hsm : search_mode = 1 ∨ search_mode = -1) :
    XMATCH key (.range rows) 0 search_mode =
      match (XMATCH.sort (rows.flatten.map lowerValue)).find?
          (fun v => decide (v = lowerValue key)) with
      | some v =>
        if indexOf (rows.flatten.map lowerValue) v ≥ 0 then
          .ok (.number (1 + indexOf (rows.flatten.map lowerValue) v))
        else .ok error.na
      | none => .ok error.na := by
  have hcheck : (fun v => XMATCH.checkMatchModeRules 0 v (lowerValue key)) =
      (fun v => decide (v = lowerValue key)) := by
    funext v
    simp [XMATCH.checkMatchModeRules, excelTypesComparator.isEqualsTo]
  unfold XMATCH
  simp only [if_neg hkey, if_neg hshape]
  rcases hsm with rfl | rfl
  · simp [hcheck]
  · simp [hcheck, find?_decide_reverse]

theorem XMATCH_undefined_key (range : Arg) (match_mode search_mode : Int) :
    XMATCH .undefined range match_mode search_mode =
      XMATCH .blank range match_mode search_mode := by
  unfold XMATCH
  simp

/-- C21. For every range and every key, `XMATCH(key, range, 0, -1)` equals
`XMATCH(key, range, 0, 1)`; and for every single-row or single-column range and every key
(one that is present, not `undefined`) that occurs in it, once or more than once,
`XMATCH(key, range, 0, -1)` returns 1 plus the index of the first occurrence of the key
among the cells in their original order, text compared without regard to letter case. -/
theorem XMATCH_reverse_exact_first_occurrence (key : Value) (range : Arg) :
    XMATCH key range 0 (-1) = XMATCH key range 0 1 ∧
    (∀ (rows : List (List Value)) (i : Nat), range = .range rows → key ≠ .undefined →
      getVariableType (.range rows) ≠ .matrix →
      rows.flatten[i]?.map lowerValue = some (lowerValue key) →
      (∀ j, j < i → rows.flatten[j]?.map lowerValue ≠ some (lowerValue key)) →
      XMATCH key range 0 (-1) = .ok (.number (1 + (i : Int)))) := by
  constructor
  · cases range with
    | single v => rfl
    | range rows =>
      by_cases hshape : getVariableType (.range rows) = .matrix
      · unfold XMATCH
        simp only [if_pos hshape]
      · by_cases hkey : key = .undefined
        · rw [hkey, XMATCH_undefined_key, XMATCH_undefined_key (.range rows) 0 1,
            XMATCH_exact_linear_unfold .blank rows (-1) (by decide) hshape (Or.inr rfl),
            XMATCH_exact_linear_unfold .blank rows 1 (by decide) hshape (Or.inl rfl)]
        · rw [XMATCH_exact_linear_unfold key rows (-1) hkey hshape (Or.inr rfl),
            XMATCH_exact_linear_unfold key rows 1 hkey hshape (Or.inl rfl)]
  · intro rows i hrange hkey hshape hi hleast
    subst hrange
    have hi2 : (rows.flatten.map lowerValue)[i]? = some (lowerValue key) := by
      rw [List.getElem?_map]; exact hi
    have hleast2 : ∀ j, j < i → (rows.flatten.map lowerValue)[j]? ≠ some (lowerValue key) := by
      intro j hj
      rw [List.getElem?_map]; exact hleast j hj
    have hmem : lowerValue key ∈ XMATCH.sort (rows.flatten.map lowerValue) := by
      rw [XMATCH_mem_sort]
      exact List.getElem?_mem hi2
    rw [XMATCH_exact_linear_unfold key rows (-1) hkey hshape (Or.inr rfl),
      find?_decide_eq_of_mem _ _ hmem]
    simp only [indexOf_first _ _ i hi2 hleast2]
    rw [if_pos (by omega)]

/-- An instance of C21: in the row `[3, 1, 2, 2]` the key `2` occurs at the indices 2 and 3,
and the reverse search returns position 3. -/
theorem XMATCH_reverse_exact_first_occurrence_witness :
    XMATCH (.number 2) (.range [[.number 3, .number 1, .number 2, .number 2]]) 0 (-1) =
      .ok (.number (1 + ((2 : Nat) : Int))) :=
  (XMATCH_reverse_exact_first_occurrence (.number 2)
    (.range [[.number 3, .number 1, .number 2, .number 2]])).2
    [[.number 3, .number 1, .number 2, .number 2]] 2 rfl (by decide) (by decide) (by decide)
    (by decide)

/-! ## Theorems: XLOOKUP with match mode 0 and the reverse search -/

theorem lookupIndex_exact_reverse_found (v : Value) (arr : List Value) (i : Nat)
    (hc : compare v (jsGet arr (i : Int)) = 0) :
    ∀ n : Nat, i < n → (∀ j, i < j → j < n → compare v (jsGet arr (j : Int)) ≠ 0) →
      lookupIndex.exact v arr (List.range n).reverse = .number (i : Int) := by
  intro n
  induction n with
  | zero => intro h; omega
  | succ n ih =>
    intro hin hlast
    rw [List.range_succ, List.reverse_append, List.reverse_singleton, List.singleton_append]
    by_cases hn : n = i
    · subst hn
      simp only [lookupIndex.exact, if_pos hc]
    · have hns := hlast n (by omega) (Nat.lt_succ_self n)
      simp only [lookupIndex.exact, if_neg hns]
      exact ih (by omega) (fun j hj1 hj2 => hlast j hj1 (by omega))

theorem lookupIndex_exact_reverse (key : Value) (arr : List Value) (i : Nat)
    (hi : arr[i]?.map lowerValue = some (lowerValue key))
    (hlast : ∀ j, j < arr.length → i < j → arr[j]?.map lowerValue ≠ some (lowerValue key)) :
    lookupIndex key arr 0 true = .number (i : Int) := by
  obtain ⟨hlen, hzero⟩ := (key_at_of_getElem?_map key arr i).mp hi
  simp only [lookupIndex, lookupIndex.order, if_true]
  apply lookupIndex_exact_reverse_found _ _ i hzero arr.length hlen
  intro j hij hj hc
  exact hlast j hj hij ((key_at_of_getElem?_map key arr j).mpr ⟨hj, hc⟩)

/-- C22, the claim as stated fails for a key that is an error value: `XLOOKUP(#N/A,
[[#N/A, #N/A]], [['a', 'b']], , 0, -1)` has its key at the indices 0 and 1 of the lookup row,
and returns the key `#N/A`, not the element `'b'` of the return row. -/
theorem XLOOKUP_reverse_error_key_not_looked_up :
    [error.na, error.na][1]?.map lowerValue = some (lowerValue error.na) ∧
    [Value.text "a", Value.text "b"][1]? = some (.text "b") ∧
    XLOOKUP (.single error.na) (.range [[error.na, error.na]])
      (.range [[.text "a", .text "b"]]) none 0 (-1) = .ok (.single error.na) ∧
    XLOOKUP (.single error.na) (.range [[error.na, error.na]])
      (.range [[.text "a", .text "b"]]) none 0 (-1) ≠ .ok (.single (.text "b")) := by
  decide

/-- C22, amended. For every single-row lookup array and single-row return array of the same
length and every key that is a number, a text, a boolean or blank and occurs in the lookup
array, XLOOKUP with match mode 0 and search mode -1 returns the element of the return array
at the greatest index at which the lookup array equals the key, text compared without regard
to letter case. Whatever `if_not_found` is, it plays no part. -/
theorem XLOOKUP_last_occurrence (key : Value) (lookup ret : List Value)
    (if_not_found : Option Arg) (i : Nat) (r : Value)
    (hkey : isPlain key = true)
    (hlen : lookup.length = ret.length)
    (hi : lookup[i]?.map lowerValue = some (lowerValue key))
    (hlast : ∀ j, j < lookup.length → i < j →
      lookup[j]?.map lowerValue ≠ some (lowerValue key))
    (hr : ret[i]? = some r) :
    XLOOKUP (.single key) (.range [lookup]) (.range [ret]) if_not_found 0 (-1) =
      .ok (.single r) := by
  have hidx := lookupIndex_exact_reverse key lookup i hi hlast
  have hany : anyError [Arg.single key, Arg.range [lookup], Arg.range [ret]] = none := by
    cases key <;> simp_all [isPlain, anyError]
  have hdef : key ≠ .undefined := by
    intro h; rw [h] at hkey; cases hkey
  have hsearch : XLOOKUP.search (.range [ret]) if_not_found 0 (-1) (.single key) .line lookup =
      .ok (.single r) := by
    simp only [XLOOKUP.search, xLookupSearchFunctions, hidx, getColumnAsMatrix, List.map]
    simp [jsGet, hr]
  simp only [XLOOKUP, hany]
  simp [hdef, getVariableType, flatten, hlen, hsearch]

/-- An instance of C22: `XLOOKUP(5, [1,3,5,5,9], ['a','b','c','d','e'], , 0, -1)` returns
`'d'`. -/
theorem XLOOKUP_last_occurrence_witness :
    XLOOKUP (.single (.number 5))
      (.range [[.number 1, .number 3, .number 5, .number 5, .number 9]])
      (.range [[.text "a", .text "b", .text "c", .text "d", .text "e"]]) none 0 (-1) =
      .ok (.single (.text "d")) :=
  XLOOKUP_last_occurrence (.number 5) [.number 1, .number 3, .number 5, .number 5, .number 9]
    [.text "a", .text "b", .text "c", .text "d", .text "e"] none 3 (.text "d")
    rfl rfl (by decide) (by decide) rfl



/-! ## Theorems: UNIQUE -/

theorem rows_eq_of_cells (c : Nat) (r1 r2 : List Value) (h1 : r1.length = c)
    (h2 : r2.length = c)
    (h : ∀ columnIndex : Nat, columnIndex < c →
      jsGet r1 (columnIndex : Int) = jsGet r2 (columnIndex : Int)) : r1 = r2 := by
  apply List.ext_getElem (by omega)
  intro i hi1 hi2
  have := h i (by omega)
  rw [jsGet_of_getElem? r1 i _ (List.getElem?_eq_getElem hi1),
    jsGet_of_getElem? r2 i _ (List.getElem?_eq_getElem hi2)] at this
  exact this

theorem rowExistInArray_eq (c : Nat) (targetRow : List Value) (array : List (List Value))
    (hne : array ≠ []) (ht : targetRow.length = c) (ha : ∀ row ∈ array, row.length = c) :
    rowExistInArray targetRow array = .ok (decide (targetRow ∈ array)) := by
  cases array with
  | nil => exact absurd rfl hne
  | cons firstRow rest =>
    have hfirst : firstRow.length = c := ha firstRow (List.mem_cons_self firstRow rest)
    simp only [rowExistInArray, hfirst]
    congr 1
    rw [Bool.eq_iff_iff]
    simp only [List.any_eq_true, List.all_eq_true, List.mem_range, decide_eq_true_eq]
    constructor
    · rintro ⟨row, hrow, hcells⟩
      have : row = targetRow := rows_eq_of_cells c row targetRow (ha row hrow) ht hcells
      rw [← this]; exact hrow
    · intro hmem
      exact ⟨targetRow, hmem, fun _ _ => rfl⟩

theorem getArrayWithoutDuplicateRows_loop_spec (c : Nat) :
    ∀ (rest uniqueRows : List (List Value)), uniqueRows ≠ [] →
      (∀ row ∈ rest, row.length = c) → (∀ row ∈ uniqueRows, row.length = c) →
      uniqueRows.Nodup →
      ∃ result, getArrayWithoutDuplicateRows.loop rest uniqueRows = .ok result ∧
        result.Nodup ∧ result ≠ [] ∧
        ∀ row, row ∈ result ↔ row ∈ uniqueRows ∨ row ∈ rest := by
  intro rest
  induction rest with
  | nil =>
    intro uniqueRows hne _ _ hnodup
    exact ⟨uniqueRows, rfl, hnodup, hne, by simp⟩
  | cons row rest ih =>
    intro uniqueRows hne hrest hunique hnodup
    have hrow : row.length = c := hrest row (List.mem_cons_self row rest)
    have hrest2 : ∀ r ∈ rest, r.length = c := fun r hr => hrest r (List.mem_cons_of_mem row hr)
    rw [getArrayWithoutDuplicateRows.loop, rowExistInArray_eq c row uniqueRows hne hrow hunique]
    by_cases hmem : row ∈ uniqueRows
    · simp only [hmem, decide_True]
      obtain ⟨result, h1, h2, h3, h4⟩ := ih uniqueRows hne hrest2 hunique hnodup
      refine ⟨result, h1, h2, h3, ?_⟩
      intro r
      rw [h4 r, List.mem_cons]
      constructor
      · rintro (h | h)
        · exact Or.inl h
        · exact Or.inr (Or.inr h)
      · rintro (h | h | h)
        · exact Or.inl h
        · exact Or.inl (h ▸ hmem)
        · exact Or.inr h
    · simp only [hmem, decide_False]
      obtain ⟨result, h1, h2, h3, h4⟩ := ih (uniqueRows ++ [row]) (by simp) hrest2
        (by
          intro r hr
          rcases List.mem_append.mp hr with h | h
          · exact hunique r h
          · rw [List.mem_singleton.mp h]; exact hrow)
        (by
          rw [List.nodup_append]
          refine ⟨hnodup, List.nodup_singleton row, ?_⟩
          intro r hr1 hr2
          rw [List.mem_singleton.mp hr2] at hr1
          exact hmem hr1)
      refine ⟨result, h1, h2, h3, ?_⟩
      intro r
      rw [h4 r, List.mem_append, List.mem_singleton, List.mem_cons]
      tauto

theorem UNIQUE_zeroBlanks_of_no_blank (c : Nat) (row : List Value) (h : .blank ∉ row) :
    UNIQUE.zeroBlanks c row = row := by
  unfold UNIQUE.zeroBlanks
  have hmap : (row.take c).map (fun cell => if cell = .blank then .number 0 else cell) =
      row.take c := by
    conv_rhs => rw [← List.map_id (row.take c)]
    apply List.map_congr_left
    intro cell hcell
    have hne : cell ≠ .blank := fun hb => h (hb ▸ List.mem_of_mem_take hcell)
    simp [hne]
  rw [hmap, List.take_append_drop]

/-- C27. `UNIQUE([[0], [null]])` returns `[[0], [0]]`, two equal rows, where the docstring of
UNIQUE promises a list of unique values: the rows `[0]` and `[null]` differ, so
`getArrayWithoutDuplicateRows` keeps both, and the loop that follows replaces `null` by `0`
without looking for duplicates again. -/
theorem UNIQUE_blank_and_zero_rows :
    UNIQUE (.range [[.number 0], [.blank]]) = .ok (.range [[.number 0], [.number 0]]) ∧
    ¬ [[Value.number 0], [Value.number 0]].Nodup := by
  decide

/-- What UNIQUE does return. For every non-empty rectangular 2-D array with `c` columns,
`UNIQUE(array)` keeps the distinct rows of the array, each once (rows compared cell by cell
with `!==`), replaces every blank cell by `0`, and returns the rows so obtained, or the
single cell when one row of one column remains. When the array holds no blank cell the returned rows are the
distinct rows themselves, so no two rows of the returned array are equal. -/
theorem UNIQUE_distinct_rows (rows : List (List Value)) (c : Nat) (hne : rows ≠ [])
    (hrect : ∀ row ∈ rows, row.length = c) :
    ∃ uniqueRows : List (List Value), uniqueRows.Nodup ∧
      (∀ row, row ∈ uniqueRows ↔ row ∈ rows) ∧
      UNIQUE (.range rows) =
        (if uniqueRows.length = 1 ∧ c = 1 then
          .ok (.single (jsGet ((uniqueRows.map (UNIQUE.zeroBlanks c)).headD []) 0))
        else .ok (.range (uniqueRows.map (UNIQUE.zeroBlanks c)))) ∧
      ((∀ row ∈ rows, .blank ∉ row) →
        uniqueRows.map (UNIQUE.zeroBlanks c) = uniqueRows) := by
  cases rows with
  | nil => exact absurd rfl hne
  | cons firstRow rest =>
    have hfirst : firstRow.length = c := hrect firstRow (List.mem_cons_self firstRow rest)
    obtain ⟨result, h1, h2, h3, h4⟩ := getArrayWithoutDuplicateRows_loop_spec c rest [firstRow]
      (by simp) (fun r hr => hrect r (List.mem_cons_of_mem firstRow hr))
      (by intro r hr; rw [List.mem_singleton.mp hr]; exact hfirst)
      (List.nodup_singleton firstRow)
    have hmem : ∀ row, row ∈ result ↔ row ∈ firstRow :: rest := by
      intro row
      rw [h4 row, List.mem_singleton, List.mem_cons]
    refine ⟨result, h2, hmem, ?_, ?_⟩
    · obtain ⟨head, hhead⟩ : ∃ head, result.head? = some head := by
        cases result with
        | nil => exact absurd rfl h3
        | cons x xs => exact ⟨x, rfl⟩
      have hheadlen : head.length = c :=
        hrect head ((hmem head).mp (List.mem_of_mem_head? hhead))
      simp only [UNIQUE, getArrayWithoutDuplicateRows, h1, hhead, hheadlen]
    · intro hnoblank
      conv_rhs => rw [← List.map_id result]
      apply List.map_congr_left
      intro row hrow
      exact UNIQUE_zeroBlanks_of_no_blank c row (hnoblank row ((hmem row).mp hrow))

/-- An instance without blank cells: a table of three rows of two columns, the third equal to
the first. -/
theorem UNIQUE_distinct_rows_witness :
    UNIQUE (.range [[.number 1, .text "a"], [.number 2, .text "b"], [.number 1, .text "a"]]) =
      .ok (.range [[.number 1, .text "a"], [.number 2, .text "b"]]) ∧
    ∃ uniqueRows : List (List Value), uniqueRows.Nodup ∧
      (∀ row, row ∈ uniqueRows ↔
        row ∈ [[Value.number 1, .text "a"], [.number 2, .text "b"], [.number 1, .text "a"]]) ∧
      UNIQUE (.range [[.number 1, .text "a"], [.number 2, .text "b"],
          [.number 1, .text "a"]]) =
        (if uniqueRows.length = 1 ∧ 2 = 1 then
          .ok (.single (jsGet ((uniqueRows.map (UNIQUE.zeroBlanks 2)).headD []) 0))
        else .ok (.range (uniqueRows.map (UNIQUE.zeroBlanks 2)))) ∧
      ((∀ row ∈ [[Value.number 1, .text "a"], [.number 2, .text "b"], [.number 1, .text "a"]],
          .blank ∉ row) →
        uniqueRows.map (UNIQUE.zeroBlanks 2) = uniqueRows) :=
  ⟨by decide,
    UNIQUE_distinct_rows [[.number 1, .text "a"], [.number 2, .text "b"], [.number 1, .text "a"]]
      2 (by decide) (by decide)⟩

/-! ## Theorems: LOOKUP and the arrays of its caller -/

/-- C26. The call `LOOKUP(1, [[1, 2, 3], [4, 5, 6]])` returns `4` and leaves the caller's
array as `[[1, 2, 3], [[4], 5, 6]]`: the first row is searched, the omitted `result_array` is
the last row of the array itself, and `result_array[0] = [result_array[0]]` replaces its
first cell by an array. An empty array, passed as `array` or as `result_array`, is left as
`[[undefined]]`. -/
theorem LOOKUP_writes_into_caller_array :
    LOOKUP (.number 1) (.range [[.number 1, .number 2, .number 3],
      [.number 4, .number 5, .number 6]]) none = .ok (.number 4) ∧
    LOOKUP.arrayAfter (.number 1) [[.number 1, .number 2, .number 3],
      [.number 4, .number 5, .number 6]] none =
      [[.cell (.number 1), .cell (.number 2), .cell (.number 3)],
        [.array [.number 4], .cell (.number 5), .cell (.number 6)]] ∧
    LOOKUP.arrayAfter (.number 1) [[.number 1, .number 2, .number 3],
      [.number 4, .number 5, .number 6]] none ≠
      Entry.ofRows [[.number 1, .number 2, .number 3], [.number 4, .number 5, .number 6]] ∧
    LOOKUP.arrayAfter (.number 1) [] none ≠ Entry.ofRows [] ∧
    LOOKUP.resultArrayAfter (.number 1) [] ≠ Entry.ofRows [] := by
  decide

/-! ## Lemmas: approximateBinarySearch on an array of mixed types -/

theorem typeOf_lowerValue (v : Value) : typeOf (lowerValue v) = typeOf v := by
  cases v <;> rfl

theorem jsLt_trans_of_type (x y z : Value) (hx : isPrimitive x = true)
    (hxy : typeOf x = typeOf y) (hyz : typeOf y = typeOf z)
    (h1 : jsLt x y = true) (h2 : jsLt y z = true) : jsLt x z = true := by
  cases x <;> try (simp [isPrimitive] at hx; done)
  all_goals cases y <;> try (simp [typeOf] at hxy; done)
  all_goals cases z <;> try (simp [typeOf] at hyz; done)
  all_goals simp_all [jsLt, toNumber, stringLt]
  · omega
  · exact lt_trans h1 h2
  · rename_i a b c
    cases a <;> cases b <;> cases c <;> simp_all

theorem jsLt_trichotomy_of_type (x y : Value) (hx : isPrimitive x = true)
    (hxy : typeOf x = typeOf y) (h1 : jsLt x y = false) (h2 : jsLt y x = false) : x = y := by
  cases x <;> try (simp [isPrimitive] at hx; done)
  all_goals cases y <;> try (simp [typeOf] at hxy; done)
  all_goals simp_all [jsLt, toNumber, stringLt]
  · omega
  · exact String.ext (le_antisymm h2 h1)
  · rename_i a b
    cases a <;> cases b <;> simp_all

theorem jsLe_eq_not_jsLt_of_type (x y : Value) (hx : isPrimitive x = true)
    (hxy : typeOf x = typeOf y) : jsLe x y = !jsLt y x := by
  cases x <;> try (simp [isPrimitive] at hx; done)
  all_goals cases y <;> try (simp [typeOf] at hxy; done)
  all_goals simp [jsLe, jsLt, toNumber]
  · rw [Bool.eq_iff_iff]
    simp only [Bool.not_eq_true', decide_eq_true_eq, decide_eq_false_iff_not]
    omega
  · rename_i a b
    cases a <;> cases b <;> decide

theorem isPrimitive_of_typeOf_eq (x k : Value) (hk : isPrimitive k = true)
    (h : typeOf x = typeOf k) : isPrimitive x = true := by
  cases k <;> try (simp [isPrimitive] at hk; done)
  all_goals cases x <;> simp_all [typeOf, isPrimitive]

theorem approximateBinarySearch_skip_spec (valueType : JsType) (arr : List Value) (end_ : Int) :
    ∀ (n : Nat) (middle : Int), (end_ + 1 - middle).toNat ≤ n →
      middle ≤ approximateBinarySearch.skip valueType arr n middle end_ ∧
      (middle ≤ end_ + 1 → approximateBinarySearch.skip valueType arr n middle end_ ≤ end_ + 1) ∧
      (approximateBinarySearch.skip valueType arr n middle end_ ≤ end_ →
        typeOf (jsGet arr (approximateBinarySearch.skip valueType arr n middle end_)) =
          valueType) ∧
      (∀ j : Int, middle ≤ j →
        j < approximateBinarySearch.skip valueType arr n middle end_ →
        typeOf (jsGet arr j) ≠ valueType) := by
  intro n
  induction n with
  | zero =>
    intro middle hn
    rw [approximateBinarySearch.skip]
    refine ⟨le_refl _, fun h => h, fun h => ?_, fun j h1 h2 => ?_⟩
    · omega
    · omega
  | succ n ih =>
    intro middle hn
    rw [approximateBinarySearch.skip]
    by_cases hc : middle ≤ end_ ∧ valueType ≠ typeOf (jsGet arr middle)
    · rw [if_pos hc]
      obtain ⟨h1, h2, h3, h4⟩ := ih (middle + 1) (by omega)
      refine ⟨by omega, fun _ => h2 (by omega), h3, ?_⟩
      intro j hj1 hj2
      by_cases hjm : j = middle
      · rw [hjm]; exact fun h => hc.2 h.symm
      · exact h4 j (by omega) hj2
    · rw [if_neg hc]
      refine ⟨le_refl _, fun h => h, fun h => ?_, fun j h1 h2 => ?_⟩
      · by_contra hne
        exact hc ⟨h, fun h2 => hne h2.symm⟩
      · omega

theorem strictlyAscendingOfType_get (k : Value) (a : List Value)
    (hsorted : StrictlyAscendingOfType k a) (i j : Nat) (hij : i < j) (hj : j < a.length)
    (hi : typeOf (jsGet a (i : Int)) = typeOf k) (hjt : typeOf (jsGet a (j : Int)) = typeOf k) :
    jsLt (lowerValue (jsGet a (i : Int))) (lowerValue (jsGet a (j : Int))) = true := by
  have hilen : i < a.length := by omega
  rw [jsGet_of_getElem? a i _ (List.getElem?_eq_getElem hilen)] at hi ⊢
  rw [jsGet_of_getElem? a j _ (List.getElem?_eq_getElem hj)] at hjt ⊢
  exact (List.pairwise_iff_getElem.mp hsorted) i j hilen hj hij hi hjt

theorem approximateBinarySearch_loop_of_type (k : Value) (a : List Value)
    (hk : isPrimitive k = true) (hsorted : StrictlyAscendingOfType k a) :
    ∀ (fuel : Nat) (start end_ : Int) (hvv : Value),
      0 ≤ start → end_ < a.length → (end_ + 1 - start).toNat < fuel →
      (∀ j : Nat, (j : Int) < start → j < a.length →
        typeOf (jsGet a (j : Int)) = typeOf k →
        jsLt (lowerValue (jsGet a (j : Int))) (lowerValue k) = true) →
      (∀ j : Nat, j < a.length → end_ < (j : Int) →
        typeOf (jsGet a (j : Int)) = typeOf k →
        jsLt (lowerValue k) (lowerValue (jsGet a (j : Int))) = true) →
      ((hvv = .blank ∧ ∀ j : Nat, (j : Int) < start → j < a.length →
          typeOf (jsGet a (j : Int)) ≠ typeOf k) ∨
        (∃ h : Nat, hvv = .number (h : Int) ∧ (h : Int) < start ∧ h < a.length ∧
          typeOf (jsGet a (h : Int)) = typeOf k ∧
          ∀ j : Nat, (j : Int) < start → j < a.length →
            typeOf (jsGet a (j : Int)) = typeOf k → j ≤ h)) →
      ∃ r, approximateBinarySearch.loop (typeOf k) (lowerValue k) a fuel start end_ hvv =
          some r ∧
        ((r = .blank ∧ ∀ j : Nat, j < a.length → typeOf (jsGet a (j : Int)) = typeOf k →
            jsLt (lowerValue k) (lowerValue (jsGet a (j : Int))) = true) ∨
         (∃ i : Nat, r = .number (i : Int) ∧ i < a.length ∧
            typeOf (jsGet a (i : Int)) = typeOf k ∧
            jsLt (lowerValue k) (lowerValue (jsGet a (i : Int))) = false ∧
            ∀ j : Nat, j < a.length → typeOf (jsGet a (j : Int)) = typeOf k →
              jsLt (lowerValue k) (lowerValue (jsGet a (j : Int))) = false → j ≤ i)) := by
  have hprim : ∀ x : Value, typeOf x = typeOf k → isPrimitive (lowerValue x) = true := by
    intro x hx
    rw [isPrimitive_lowerValue]
    exact isPrimitive_of_typeOf_eq x k hk hx
  have htype : ∀ x y : Value, typeOf x = typeOf k → typeOf y = typeOf k →
      typeOf (lowerValue x) = typeOf (lowerValue y) := by
    intro x y hx hy
    rw [typeOf_lowerValue, typeOf_lowerValue, hx, hy]
  have hexit : ∀ (start end_ : Int) (hvv : Value), end_ < start →
      (∀ j : Nat, (j : Int) < start → j < a.length →
        typeOf (jsGet a (j : Int)) = typeOf k →
        jsLt (lowerValue (jsGet a (j : Int))) (lowerValue k) = true) →
      (∀ j : Nat, j < a.length → end_ < (j : Int) →
        typeOf (jsGet a (j : Int)) = typeOf k →
        jsLt (lowerValue k) (lowerValue (jsGet a (j : Int))) = true) →
      ((hvv = .blank ∧ ∀ j : Nat, (j : Int) < start → j < a.length →
          typeOf (jsGet a (j : Int)) ≠ typeOf k) ∨
        (∃ h : Nat, hvv = .number (h : Int) ∧ (h : Int) < start ∧ h < a.length ∧
          typeOf (jsGet a (h : Int)) = typeOf k ∧
          ∀ j : Nat, (j : Int) < start → j < a.length →
            typeOf (jsGet a (j : Int)) = typeOf k → j ≤ h)) →
      ((hvv = .blank ∧ ∀ j : Nat, j < a.length → typeOf (jsGet a (j : Int)) = typeOf k →
            jsLt (lowerValue k) (lowerValue (jsGet a (j : Int))) = true) ∨
         (∃ i : Nat, hvv = .number (i : Int) ∧ i < a.length ∧
            typeOf (jsGet a (i : Int)) = typeOf k ∧
            jsLt (lowerValue k) (lowerValue (jsGet a (i : Int))) = false ∧
            ∀ j : Nat, j < a.length → typeOf (jsGet a (j : Int)) = typeOf k →
              jsLt (lowerValue k) (lowerValue (jsGet a (j : Int))) = false → j ≤ i)) := by
    intro start end_ hvv hlt hlow hhigh hhvv
    rcases hhvv with ⟨hb, hnone⟩ | ⟨h, hh, hhs, hhlen, hht, hmax⟩
    · left
      refine ⟨hb, fun j hj hjt => ?_⟩
      by_cases hjs : (j : Int) < start
      · exact absurd hjt (hnone j hjs hj)
      · exact hhigh j hj (by omega) hjt
    · right
      refine ⟨h, hh, hhlen, hht, jsLt_asymm _ _ (hlow h hhs hhlen hht), fun j hj hjt hjk => ?_⟩
      by_cases hjs : (j : Int) < start
      · exact hmax j hjs hj hjt
      · have := hhigh j hj (by omega) hjt
        rw [this] at hjk
        cases hjk
  intro fuel
  induction fuel with
  | zero => intro start end_ _ _ _ hf; omega
  | succ fuel ih =>
    intro start end_ hvv h0 h1 hf hlow hhigh hhvv
    rw [approximateBinarySearch.loop]
    by_cases hse : end_ ≥ start
    · have htdiv : Int.tdiv (end_ - start) 2 = (end_ - start) / 2 :=
        Int.tdiv_eq_ediv (by omega) (by decide)
      rw [htdiv]
      obtain ⟨hs1, hs2, hs3, hs4⟩ := approximateBinarySearch_skip_spec (typeOf k) a end_
        (end_ + 1 - (start + (end_ - start) / 2)).toNat (start + (end_ - start) / 2)
        (le_refl _)
      simp only [if_pos hse]
      generalize approximateBinarySearch.skip (typeOf k) a
        (end_ + 1 - (start + (end_ - start) / 2)).toNat (start + (end_ - start) / 2) end_ =
        middle at hs1 hs2 hs3 hs4
      by_cases hover : middle > end_
      · rw [if_pos hover]
        apply ih start _ hvv h0 (by omega) (by omega) hlow _ hhvv
        intro j hj hjend hjt
        by_cases hje : end_ < (j : Int)
        · exact hhigh j hj hje hjt
        · exact absurd hjt (hs4 (j : Int) (by omega) (by omega))
      · rw [if_neg hover, if_neg (show ¬ middle < start by omega)]
        obtain ⟨m, hm⟩ := Int.eq_ofNat_of_zero_le (show 0 ≤ middle by omega)
        subst hm
        have hmlen : m < a.length := by omega
        have hmt : typeOf (jsGet a (m : Int)) = typeOf k := hs3 (by omega)
        simp only [jsGt]
        by_cases hgt : jsLt (lowerValue (jsGet a (m : Int))) (lowerValue k) = true
        · rw [if_pos hgt]
          apply ih ((m : Int) + 1) end_ _ (by omega) h1 (by omega) _ hhigh
          · right
            exact ⟨m, rfl, by omega, hmlen, hmt, fun j hj _ _ => by omega⟩
          · intro j hj hjlen hjt
            by_cases hjm : j = m
            · rw [hjm]; exact hgt
            · have hlt := strictlyAscendingOfType_get k a hsorted j m (by omega) hmlen hjt hmt
              exact jsLt_trans_of_type _ _ _ (hprim _ hjt) (htype _ _ hjt hmt)
                (by rw [typeOf_lowerValue, typeOf_lowerValue, hmt]) hlt hgt
        · rw [if_neg hgt]
          by_cases hlt : jsLt (lowerValue k) (lowerValue (jsGet a (m : Int))) = true
          · rw [if_pos hlt]
            apply ih start ((m : Int) - 1) hvv h0 (by omega) (by omega) hlow _ hhvv
            intro j hj hjm hjt
            by_cases hjm2 : j = m
            · rw [hjm2]; exact hlt
            · have hlt2 := strictlyAscendingOfType_get k a hsorted m j (by omega) hj hmt hjt
              exact jsLt_trans_of_type _ _ _ (by rw [isPrimitive_lowerValue]; exact hk)
                (by rw [typeOf_lowerValue, typeOf_lowerValue, hmt])
                (htype _ _ hmt hjt) hlt hlt2
          · rw [if_neg hlt]
            have hgt2 : jsLt (lowerValue (jsGet a (m : Int))) (lowerValue k) = false := by
              simpa using hgt
            have hlt3 : jsLt (lowerValue k) (lowerValue (jsGet a (m : Int))) = false := by
              simpa using hlt
            have heq : lowerValue (jsGet a (m : Int)) = lowerValue k :=
              jsLt_trichotomy_of_type _ _ (hprim _ hmt)
                (by rw [typeOf_lowerValue, typeOf_lowerValue, hmt]) hgt2 hlt3
            refine ⟨_, rfl, Or.inr ⟨m, rfl, hmlen, hmt, hlt3, fun j hj hjt hjk => ?_⟩⟩
            by_contra hjm
            have hlt2 := strictlyAscendingOfType_get k a hsorted m j (by omega) hj hmt hjt
            rw [heq, hjk] at hlt2
            cases hlt2
    · rw [if_neg hse]
      exact ⟨hvv, rfl, hexit start end_ hvv (by omega) hlow hhigh hhvv⟩

/-! ## Theorems: approximateBinarySearch on an array of mixed types -/

/-- C28. For every array `a` and every key `k` that is a number, a text or a boolean, if the
elements of `a` that have the type of `k` are strictly ascending (text compared without
regard to letter case), then `approximateBinarySearch(k, a)` returns the index of the
greatest element of the type of `k` that is less than or equal to `k`, wherever elements of
other types stand between them, and `null` when no element of the type of `k` is less than
or equal to `k`. -/
theorem approximateBinarySearch_mixed_types (k : Value) (a : List Value)
    (hk : isPrimitive k = true) (hsorted : StrictlyAscendingOfType k a) :
    (approximateBinarySearch k a = some .blank ∧
      ∀ x ∈ a, typeOf x = typeOf k → jsLe (lowerValue x) (lowerValue k) = false) ∨
    (∃ (i : Nat) (x : Value), approximateBinarySearch k a = some (.number (i : Int)) ∧
      a[i]? = some x ∧ typeOf x = typeOf k ∧ jsLe (lowerValue x) (lowerValue k) = true ∧
      ∀ (j : Nat) (y : Value), a[j]? = some y → typeOf y = typeOf k →
        jsLe (lowerValue y) (lowerValue k) = true →
        j ≤ i ∧ jsLe (lowerValue y) (lowerValue x) = true) := by
  have hle : ∀ x y : Value, typeOf x = typeOf k → typeOf y = typeOf k →
      jsLe (lowerValue x) (lowerValue y) = !jsLt (lowerValue y) (lowerValue x) := by
    intro x y hx hy
    apply jsLe_eq_not_jsLt_of_type
    · rw [isPrimitive_lowerValue]; exact isPrimitive_of_typeOf_eq x k hk hx
    · rw [typeOf_lowerValue, typeOf_lowerValue, hx, hy]
  obtain ⟨r, hr, hcases⟩ := approximateBinarySearch_loop_of_type k a hk hsorted
    (a.length + 1) 0 ((a.length : Int) - 1) .blank (le_refl 0) (by omega) (by omega)
    (fun j hj => by omega) (fun j hj hj2 => by omega)
    (Or.inl ⟨rfl, fun j hj => by omega⟩)
  unfold approximateBinarySearch
  rw [hr]
  rcases hcases with ⟨hb, hall⟩ | ⟨i, hi, hilen, hit, hik, hmax⟩
  · left
    refine ⟨by rw [hb], fun x hx hxt => ?_⟩
    obtain ⟨j, hj, hjx⟩ := List.mem_iff_getElem.mp hx
    have hget : jsGet a (j : Int) = x := by
      rw [jsGet_of_getElem? a j _ (List.getElem?_eq_getElem hj), hjx]
    have := hall j hj (by rw [hget]; exact hxt)
    rw [hget] at this
    rw [hle x k hxt rfl, this]
    rfl
  · right
    have hget : jsGet a (i : Int) = a[i] :=
      jsGet_of_getElem? a i _ (List.getElem?_eq_getElem hilen)
    rw [hget] at hit hik
    refine ⟨i, a[i], by rw [hi], List.getElem?_eq_getElem hilen, hit, ?_, ?_⟩
    · rw [hle _ k hit rfl, hik]; rfl
    · intro j y hj hyt hyk
      have hjlen : j < a.length := (List.getElem?_eq_some_iff.mp hj).1
      have hgetj : jsGet a (j : Int) = y := jsGet_of_getElem? a j _ hj
      rw [hle y k hyt rfl] at hyk
      have hyk2 : jsLt (lowerValue k) (lowerValue y) = false := by simpa using hyk
      have hji : j ≤ i := hmax j hjlen (by rw [hgetj]; exact hyt) (by rw [hgetj]; exact hyk2)
      refine ⟨hji, ?_⟩
      rw [hle y a[i] hyt hit]
      rcases Nat.eq_or_lt_of_le hji with h | h
      · have hyx : y = a[i] := by
          subst h
          rw [List.getElem?_eq_getElem hjlen] at hj
          exact (Option.some.inj hj).symm
        rw [hyx]
        have : jsLt (lowerValue a[i]) (lowerValue a[i]) = false := by
          by_contra hne
          have ht : jsLt (lowerValue a[i]) (lowerValue a[i]) = true := by simpa using hne
          have := jsLt_asymm _ _ ht
          rw [ht] at this
          cases this
        rw [this]; rfl
      · have hlt := strictlyAscendingOfType_get k a hsorted j i h hilen
          (by rw [hgetj]; exact hyt) (by rw [hget]; exact hit)
        rw [hgetj, hget] at hlt
        rw [jsLt_asymm _ _ hlt]; rfl

/-- An instance of C28: the numbers `1, 4, 9` of `['a', 1, true, 4, 'z', 9, null]` are
strictly ascending, and the key `5` finds index 3. -/
theorem approximateBinarySearch_mixed_types_witness :
    approximateBinarySearch (.number 5)
      [.text "a", .number 1, .boolean true, .number 4, .text "z", .number 9, .blank] =
      some (.number 3) ∧
    ((approximateBinarySearch (.number 5)
        [.text "a", .number 1, .boolean true, .number 4, .text "z", .number 9, .blank] =
        some .blank ∧
      ∀ x ∈ [Value.text "a", .number 1, .boolean true, .number 4, .text "z", .number 9, .blank],
        typeOf x = typeOf (.number 5) → jsLe (lowerValue x) (lowerValue (.number 5)) = false) ∨
    (∃ (i : Nat) (x : Value), approximateBinarySearch (.number 5)
        [.text "a", .number 1, .boolean true, .number 4, .text "z", .number 9, .blank] =
        some (.number (i : Int)) ∧
      [Value.text "a", .number 1, .boolean true, .number 4, .text "z", .number 9, .blank][i]? =
        some x ∧
      typeOf x = typeOf (.number 5) ∧ jsLe (lowerValue x) (lowerValue (.number 5)) = true ∧
      ∀ (j : Nat) (y : Value),
        [Value.text "a", .number 1, .boolean true, .number 4, .text "z", .number 9, .blank][j]? =
          some y →
        typeOf y = typeOf (.number 5) → jsLe (lowerValue y) (lowerValue (.number 5)) = true →
        j ≤ i ∧ jsLe (lowerValue y) (lowerValue x) = true)) :=
  ⟨by decide,
    approximateBinarySearch_mixed_types (.number 5)
      [.text "a", .number 1, .boolean true, .number 4, .text "z", .number 9, .blank]
      (by decide) (by decide)⟩

/-! ## Lemmas: every search of XLOOKUP ends, with an index of the array or without one -/

theorem lookupIndex_exact_in_range (v : Value) (arr : List Value) (n : Int) :
    ∀ order : List Nat, (∀ i ∈ order, i < arr.length) →
      lookupIndex.exact v arr order = .number n → 0 ≤ n ∧ n < arr.length := by
  intro order
  induction order with
  | nil => intro _ h; cases h
  | cons i rest ih =>
    intro hord h
    rw [lookupIndex.exact] at h
    split at h
    · cases h
      have := hord i (List.mem_cons_self i rest)
      omega
    · exact ih (fun j hj => hord j (List.mem_cons_of_mem i hj)) h

theorem lookupIndex_wildcard_in_range (v : Value) (arr : List Value) (n : Int) :
    ∀ order : List Nat, (∀ i ∈ order, i < arr.length) →
      lookupIndex.wildcard v arr order = .number n → 0 ≤ n ∧ n < arr.length := by
  intro order
  induction order with
  | nil => intro _ h; cases h
  | cons i rest ih =>
    intro hord h
    rw [lookupIndex.wildcard] at h
    split at h
    · cases h
      have := hord i (List.mem_cons_self i rest)
      omega
    · exact ih (fun j hj => hord j (List.mem_cons_of_mem i hj)) h

theorem lookupIndex_smaller_in_range (v : Value) (arr : List Value) (n : Int) :
    ∀ (order : List Nat) (cs pos : Value), (∀ i ∈ order, i < arr.length) →
      (pos = .number n → 0 ≤ n ∧ n < arr.length) →
      lookupIndex.smaller v arr order cs pos = .number n → 0 ≤ n ∧ n < arr.length := by
  intro order
  induction order with
  | nil => intro cs pos _ hpos h; exact hpos h
  | cons i rest ih =>
    intro cs pos hord hpos h
    have hi := hord i (List.mem_cons_self i rest)
    have hrest : ∀ j ∈ rest, j < arr.length := fun j hj => hord j (List.mem_cons_of_mem i hj)
    rw [lookupIndex.smaller] at h
    split at h
    · cases h; omega
    · split at h
      · exact ih _ _ hrest (fun hp => by cases hp; omega) h
      · exact ih _ _ hrest hpos h

theorem lookupIndex_larger_in_range (v : Value) (arr : List Value) (n : Int) :
    ∀ (order : List Nat) (cl pos : Value), (∀ i ∈ order, i < arr.length) →
      (pos = .number n → 0 ≤ n ∧ n < arr.length) →
      lookupIndex.larger v arr order cl pos = .number n → 0 ≤ n ∧ n < arr.length := by
  intro order
  induction order with
  | nil => intro cl pos _ hpos h; exact hpos h
  | cons i rest ih =>
    intro cl pos hord hpos h
    have hi := hord i (List.mem_cons_self i rest)
    have hrest : ∀ j ∈ rest, j < arr.length := fun j hj => hord j (List.mem_cons_of_mem i hj)
    rw [lookupIndex.larger] at h
    split at h
    · cases h; omega
    · split at h
      · exact ih _ _ hrest (fun hp => by cases hp; omega) h
      · exact ih _ _ hrest hpos h

theorem lookupIndex_in_range (key : Value) (arr : List Value) (match_mode : Int)
    (reverse : Bool) (n : Int) (h : lookupIndex key arr match_mode reverse = .number n) :
    0 ≤ n ∧ n < arr.length := by
  have hord : ∀ i ∈ lookupIndex.order arr.length reverse, i < arr.length :=
    fun i hi => lookupIndex_order_lt _ _ i hi
  unfold lookupIndex at h
  simp only at h
  split at h
  · exact lookupIndex_exact_in_range _ arr n _ hord h
  · split at h
    · exact lookupIndex_smaller_in_range _ arr n _ _ _ hord (fun hp => by cases hp) h
    · split at h
      · exact lookupIndex_larger_in_range _ arr n _ _ _ hord (fun hp => by cases hp) h
      · split at h
        · exact lookupIndex_wildcard_in_range _ arr n _ hord h
        · cases h

theorem xLookupBinarySearch_loop_ends (t : Value) (arr : List Value) :
    ∀ (fuel : Nat) (left right : Int), (right + 1 - left).toNat < fuel →
      ∃ e, xLookupBinarySearch.loop t arr fuel left right = some e := by
  intro fuel
  induction fuel with
  | zero => intro left right hf; omega
  | succ fuel ih =>
    intro left right hf
    rw [xLookupBinarySearch.loop]
    by_cases hlr : left ≤ right
    · simp only [if_pos hlr]
      split
      · exact ⟨_, rfl⟩
      · split
        · exact ih _ _ (by omega)
        · exact ih _ _ (by omega)
    · rw [if_neg hlr]
      exact ⟨_, rfl⟩

theorem xLookupBinarySearch_total (key : Value) (arr : List Value) (match_mode : Int) :
    ∃ p, xLookupBinarySearch key arr match_mode = some p ∧
      ∀ n : Int, p = .number n → 0 ≤ n ∧ n < arr.length := by
  obtain ⟨e, he⟩ := xLookupBinarySearch_loop_ends (lowerValue key) arr (arr.length + 1) 0
    ((arr.length : Int) - 1) (by omega)
  have hb := xLookupBinarySearch_loop_bounds (lowerValue key) arr _ _ _ e (le_refl 0)
    (by omega) he
  unfold xLookupBinarySearch
  simp only [he]
  cases e with
  | returned mid =>
    obtain ⟨m, hm, hmlen⟩ := hb.1 mid rfl
    refine ⟨mid, rfl, fun n hn => ?_⟩
    rw [hm] at hn
    cases hn
    omega
  | exited left right =>
    obtain ⟨hl, hr⟩ := hb.2 left right rfl
    simp only
    split
    · exact ⟨_, rfl, fun n hn => by cases hn⟩
    · split
      · split
        · exact ⟨_, rfl, fun n hn => by cases hn⟩
        · split
          · exact ⟨_, rfl, fun n hn => by cases hn; omega⟩
          · split
            · exact ⟨_, rfl, fun n hn => by cases hn; omega⟩
            · exact ⟨_, rfl, fun n hn => by cases hn⟩
      · split
        · exact ⟨_, rfl, fun n hn => by cases hn⟩
        · split
          · exact ⟨_, rfl, fun n hn => by cases hn; omega⟩
          · split
            · exact ⟨_, rfl, fun n hn => by cases hn; omega⟩
            · exact ⟨_, rfl, fun n hn => by cases hn⟩

theorem invertedXLookupBinarySearch_walk_bounds (t : Value) (arr : List Value) :
    ∀ (n : Nat) (mid : Int), mid < arr.length →
      mid ≤ invertedXLookupBinarySearch.walk t arr n mid ∧
      invertedXLookupBinarySearch.walk t arr n mid < arr.length := by
  intro n
  induction n with
  | zero => intro mid h; rw [invertedXLookupBinarySearch.walk]; omega
  | succ n ih =>
    intro mid h
    rw [invertedXLookupBinarySearch.walk]
    split
    · rename_i hc
      have := ih (mid + 1) (by omega)
      omega
    · omega

theorem invertedXLookupBinarySearch_loop_ends (t : Value) (arr : List Value) :
    ∀ (fuel : Nat) (left right : Int), 0 ≤ left → right < arr.length →
      (right + 1 - left).toNat < fuel →
      ∃ e, invertedXLookupBinarySearch.loop t arr fuel left right = some e ∧
        (∀ v, e = .returned v → ∃ m : Nat, v = .number (m : Int) ∧ m < arr.length) ∧
        (∀ l r, e = .exited l r → 0 ≤ l ∧ r < arr.length) := by
  intro fuel
  induction fuel with
  | zero => intro left right _ _ hf; omega
  | succ fuel ih =>
    intro left right h0 h1 hf
    rw [invertedXLookupBinarySearch.loop]
    by_cases hlr : left ≤ right
    · simp only [if_pos hlr]
      split
      · refine ⟨_, rfl, ?_, ?_⟩
        · intro v hv
          cases hv
          have hw := invertedXLookupBinarySearch_walk_bounds t arr
            ((arr.length : Int) - 1 - (left + right) / 2).toNat ((left + right) / 2) (by omega)
          obtain ⟨m, hm⟩ := Int.eq_ofNat_of_zero_le
            (show 0 ≤ invertedXLookupBinarySearch.walk t arr
              ((arr.length : Int) - 1 - (left + right) / 2).toNat ((left + right) / 2) by omega)
          exact ⟨m, by rw [hm], by omega⟩
        · intro l r hlr2; cases hlr2
      · split
        · exact ih _ _ (by omega) h1 (by omega)
        · exact ih _ _ h0 (by omega) (by omega)
    · rw [if_neg hlr]
      refine ⟨_, rfl, ?_, ?_⟩
      · intro v hv; cases hv
      · intro l r hlr2
        cases hlr2
        exact ⟨h0, h1⟩

theorem invertedXLookupBinarySearch_total (key : Value) (arr : List Value) (match_mode : Int) :
    ∃ p, invertedXLookupBinarySearch key arr match_mode = some p ∧
      ∀ n : Int, p = .number n → 0 ≤ n ∧ n < arr.length := by
  obtain ⟨e, he, hb⟩ := invertedXLookupBinarySearch_loop_ends (lowerValue key) arr
    (arr.length + 1) 0 ((arr.length : Int) - 1) (le_refl 0) (by omega) (by omega)
  unfold invertedXLookupBinarySearch
  simp only [he]
  cases e with
  | returned mid =>
    obtain ⟨m, hm, hmlen⟩ := hb.1 mid rfl
    refine ⟨mid, rfl, fun n hn => ?_⟩
    rw [hm] at hn
    cases hn
    omega
  | exited left right =>
    obtain ⟨hl, hr⟩ := hb.2 left right rfl
    simp only
    split
    · exact ⟨_, rfl, fun n hn => by cases hn⟩
    · split
      · split
        · exact ⟨_, rfl, fun n hn => by cases hn⟩
        · split
          · exact ⟨_, rfl, fun n hn => by cases hn; omega⟩
          · split
            · exact ⟨_, rfl, fun n hn => by cases hn; omega⟩
            · exact ⟨_, rfl, fun n hn => by cases hn⟩
      · split
        · exact ⟨_, rfl, fun n hn => by cases hn⟩
        · split
          · exact ⟨_, rfl, fun n hn => by cases hn; omega⟩
          · split
            · exact ⟨_, rfl, fun n hn => by cases hn; omega⟩
            · exact ⟨_, rfl, fun n hn => by cases hn⟩

theorem xLookupSearchFunctions_total (search_mode : Int) (key : Value) (arr : List Value)
    (match_mode : Int) :
    ∃ p, xLookupSearchFunctions search_mode key arr match_mode = some p ∧
      ∀ n : Int, p = .number n → 0 ≤ n ∧ n < arr.length := by
  unfold xLookupSearchFunctions
  split
  · exact xLookupBinarySearch_total key arr match_mode
  · split
    · exact invertedXLookupBinarySearch_total key arr match_mode
    · split
      · exact ⟨_, rfl, fun n hn => lookupIndex_in_range key arr match_mode false n hn⟩
      · exact ⟨_, rfl, fun n hn => lookupIndex_in_range key arr match_mode true n hn⟩

/-! ## Lemmas: XLOOKUP on a range of keys -/

theorem XLOOKUP_matchingVectors_shape (lookup ret : List (List Value))
    (h : XLOOKUP.matchingVectors lookup ret = true) :
    (getVariableType (.range lookup) = .line ∧
      ∃ lookupRow returnRow, lookup = [lookupRow] ∧ ret = [returnRow] ∧
        lookupRow.length = returnRow.length) ∨
    (getVariableType (.range lookup) = .column ∧ lookup.length = ret.length ∧
      (∀ row ∈ lookup, row.length = 1) ∧ (∀ row ∈ ret, row.length = 1)) := by
  simp only [XLOOKUP.matchingVectors, isSingleRow, isSingleColumn, Bool.or_eq_true,
    Bool.and_eq_true, decide_eq_true_eq, List.all_eq_true] at h
  rcases h with ⟨⟨h1, h2⟩, h3⟩ | ⟨⟨⟨_, h1⟩, ⟨_, h2⟩⟩, h3⟩
  · left
    match lookup, ret, h1, h2, h3 with
    | [lookupRow], [returnRow], _, _, h3 =>
      refine ⟨by simp [getVariableType], lookupRow, returnRow, rfl, rfl, ?_⟩
      simpa using h3
  · by_cases hone : lookup.length = 1
    · left
      match lookup, ret, hone, h3, h1, h2 with
      | [lookupRow], [returnRow], _, _, h1, h2 =>
        refine ⟨by simp [getVariableType], lookupRow, returnRow, rfl, rfl, ?_⟩
        rw [h1 lookupRow (List.mem_singleton.mpr rfl), h2 returnRow (List.mem_singleton.mpr rfl)]
    · right
      refine ⟨?_, h3, h1, h2⟩
      simp only [getVariableType, if_neg hone]
      rw [if_pos]
      simpa using h1

theorem XLOOKUP_valid_unfold (lookup_value : Arg) (lookup ret : List (List Value))
    (if_not_found : Option Arg) (match_mode search_mode : Int)
    (hdef : lookup_value ≠ .single .undefined)
    (hany : anyError [lookup_value, .range lookup, .range ret] = none)
    (hmm : match_mode ∈ [-1, 0, 1, 2]) (hsm : search_mode ∈ [-2, -1, 1, 2])
    (hwild : match_mode = 2 → search_mode = 1 ∨ search_mode = -1)
    (hvectors : XLOOKUP.matchingVectors lookup ret = true) :
    XLOOKUP lookup_value (.range lookup) (.range ret) if_not_found match_mode search_mode =
      XLOOKUP.search (.range ret) if_not_found match_mode search_mode lookup_value
        (getVariableType (.range lookup)) lookup.flatten := by
  have hcombo : ¬ (match_mode = 2 ∧ (search_mode = 2 ∨ search_mode = -2)) := by
    rintro ⟨h2, h3⟩
    rcases hwild h2 with h | h <;> omega
  unfold XLOOKUP
  rw [if_neg (by simp [hdef]), hany]
  simp only
  rw [if_neg (by simp [hmm, hsm]), if_neg hcombo]
  rcases XLOOKUP_matchingVectors_shape lookup ret hvectors with
    ⟨htype, lookupRow, returnRow, hl, hr, hlen⟩ | ⟨htype, hlen, _, _⟩
  · subst hl; subst hr
    simp [htype, hlen, flatten]
  · simp [htype, hlen, flatten]

theorem XLOOKUP_item_total (lookup ret : List (List Value)) (if_not_found : Option Arg)
    (match_mode search_mode : Int) (key : Value)
    (hinf : ∀ rows, if_not_found ≠ some (.range rows))
    (hvectors : XLOOKUP.matchingVectors lookup ret = true) :
    ∃ v, XLOOKUP.item (getVariableType (.range lookup)) lookup.flatten (.range ret)
        if_not_found match_mode search_mode key = .ok v ∧
      XLOOKUP.search (.range ret) if_not_found match_mode search_mode (.single key)
        (getVariableType (.range lookup)) lookup.flatten = .ok (.single v) := by
  obtain ⟨p, hp, hbound⟩ :=
    xLookupSearchFunctions_total search_mode key lookup.flatten match_mode
  have hfallback : ∀ q : Value, (∀ n, q ≠ .number n) →
      ∃ v, (match if_not_found with
          | none => (.ok error.na : Except Abort Value)
          | some (.single .undefined) => .ok error.na
          | some (.single v) => .ok v
          | some (.range rows) =>
            match rows.head? with
            | some row => .ok (jsGet row 0)
            | none => .error .typeError) = .ok v ∧
        (match if_not_found with
          | none => (.ok (.single error.na) : Except Abort Arg)
          | some (.single .undefined) => .ok (.single error.na)
          | some fallback => .ok fallback) = .ok (.single v) := by
    intro q _
    cases if_not_found with
    | none => exact ⟨error.na, rfl, rfl⟩
    | some fallback =>
      cases fallback with
      | single v =>
        cases v with
        | undefined => exact ⟨error.na, rfl, rfl⟩
        | _ => exact ⟨_, rfl, rfl⟩
      | range rows => exact absurd rfl (hinf rows)
  rcases XLOOKUP_matchingVectors_shape lookup ret hvectors with
    ⟨htype, lookupRow, returnRow, hl, hr, hlen⟩ | ⟨htype, hlen, hlcol, hrcol⟩
  · subst hl; subst hr
    simp only [XLOOKUP.item, XLOOKUP.search, htype, hp]
    cases p with
    | number n =>
      exact ⟨jsGet returnRow n, by simp, by simp [getColumnAsMatrix, jsGet]⟩
    | text s => simpa using hfallback (.text s) (fun n => Value.noConfusion)
    | boolean b => simpa using hfallback (.boolean b) (fun n => Value.noConfusion)
    | blank => simpa using hfallback .blank (fun n => Value.noConfusion)
    | undefined => simpa using hfallback .undefined (fun n => Value.noConfusion)
    | error m => simpa using hfallback (.error m) (fun n => Value.noConfusion)
  · have hflat : lookup.flatten.length = lookup.length := by
      rw [← firstColumn_single_column lookup hlcol]
      simp [firstColumn]
    simp only [XLOOKUP.item, XLOOKUP.search, htype, hp]
    cases p with
    | number n =>
      have hn := hbound n rfl
      have hn2 : 0 ≤ n ∧ n < ret.length := by omega
      have hrow : (ret.getD n.toNat []).length = 1 := by
        have hlt : n.toNat < ret.length := by omega
        rw [List.getD_eq_getElem _ _ hlt]
        exact hrcol _ (List.getElem_mem hlt)
      refine ⟨jsGet (ret.getD n.toNat []) 0, by simp [hn2], ?_⟩
      simp only [hn2, and_self, if_true, hrow]
      simp
    | text s => simpa using hfallback (.text s) (fun n => Value.noConfusion)
    | boolean b => simpa using hfallback (.boolean b) (fun n => Value.noConfusion)
    | blank => simpa using hfallback .blank (fun n => Value.noConfusion)
    | undefined => simpa using hfallback .undefined (fun n => Value.noConfusion)
    | error m => simpa using hfallback (.error m) (fun n => Value.noConfusion)

theorem mapM_ok_map {α β : Type} (f : α → Except Abort β) (g : α → β) :
    ∀ l : List α, (∀ x ∈ l, f x = .ok (g x)) → l.mapM f = .ok (l.map g) := by
  intro l
  induction l with
  | nil => intro _; rfl
  | cons a rest ih =>
    intro h
    rw [List.mapM_cons, h a (List.mem_cons_self a rest),
      ih (fun x hx => h x (List.mem_cons_of_mem a hx))]
    rfl

theorem range_flatMap_cast (n : Nat) :
    (List.range n).flatMap (fun (a : Nat) => [(a : Int)]) = (List.range n).map (fun (a : Nat) => (a : Int)) := by
  induction n with
  | zero => rfl
  | succ n ih => simp [List.range_succ, ih]

/-! ## Theorems: XLOOKUP on a range of keys -/

/-- C23, the claim as stated fails for a key range that holds an error value:
`XLOOKUP([[#DIV/0!]], [[1, 2]], [['a', 'b']])` is `[[#N/A]]`, the key being searched for and
not found, while `XLOOKUP(#DIV/0!, [[1, 2]], [['a', 'b']])` returns the key `#DIV/0!`. -/
theorem XLOOKUP_broadcast_error_key :
    XLOOKUP (.range [[.error "#DIV/0!"]]) (.range [[.number 1, .number 2]])
      (.range [[.text "a", .text "b"]]) none 0 1 = .ok (.range [[error.na]]) ∧
    XLOOKUP (.single (.error "#DIV/0!")) (.range [[.number 1, .number 2]])
      (.range [[.text "a", .text "b"]]) none 0 1 = .ok (.single (.error "#DIV/0!")) ∧
    error.na ≠ .error "#DIV/0!" := by
  decide

/-- C23, amended. For every 2-D key range with `r >= 1` rows and `c` columns whose cells are
numbers, texts, booleans or blanks, every lookup row or column with a matching return vector,
every `if_not_found` that is omitted or not an array, and every valid pair of modes, XLOOKUP
returns an array of `r` rows of `c` cells whose entry `(i, j)` is the result XLOOKUP gives
for the single key `key[i][j]` with the same remaining arguments. -/
theorem XLOOKUP_broadcast (keyRows lookup ret : List (List Value)) (c : Nat)
    (if_not_found : Option Arg) (match_mode search_mode : Int)
    (hne : keyRows ≠ []) (hrect : ∀ row ∈ keyRows, row.length = c)
    (hplain : ∀ row ∈ keyRows, ∀ k ∈ row, isPlain k = true)
    (hvectors : XLOOKUP.matchingVectors lookup ret = true)
    (hinf : ∀ rows, if_not_found ≠ some (.range rows))
    (hmm : match_mode ∈ [-1, 0, 1, 2]) (hsm : search_mode ∈ [-2, -1, 1, 2])
    (hwild : match_mode = 2 → search_mode = 1 ∨ search_mode = -1) :
    ∃ result : List (List Value),
      XLOOKUP (.range keyRows) (.range lookup) (.range ret) if_not_found match_mode
        search_mode = .ok (.range result) ∧
      result.length = keyRows.length ∧
      ∀ (i j : Nat) (row : List Value) (k : Value), keyRows[i]? = some row →
        row[j]? = some k →
        ∃ (resultRow : List Value) (v : Value), result[i]? = some resultRow ∧
          resultRow.length = c ∧ resultRow[j]? = some v ∧
          XLOOKUP (.single k) (.range lookup) (.range ret) if_not_found match_mode
            search_mode = .ok (.single v) := by
  choose g hg using fun key =>
    XLOOKUP_item_total lookup ret if_not_found match_mode search_mode key hinf hvectors
  obtain ⟨firstRow, hfirst⟩ : ∃ firstRow, keyRows.head? = some firstRow := by
    cases keyRows with
    | nil => exact absurd rfl hne
    | cons row rest => exact ⟨row, rfl⟩
  have hfirstLen : firstRow.length = c := hrect firstRow (List.mem_of_mem_head? hfirst)
  have hrows : keyRows.mapM (fun row =>
      (List.range firstRow.length).mapM (fun j =>
        XLOOKUP.item (getVariableType (.range lookup)) lookup.flatten (.range ret) if_not_found
          match_mode search_mode (jsGet row j))) =
      .ok (keyRows.map (fun row =>
        ((List.range c).map (fun (a : Nat) => (a : Int))).map (fun z => g (jsGet row z)))) := by
    apply mapM_ok_map
    intro row _
    rw [hfirstLen]
    simp only [List.bind_eq_flatMap, List.pure_def, range_flatMap_cast]
    apply mapM_ok_map
    intro z _
    exact (hg (jsGet row z)).1
  refine ⟨keyRows.map (fun row =>
      ((List.range c).map (fun (a : Nat) => (a : Int))).map (fun z => g (jsGet row z))),
    ?_, by simp, ?_⟩
  · rw [XLOOKUP_valid_unfold (.range keyRows) lookup ret if_not_found match_mode search_mode
      (by simp) rfl hmm hsm hwild hvectors]
    simp only [XLOOKUP.search, hfirst, hrows]
  · intro i j row k hi hj
    have hrowmem : row ∈ keyRows := List.getElem?_mem hi
    have hjc : j < c := by
      have := (List.getElem?_eq_some_iff.mp hj).1
      rw [hrect row hrowmem] at this
      exact this
    have hk : isPlain k = true := hplain row hrowmem k (List.getElem?_mem hj)
    refine ⟨((List.range c).map (fun (a : Nat) => (a : Int))).map (fun z => g (jsGet row z)), g k,
      ?_, by simp, ?_, ?_⟩
    · rw [List.getElem?_map, hi]; rfl
    · rw [List.getElem?_map, List.getElem?_map, List.getElem?_range hjc, Option.map_some',
        Option.map_some', jsGet_of_getElem? row j k hj]
    · rw [XLOOKUP_valid_unfold (.single k) lookup ret if_not_found match_mode search_mode
        (by intro h; cases h; cases hk) (by cases k <;> simp_all [isPlain, anyError])
        hmm hsm hwild hvectors]
      exact (hg k).2

/-- An instance of C23: the keys `[[5, 7], [1, 9]]` looked up in the row `[1, 3, 5, 9]`. -/
theorem XLOOKUP_broadcast_witness :
    XLOOKUP (.range [[.number 5, .number 7], [.number 1, .number 9]])
      (.range [[.number 1, .number 3, .number 5, .number 9]])
      (.range [[.text "a", .text "b", .text "c", .text "d"]]) (some (.single (.text "none")))
      0 1 =
      .ok (.range [[.text "c", .text "none"], [.text "a", .text "d"]]) ∧
    ∃ result : List (List Value),
      XLOOKUP (.range [[.number 5, .number 7], [.number 1, .number 9]])
        (.range [[.number 1, .number 3, .number 5, .number 9]])
        (.range [[.text "a", .text "b", .text "c", .text "d"]])
        (some (.single (.text "none"))) 0 1 = .ok (.range result) ∧
      result.length = [[Value.number 5, .number 7], [.number 1, .number 9]].length ∧
      ∀ (i j : Nat) (row : List Value) (k : Value),
        [[Value.number 5, .number 7], [.number 1, .number 9]][i]? = some row →
        row[j]? = some k →
        ∃ (resultRow : List Value) (v : Value), result[i]? = some resultRow ∧
          resultRow.length = 2 ∧ resultRow[j]? = some v ∧
          XLOOKUP (.single k) (.range [[.number 1, .number 3, .number 5, .number 9]])
            (.range [[.text "a", .text "b", .text "c", .text "d"]])
            (some (.single (.text "none"))) 0 1 = .ok (.single v) :=
  ⟨by decide,
    XLOOKUP_broadcast [[.number 5, .number 7], [.number 1, .number 9]]
      [[.number 1, .number 3, .number 5, .number 9]]
      [[.text "a", .text "b", .text "c", .text "d"]] 2 (some (.single (.text "none"))) 0 1
      (by decide) (by decide) (by decide) (by decide) (by simp) (by decide)
      (by decide) (by decide)⟩

/-! ## Theorems: the order of `excelTypesComparator` -/

/-- C31. In the order of XMATCH a boolean is greater than every value that is not a boolean,
and every such value is less than the boolean; a text is greater than every value that is
neither a text nor a boolean, and every such value is less than the text. -/
theorem excelTypesComparator_boolean_and_text_rank (v : Value) :
    (∀ b : Bool, typeOf v ≠ .boolean →
      excelTypesComparator.isGreaterThan (.boolean b) v = true ∧
      excelTypesComparator.isLessThan v (.boolean b) = true) ∧
    (∀ s : String, typeOf v ≠ .string → typeOf v ≠ .boolean →
      excelTypesComparator.isGreaterThan (.text s) v = true ∧
      excelTypesComparator.isLessThan v (.text s) = true) := by
  constructor
  · intro b h
    cases v <;>
      simp_all [excelTypesComparator.isGreaterThan, excelTypesComparator.isLessThan, typeOf]
  · intro s h1 h2
    cases v <;>
      simp_all [excelTypesComparator.isGreaterThan, excelTypesComparator.isLessThan, typeOf]

/-- An instance of C31: the boolean `false` against the text `'zzz'`, and the text `'a'`
against the number `99`. -/
theorem excelTypesComparator_boolean_and_text_rank_witness :
    (excelTypesComparator.isGreaterThan (.boolean false) (.text "zzz") = true ∧
      excelTypesComparator.isLessThan (.text "zzz") (.boolean false) = true) ∧
    (excelTypesComparator.isGreaterThan (.text "a") (.number 99) = true ∧
      excelTypesComparator.isLessThan (.number 99) (.text "a") = true) :=
  ⟨(excelTypesComparator_boolean_and_text_rank (.text "zzz")).1 false (by decide),
    (excelTypesComparator_boolean_and_text_rank (.number 99)).2 "a" (by decide) (by decide)⟩

/-- C37. On numbers, texts without upper-case letters and booleans the total order of
XLOOKUP and the order of XMATCH coincide: `compare(a, b) < 0` exactly when
`excelTypesComparator(a).isLessThan(b)`, `compare(a, b) = 0` exactly when
`excelTypesComparator(a).isEqualsTo(b)`, and `compare(a, b) > 0` exactly when
`excelTypesComparator(a).isGreaterThan(b)`. Only `b` has to be free of upper-case letters,
`compare` lower-casing its second argument alone. -/
theorem compare_agrees_with_excelTypesComparator (a b : Value)
    (ha : isPrimitive a = true) (hb : isPrimitive b = true) (hlb : lowerValue b = b) :
    (compare a b < 0 ↔ excelTypesComparator.isLessThan a b = true) ∧
    (compare a b = 0 ↔ excelTypesComparator.isEqualsTo a b = true) ∧
    (compare a b > 0 ↔ excelTypesComparator.isGreaterThan a b = true) := by
  have hzero : compare a b = 0 ↔ excelTypesComparator.isEqualsTo a b = true := by
    rw [compare_eq_zero_iff, hlb]
    simp [excelTypesComparator.isEqualsTo]
  refine ⟨?_, hzero, ?_⟩
  · unfold compare
    rw [hlb]
    cases a <;> try (simp [isPrimitive] at ha; done)
    all_goals cases b <;> try (simp [isPrimitive] at hb; done)
    all_goals
      simp [getTypePrecedence, excelTypesComparator.isLessThan, typeOf, jsLt, toNumber, stringLt]
    · split_ifs <;> omega
    · rename_i s t
      by_cases hst : s = t
      · subst hst; simp
      · by_cases hlt : s.data < t.data <;> simp [hst, hlt]
    · rename_i x y
      cases x <;> cases y <;> simp
  · unfold compare
    rw [hlb]
    cases a <;> try (simp [isPrimitive] at ha; done)
    all_goals cases b <;> try (simp [isPrimitive] at hb; done)
    all_goals
      simp [getTypePrecedence, excelTypesComparator.isGreaterThan, typeOf, jsGt, jsLt, toNumber,
        stringLt]
    · split_ifs <;> omega
    · rename_i s t
      by_cases hst : s = t
      · subst hst; simp
      · by_cases hlt : s.data < t.data
        · simp [hst, hlt, not_lt_of_lt hlt]
        · have hne : s.data ≠ t.data := fun h => hst (String.ext h)
          have hgt : t.data < s.data := lt_of_le_of_ne (not_lt.mp hlt) (Ne.symm hne)
          simp [hst, hlt, hgt]
    · rename_i x y
      cases x <;> cases y <;> simp

/-- An instance of C37: the number `7` against the text `'abc'`. -/
theorem compare_agrees_with_excelTypesComparator_witness :
    (compare (.number 7) (.text "abc") < 0 ↔
      excelTypesComparator.isLessThan (.number 7) (.text "abc") = true) ∧
    (compare (.number 7) (.text "abc") = 0 ↔
      excelTypesComparator.isEqualsTo (.number 7) (.text "abc") = true) ∧
    (compare (.number 7) (.text "abc") > 0 ↔
      excelTypesComparator.isGreaterThan (.number 7) (.text "abc") = true) :=
  compare_agrees_with_excelTypesComparator (.number 7) (.text "abc") (by decide) (by decide)
    (by decide)

/-! ## Theorems: termination and the result of approximateBinarySearch -/

theorem approximateBinarySearch_loop_typed (valueType : JsType) (key : Value)
    (arr : List Value) :
    ∀ (fuel : Nat) (start end_ : Int) (highestValidValue : Value),
      0 ≤ start → end_ < arr.length → (end_ + 1 - start).toNat < fuel →
      (highestValidValue = .blank ∨
        ∃ i : Nat, highestValidValue = .number (i : Int) ∧ i < arr.length ∧
          typeOf (jsGet arr (i : Int)) = valueType) →
      ∃ r, approximateBinarySearch.loop valueType key arr fuel start end_ highestValidValue =
          some r ∧
        (r = .blank ∨ ∃ i : Nat, r = .number (i : Int) ∧ i < arr.length ∧
          typeOf (jsGet arr (i : Int)) = valueType) := by
  intro fuel
  induction fuel with
  | zero => intro start end_ _ _ _ hf; omega
  | succ fuel ih =>
    intro start end_ hvv h0 h1 hf hhvv
    rw [approximateBinarySearch.loop]
    by_cases hse : end_ ≥ start
    · have htdiv : Int.tdiv (end_ - start) 2 = (end_ - start) / 2 :=
        Int.tdiv_eq_ediv (by omega) (by decide)
      rw [htdiv]
      obtain ⟨hs1, _, hs3, _⟩ := approximateBinarySearch_skip_spec valueType arr end_
        (end_ + 1 - (start + (end_ - start) / 2)).toNat (start + (end_ - start) / 2)
        (le_refl _)
      simp only [if_pos hse]
      generalize approximateBinarySearch.skip valueType arr
        (end_ + 1 - (start + (end_ - start) / 2)).toNat (start + (end_ - start) / 2) end_ =
        middle at hs1 hs3
      by_cases hover : middle > end_
      · rw [if_pos hover]
        exact ih start _ hvv h0 (by omega) (by omega) hhvv
      · rw [if_neg hover, if_neg (show ¬ middle < start by omega)]
        obtain ⟨m, hm⟩ := Int.eq_ofNat_of_zero_le (show 0 ≤ middle by omega)
        subst hm
        have hmlen : m < arr.length := by omega
        have hmt : typeOf (jsGet arr (m : Int)) = valueType := hs3 (by omega)
        split
        · exact ih ((m : Int) + 1) end_ _ (by omega) h1 (by omega)
            (Or.inr ⟨m, rfl, hmlen, hmt⟩)
        · split
          · exact ih start ((m : Int) - 1) hvv h0 (by omega) (by omega) hhvv
          · exact ⟨_, rfl, Or.inr ⟨m, rfl, hmlen, hmt⟩⟩
    · rw [if_neg hse]
      exact ⟨hvv, rfl, hhvv⟩

/-- C40. For every array `a` and key `k`, `approximateBinarySearch(k, a)` ends, and its result
is `null` or an index `i` with `0 <= i < a.length` whose element has the `typeof` of `k`; it
is `null` for the empty array and for an array without an element of the type of `k`. -/
theorem approximateBinarySearch_result_typed (k : Value) (a : List Value) :
    ∃ r, approximateBinarySearch k a = some r ∧
      (r = .blank ∨ ∃ (i : Nat) (x : Value), r = .number (i : Int) ∧ a[i]? = some x ∧
        typeOf x = typeOf k) ∧
      (a = [] → r = .blank) ∧
      ((∀ x ∈ a, typeOf x ≠ typeOf k) → r = .blank) := by
  obtain ⟨r, hr, hcases⟩ := approximateBinarySearch_loop_typed (typeOf k) (lowerValue k) a
    (a.length + 1) 0 ((a.length : Int) - 1) .blank (le_refl 0) (by omega) (by omega)
    (Or.inl rfl)
  have hshape : r = .blank ∨ ∃ (i : Nat) (x : Value), r = .number (i : Int) ∧ a[i]? = some x ∧
      typeOf x = typeOf k := by
    rcases hcases with h | ⟨i, hi, hilen, hit⟩
    · exact Or.inl h
    · right
      refine ⟨i, a[i], hi, List.getElem?_eq_getElem hilen, ?_⟩
      rw [jsGet_of_getElem? a i _ (List.getElem?_eq_getElem hilen)] at hit
      exact hit
  refine ⟨r, hr, hshape, ?_, ?_⟩
  · intro hnil
    rcases hshape with h | ⟨i, x, _, hix, _⟩
    · exact h
    · rw [hnil] at hix
      simp at hix
  · intro hnone
    rcases hshape with h | ⟨i, x, _, hix, hxt⟩
    · exact h
    · exact absurd hxt (hnone x (List.getElem?_mem hix))

/-- An instance of C40: the key `5` in `['a', 1, true, 9]`, and in an array of texts. -/
theorem approximateBinarySearch_result_typed_witness :
    approximateBinarySearch (.number 5) [.text "a", .number 1, .boolean true, .number 9] =
      some (.number 1) ∧
    approximateBinarySearch (.number 5) [.text "a", .text "b"] = some .blank ∧
    ∃ r, approximateBinarySearch (.number 5) [.text "a", .text "b"] = some r ∧
      (r = .blank ∨ ∃ (i : Nat) (x : Value), r = .number (i : Int) ∧
        [Value.text "a", .text "b"][i]? = some x ∧ typeOf x = typeOf (.number 5)) ∧
      ([Value.text "a", .text "b"] = [] → r = .blank) ∧
      ((∀ x ∈ [Value.text "a", .text "b"], typeOf x ≠ typeOf (.number 5)) → r = .blank) :=
  ⟨by decide, by decide,
    approximateBinarySearch_result_typed (.number 5) [.text "a", .text "b"]⟩

/-- C38. `approximateBinarySearch` ends for every array and every key. In every pass through
the loop (`end >= start`) the index `middle` reached after the forward skip is not below
`start`, so the branch `if (middle < start) break` is never taken, and the pass either
returns `middle` or goes on with a `start` and an `end` whose difference is smaller. -/
theorem approximateBinarySearch_terminates (valueType : JsType) (key : Value)
    (arr : List Value) :
    (∃ r, approximateBinarySearch key arr = some r) ∧
    ∀ (fuel : Nat) (start end_ : Int) (highestValidValue : Value), end_ ≥ start →
      ¬ (approximateBinarySearch.skip valueType arr
          (end_ + 1 - (start + Int.tdiv (end_ - start) 2)).toNat
          (start + Int.tdiv (end_ - start) 2) end_ < start) ∧
      (approximateBinarySearch.loop valueType key arr (fuel + 1) start end_ highestValidValue =
          some (.number (approximateBinarySearch.skip valueType arr
            (end_ + 1 - (start + Int.tdiv (end_ - start) 2)).toNat
            (start + Int.tdiv (end_ - start) 2) end_)) ∨
        ∃ (start2 end2 : Int) (highestValidValue2 : Value),
          approximateBinarySearch.loop valueType key arr (fuel + 1) start end_
              highestValidValue =
            approximateBinarySearch.loop valueType key arr fuel start2 end2
              highestValidValue2 ∧
          end2 - start2 < end_ - start) := by
  constructor
  · obtain ⟨r, hr, _⟩ := approximateBinarySearch_total key arr
    exact ⟨r, hr⟩
  · intro fuel start end_ hvv hse
    have htdiv : Int.tdiv (end_ - start) 2 = (end_ - start) / 2 :=
      Int.tdiv_eq_ediv (by omega) (by decide)
    rw [approximateBinarySearch.loop, htdiv]
    have hge := approximateBinarySearch_skip_ge valueType arr end_
      (end_ + 1 - (start + (end_ - start) / 2)).toNat (start + (end_ - start) / 2)
    simp only [if_pos hse]
    generalize approximateBinarySearch.skip valueType arr
      (end_ + 1 - (start + (end_ - start) / 2)).toNat (start + (end_ - start) / 2) end_ =
      middle at hge
    refine ⟨by omega, ?_⟩
    by_cases hover : middle > end_
    · rw [if_pos hover]
      exact Or.inr ⟨_, _, _, rfl, by omega⟩
    · rw [if_neg hover, if_neg (show ¬ middle < start by omega)]
      split
      · exact Or.inr ⟨_, _, _, rfl, by omega⟩
      · split
        · exact Or.inr ⟨_, _, _, rfl, by omega⟩
        · exact Or.inl rfl

/-- An instance of C38: the first pass over `['a', 'b', 1]` for the key `1`, with `start` 0
and `end` 2. -/
theorem approximateBinarySearch_terminates_witness :
    ¬ (approximateBinarySearch.skip .number [.text "a", .text "b", .number 1]
        ((2 : Int) + 1 - (0 + Int.tdiv (2 - 0) 2)).toNat (0 + Int.tdiv (2 - 0) 2) 2 < 0) ∧
    (approximateBinarySearch.loop .number (.number 1) [.text "a", .text "b", .number 1]
        (3 + 1) 0 2 .blank =
        some (.number (approximateBinarySearch.skip .number [.text "a", .text "b", .number 1]
          ((2 : Int) + 1 - (0 + Int.tdiv (2 - 0) 2)).toNat (0 + Int.tdiv (2 - 0) 2) 2)) ∨
      ∃ (start2 end2 : Int) (highestValidValue2 : Value),
        approximateBinarySearch.loop .number (.number 1) [.text "a", .text "b", .number 1]
            (3 + 1) 0 2 .blank =
          approximateBinarySearch.loop .number (.number 1) [.text "a", .text "b", .number 1]
            3 start2 end2 highestValidValue2 ∧
        end2 - start2 < 2 - 0) :=
  (approximateBinarySearch_terminates .number (.number 1)
    [.text "a", .text "b", .number 1]).2 3 0 2 .blank (by decide)

/-! ## Theorems: termination of xmatchCustomBinarySearch -/

theorem xmatchCustomBinarySearch_loop_total (lookupValue : Value) (arr : List Value)
    (match_mode search_mode : Int)
    (hmm : match_mode = 0 ∨ match_mode = 1 ∨ match_mode = -1)
    (hsm : search_mode = 2 ∨ search_mode = -2) :
    ∀ (fuel : Nat) (low up : Int) (lastMatch exactMatch : Option Int),
      (up + 1 - low).toNat < fuel →
      ∃ r, xmatchCustomBinarySearch.loop lookupValue arr match_mode search_mode fuel low up
        lastMatch exactMatch = some r := by
  intro fuel
  induction fuel with
  | zero => intro low up _ _ hf; omega
  | succ fuel ih =>
    intro low up lastMatch exactMatch hf
    by_cases h : low ≤ up
    · rcases hsm with rfl | rfl
      · rw [xmatchCustomBinarySearch_loop_step_ascending lookupValue arr match_mode hmm fuel
          low up lastMatch exactMatch h]
        split_ifs <;> exact ih _ _ _ _ (by omega)
      · rw [xmatchCustomBinarySearch_loop_step_descending lookupValue arr match_mode hmm fuel
          low up lastMatch exactMatch h]
        split_ifs <;> exact ih _ _ _ _ (by omega)
    · rw [xmatchCustomBinarySearch_loop_exit lookupValue arr match_mode search_mode fuel low up
        lastMatch exactMatch h]
      cases exactMatch with
      | some e => exact ⟨e, rfl⟩
      | none =>
        cases lastMatch with
        | some l => exact ⟨l, rfl⟩
        | none => exact ⟨-1, rfl⟩

theorem xmatchCustomBinarySearch_total (lookupValue : Value) (arr : List Value)
    (match_mode search_mode : Int)
    (hmm : match_mode = 0 ∨ match_mode = 1 ∨ match_mode = -1)
    (hsm : search_mode = 2 ∨ search_mode = -2) :
    ∃ r, xmatchCustomBinarySearch lookupValue arr match_mode search_mode = some r :=
  xmatchCustomBinarySearch_loop_total lookupValue arr match_mode search_mode hmm hsm _ _ _ _ _
    (by omega)

theorem XMATCH_total (searchKey : Value) (lookup_range : Arg) (match_mode search_mode : Int) :
    ∃ v, XMATCH searchKey lookup_range match_mode search_mode = .ok v := by
  unfold XMATCH
  cases lookup_range with
  | single c => exact ⟨_, rfl⟩
  | range rows =>
    simp only
    generalize (if searchKey = .undefined then Value.blank else searchKey) = key
    by_cases h1 : getVariableType (.range rows) = .matrix
    · rw [if_pos h1]
      exact ⟨_, rfl⟩
    · rw [if_neg h1]
      by_cases h2 : match_mode ∉ [0, 1, -1] ∨ search_mode ∉ [1, -1, 2, -2]
      · rw [if_pos h2]
        exact ⟨_, rfl⟩
      · rw [if_neg h2]
        by_cases h3 : search_mode ∉ [2, -2]
        · rw [if_pos h3]
          split
          · split <;> exact ⟨_, rfl⟩
          · exact ⟨_, rfl⟩
        · rw [if_neg h3]
          have hmm : match_mode = 0 ∨ match_mode = 1 ∨ match_mode = -1 := by
            simp only [not_or, not_not] at h2
            simpa using h2.1
          have hsm : search_mode = 2 ∨ search_mode = -2 := by
            simp only [not_not] at h3
            simpa using h3
          obtain ⟨r, hr⟩ := xmatchCustomBinarySearch_total (lowerValue key)
            (rows.flatten.map lowerValue) match_mode search_mode hmm hsm
          rw [hr]
          simp only
          split <;> exact ⟨_, rfl⟩

/-- C39. For a `match_mode` of 0, 1 or -1 and a `search_mode` of 2 or -2,
`xmatchCustomBinarySearch` ends for every array and key, and every pass through its loop
(`low <= up`) goes on with an interval inside `[low, up]` whose width is smaller. XMATCH
returns `#VALUE!` for every other `match_mode`, leaves the binary search aside for every
`search_mode` other than 2 and -2, and so ends for all its arguments. -/
theorem xmatchCustomBinarySearch_terminates (lookupValue : Value) (arr : List Value)
    (match_mode search_mode : Int)
    (hmm : match_mode = 0 ∨ match_mode = 1 ∨ match_mode = -1)
    (hsm : search_mode = 2 ∨ search_mode = -2) :
    (∃ r, xmatchCustomBinarySearch lookupValue arr match_mode search_mode = some r) ∧
    (∀ (fuel : Nat) (low up : Int) (lastMatch exactMatch : Option Int), low ≤ up →
      ∃ (low2 up2 : Int) (lastMatch2 exactMatch2 : Option Int),
        xmatchCustomBinarySearch.loop lookupValue arr match_mode search_mode (fuel + 1) low up
            lastMatch exactMatch =
          xmatchCustomBinarySearch.loop lookupValue arr match_mode search_mode fuel low2 up2
            lastMatch2 exactMatch2 ∧
        low ≤ low2 ∧ up2 ≤ up ∧ up2 - low2 < up - low) ∧
    (∀ (searchKey : Value) (lookup_range : Arg) (mm sm : Int),
      (¬ (mm = 0 ∨ mm = 1 ∨ mm = -1) →
        XMATCH searchKey lookup_range mm sm = .ok error.value) ∧
      (¬ (sm = 2 ∨ sm = -2) →
        XMATCH searchKey lookup_range mm sm =
          match lookup_range with
          | .single _ => .ok error.value
          | .range rows =>
            if getVariableType lookup_range = .matrix then .ok error.value
            else if mm ∉ [0, 1, -1] ∨ sm ∉ [1, -1, 2, -2] then .ok error.value
            else
              let lookup_range := (rows.flatten).map lowerValue
              let key := lowerValue (if searchKey = .undefined then .blank else searchKey)
              let orderedList := XMATCH.sort lookup_range
              let orderedList :=
                if (mm = -1 ∧ sm ≠ -1) ∨ (mm = 1 ∧ sm = -1) then orderedList.reverse
                else orderedList
              let scanned := if sm = 1 then orderedList else orderedList.reverse
              match scanned.find? (fun v => XMATCH.checkMatchModeRules mm v key) with
              | some v =>
                if indexOf lookup_range v ≥ 0 then .ok (.number (1 + indexOf lookup_range v))
                else .ok error.na
              | none => .ok error.na) ∧
      ∃ v, XMATCH searchKey lookup_range mm sm = .ok v) := by
  refine ⟨xmatchCustomBinarySearch_total lookupValue arr match_mode search_mode hmm hsm, ?_, ?_⟩
  · intro fuel low up lastMatch exactMatch h
    rcases hsm with rfl | rfl
    · rw [xmatchCustomBinarySearch_loop_step_ascending lookupValue arr match_mode hmm fuel
        low up lastMatch exactMatch h]
      split_ifs <;> exact ⟨_, _, _, _, rfl, by omega, by omega, by omega⟩
    · rw [xmatchCustomBinarySearch_loop_step_descending lookupValue arr match_mode hmm fuel
        low up lastMatch exactMatch h]
      split_ifs <;> exact ⟨_, _, _, _, rfl, by omega, by omega, by omega⟩
  · intro searchKey lookup_range mm sm
    refine ⟨?_, ?_, XMATCH_total searchKey lookup_range mm sm⟩
    · intro hm
      simp only [not_or] at hm
      unfold XMATCH
      cases lookup_range with
      | single c => rfl
      | range rows =>
        simp only
        have hnot : mm ∉ [0, 1, -1] ∨ sm ∉ [1, -1, 2, -2] :=
          Or.inl (by simp [hm.1, hm.2.1, hm.2.2])
        rw [if_pos hnot]
        split <;> rfl
    · intro hs
      simp only [not_or] at hs
      unfold XMATCH
      cases lookup_range with
      | single c => rfl
      | range rows =>
        simp only
        have hnot : sm ∉ [2, -2] := by simp [hs.1, hs.2]
        simp only [if_pos hnot]

/-- An instance of C39: the key `5` in `[1, 9]` with the modes 1 and 2, and XMATCH with the
`match_mode` 7. -/
theorem xmatchCustomBinarySearch_terminates_witness :
    (∃ r, xmatchCustomBinarySearch (.number 5) [.number 1, .number 9] 1 2 = some r) ∧
    XMATCH (.number 5) (.range [[.number 1, .number 9]]) 7 2 = .ok error.value :=
  ⟨(xmatchCustomBinarySearch_terminates (.number 5) [.number 1, .number 9] 1 2
      (by decide) (by decide)).1,
    ((xmatchCustomBinarySearch_terminates (.number 5) [.number 1, .number 9] 1 2
      (by decide) (by decide)).2.2 (.number 5) (.range [[.number 1, .number 9]]) 7 2).1
      (by decide)⟩

/-! ## Theorems: the binary search of XMATCH on numbers without the key -/

theorem sorted_getD_ge (a : List Int) (hsorted : a.Pairwise (· ≥ ·)) (i j : Nat)
    (hij : i ≤ j) (hj : j < a.length) : a.getD j 0 ≤ a.getD i 0 := by
  rcases Nat.eq_or_lt_of_le hij with h | h
  · subst h; exact le_refl _
  · have hi : i < a.length := by omega
    rw [List.getD_eq_getElem _ _ hi, List.getD_eq_getElem _ _ hj]
    exact (List.pairwise_iff_getElem.mp hsorted) i j hi hj h

theorem getD_mem_of_lt (a : List Int) (j : Nat) (hj : j < a.length) : a.getD j 0 ∈ a := by
  rw [List.getD_eq_getElem _ _ hj]
  exact List.getElem_mem hj

theorem excelTypesComparator_isLessThan_number (x y : Int) :
    excelTypesComparator.isLessThan (.number x) (.number y) = decide (x < y) := by
  simp [excelTypesComparator.isLessThan, typeOf, jsLt_number]

theorem xmatchCustomBinarySearch_loop_numbers_ascending (k : Int) (a : List Int)
    (hk : k ∉ a) (hsorted : a.Pairwise (· ≤ ·)) (match_mode : Int)
    (hmm : match_mode = 1 ∨ match_mode = -1) :
    ∀ (fuel : Nat) (low up : Int) (lastMatch : Option Int),
      0 ≤ low → up < a.length → low ≤ up + 1 → (up + 1 - low).toNat < fuel →
      (∀ j : Nat, (j : Int) < low → a.getD j 0 < k) →
      (∀ j : Nat, up < (j : Int) → j < a.length → k < a.getD j 0) →
      lastMatch = (if match_mode = -1 then (if low = 0 then none else some (low - 1))
        else (if up + 1 = a.length then none else some (up + 1))) →
      ∃ p : Nat, p ≤ a.length ∧ (∀ j : Nat, j < p → a.getD j 0 < k) ∧
        (∀ j : Nat, p ≤ j → j < a.length → k < a.getD j 0) ∧
        xmatchCustomBinarySearch.loop (.number k) (a.map Value.number) match_mode 2 fuel low up
            lastMatch none =
          some (if match_mode = -1 then (p : Int) - 1
            else if p = a.length then -1 else (p : Int)) := by
  intro fuel
  induction fuel with
  | zero => intro low up _ _ _ _ hf; omega
  | succ fuel ih =>
    intro low up lastMatch h0 hlen hlu hf hbelow habove hlm
    by_cases h : low ≤ up
    · rw [xmatchCustomBinarySearch_loop_step_ascending _ _ match_mode
        (by rcases hmm with h | h <;> simp [h]) fuel low up _ _ h]
      obtain ⟨m, hm⟩ := Int.eq_ofNat_of_zero_le (show 0 ≤ (low + up) / 2 by omega)
      have hm1 : low ≤ (m : Int) := by omega
      have hm2 : (m : Int) ≤ up := by omega
      have hmlen : m < a.length := by omega
      rw [hm, jsGet_map_number a m hmlen, excelTypesComparator_isLessThan_number]
      have hne : Value.number (a.getD m 0) ≠ .number k := by
        intro he
        injection he with he
        exact hk (he ▸ getD_mem_of_lt a m hmlen)
      rw [if_neg hne]
      by_cases hlt : a.getD m 0 < k
      · rw [if_pos (by simpa using hlt)]
        refine ih ((m : Int) + 1) up _ (by omega) hlen (by omega) (by omega) ?_ habove ?_
        · intro j hj
          have := sorted_getD_le a hsorted j m (by omega) hmlen
          omega
        · rcases hmm with rfl | rfl <;> simp [hlm]
          omega
      · rw [if_neg (by simpa using hlt)]
        have hgt : k < a.getD m 0 := by
          rcases lt_trichotomy (a.getD m 0) k with h1 | h1 | h1
          · exact absurd h1 hlt
          · exact absurd (h1 ▸ getD_mem_of_lt a m hmlen) hk
          · exact h1
        refine ih low ((m : Int) - 1) _ h0 (by omega) (by omega) (by omega) hbelow ?_ ?_
        · intro j hj hjlen
          have := sorted_getD_le a hsorted m j (by omega) hjlen
          omega
        · rcases hmm with rfl | rfl <;> simp [hlm]
          omega
    · rw [xmatchCustomBinarySearch_loop_exit _ _ _ _ _ _ _ _ _ h]
      obtain ⟨p, hp⟩ := Int.eq_ofNat_of_zero_le h0
      refine ⟨p, by omega, fun j hj => hbelow j (by omega),
        fun j hj hjlen => habove j (by omega) hjlen, ?_⟩
      rcases hmm with rfl | rfl <;> simp [hlm] <;> split_ifs <;> simp <;> omega

theorem xmatchCustomBinarySearch_loop_numbers_descending (k : Int) (a : List Int)
    (hk : k ∉ a) (hsorted : a.Pairwise (· ≥ ·)) (match_mode : Int)
    (hmm : match_mode = 1 ∨ match_mode = -1) :
    ∀ (fuel : Nat) (low up : Int) (lastMatch : Option Int),
      0 ≤ low → up < a.length → low ≤ up + 1 → (up + 1 - low).toNat < fuel →
      (∀ j : Nat, (j : Int) < low → k < a.getD j 0) →
      (∀ j : Nat, up < (j : Int) → j < a.length → a.getD j 0 < k) →
      lastMatch = (if match_mode = 1 then (if low = 0 then none else some (low - 1))
        else (if up + 1 = a.length then none else some (up + 1))) →
      ∃ p : Nat, p ≤ a.length ∧ (∀ j : Nat, j < p → k < a.getD j 0) ∧
        (∀ j : Nat, p ≤ j → j < a.length → a.getD j 0 < k) ∧
        xmatchCustomBinarySearch.loop (.number k) (a.map Value.number) match_mode (-2) fuel
            low up lastMatch none =
          some (if match_mode = 1 then (p : Int) - 1
            else if p = a.length then -1 else (p : Int)) := by
  intro fuel
  induction fuel with
  | zero => intro low up _ _ _ _ hf; omega
  | succ fuel ih =>
    intro low up lastMatch h0 hlen hlu hf hbefore hafter hlm
    by_cases h : low ≤ up
    · rw [xmatchCustomBinarySearch_loop_step_descending _ _ match_mode
        (by rcases hmm with h | h <;> simp [h]) fuel low up _ _ h]
      obtain ⟨m, hm⟩ := Int.eq_ofNat_of_zero_le (show 0 ≤ (low + up) / 2 by omega)
      have hm1 : low ≤ (m : Int) := by omega
      have hm2 : (m : Int) ≤ up := by omega
      have hmlen : m < a.length := by omega
      rw [hm, jsGet_map_number a m hmlen, excelTypesComparator_isLessThan_number]
      have hne : Value.number (a.getD m 0) ≠ .number k := by
        intro he
        injection he with he
        exact hk (he ▸ getD_mem_of_lt a m hmlen)
      rw [if_neg hne]
      by_cases hlt : a.getD m 0 < k
      · rw [if_pos (by simpa using hlt)]
        refine ih low ((m : Int) - 1) _ h0 (by omega) (by omega) (by omega) hbefore ?_ ?_
        · intro j hj hjlen
          have := sorted_getD_ge a hsorted m j (by omega) hjlen
          omega
        · rcases hmm with rfl | rfl <;> simp [hlm]
          omega
      · rw [if_neg (by simpa using hlt)]
        have hgt : k < a.getD m 0 := by
          rcases lt_trichotomy (a.getD m 0) k with h1 | h1 | h1
          · exact absurd h1 hlt
          · exact absurd (h1 ▸ getD_mem_of_lt a m hmlen) hk
          · exact h1
        refine ih ((m : Int) + 1) up _ (by omega) hlen (by omega) (by omega) ?_ hafter ?_
        · intro j hj
          have := sorted_getD_ge a hsorted j m (by omega) hmlen
          omega
        · rcases hmm with rfl | rfl <;> simp [hlm]
          omega
    · rw [xmatchCustomBinarySearch_loop_exit _ _ _ _ _ _ _ _ _ h]
      obtain ⟨p, hp⟩ := Int.eq_ofNat_of_zero_le h0
      refine ⟨p, by omega, fun j hj => hbefore j (by omega),
        fun j hj hjlen => hafter j (by omega) hjlen, ?_⟩
      rcases hmm with rfl | rfl <;> simp [hlm] <;> split_ifs <;> simp <;> omega

theorem exists_getD_of_mem (a : List Int) (x : Int) (hx : x ∈ a) :
    ∃ j : Nat, j < a.length ∧ a.getD j 0 = x := by
  obtain ⟨j, hj, hjx⟩ := List.getElem_of_mem hx
  exact ⟨j, hj, by rw [List.getD_eq_getElem _ _ hj]; exact hjx⟩

theorem isNearestBelow_of_split_ascending (k : Int) (a : List Int)
    (hsorted : a.Pairwise (· ≤ ·)) (p : Nat) (hp : p ≤ a.length)
    (hbelow : ∀ j : Nat, j < p → a.getD j 0 < k)
    (habove : ∀ j : Nat, p ≤ j → j < a.length → k < a.getD j 0) :
    isNearestBelow k a ((p : Int) - 1) := by
  cases p with
  | zero =>
    left
    refine ⟨by simp, ?_⟩
    intro x hx
    obtain ⟨j, hj, rfl⟩ := exists_getD_of_mem a x hx
    have := habove j (Nat.zero_le j) hj
    omega
  | succ q =>
    right
    have hq : q < a.length := by omega
    refine ⟨q, a.getD q 0, by push_cast; omega, ?_, hbelow q (by omega), ?_⟩
    · rw [List.getElem?_eq_getElem hq, List.getD_eq_getElem _ _ hq]
    · intro x hx hxk
      obtain ⟨j, hj, rfl⟩ := exists_getD_of_mem a x hx
      have hjq : j ≤ q := by
        by_contra hc
        have := habove j (by omega) hj
        omega
      exact sorted_getD_le a hsorted j q hjq hq

theorem isNearestAbove_of_split_ascending (k : Int) (a : List Int)
    (hsorted : a.Pairwise (· ≤ ·)) (p : Nat) (hp : p ≤ a.length)
    (hbelow : ∀ j : Nat, j < p → a.getD j 0 < k)
    (habove : ∀ j : Nat, p ≤ j → j < a.length → k < a.getD j 0) :
    isNearestAbove k a (if p = a.length then -1 else (p : Int)) := by
  by_cases hend : p = a.length
  · rw [if_pos hend]
    left
    refine ⟨rfl, ?_⟩
    intro x hx
    obtain ⟨j, hj, rfl⟩ := exists_getD_of_mem a x hx
    have := hbelow j (by omega)
    omega
  · rw [if_neg hend]
    right
    have hq : p < a.length := by omega
    refine ⟨p, a.getD p 0, rfl, ?_, habove p (le_refl p) hq, ?_⟩
    · rw [List.getElem?_eq_getElem hq, List.getD_eq_getElem _ _ hq]
    · intro x hx hxk
      obtain ⟨j, hj, rfl⟩ := exists_getD_of_mem a x hx
      have hjq : p ≤ j := by
        by_contra hc
        have := hbelow j (by omega)
        omega
      exact sorted_getD_le a hsorted p j hjq hj

theorem isNearestAbove_of_split_descending (k : Int) (a : List Int)
    (hsorted : a.Pairwise (· ≥ ·)) (p : Nat) (hp : p ≤ a.length)
    (hbefore : ∀ j : Nat, j < p → k < a.getD j 0)
    (hafter : ∀ j : Nat, p ≤ j → j < a.length → a.getD j 0 < k) :
    isNearestAbove k a ((p : Int) - 1) := by
  cases p with
  | zero =>
    left
    refine ⟨by simp, ?_⟩
    intro x hx
    obtain ⟨j, hj, rfl⟩ := exists_getD_of_mem a x hx
    have := hafter j (Nat.zero_le j) hj
    omega
  | succ q =>
    right
    have hq : q < a.length := by omega
    refine ⟨q, a.getD q 0, by push_cast; omega, ?_, hbefore q (by omega), ?_⟩
    · rw [List.getElem?_eq_getElem hq, List.getD_eq_getElem _ _ hq]
    · intro x hx hxk
      obtain ⟨j, hj, rfl⟩ := exists_getD_of_mem a x hx
      have hjq : j ≤ q := by
        by_contra hc
        have := hafter j (by omega) hj
        omega
      exact sorted_getD_ge a hsorted j q hjq hq

theorem isNearestBelow_of_split_descending (k : Int) (a : List Int)
    (hsorted : a.Pairwise (· ≥ ·)) (p : Nat) (hp : p ≤ a.length)
    (hbefore : ∀ j : Nat, j < p → k < a.getD j 0)
    (hafter : ∀ j : Nat, p ≤ j → j < a.length → a.getD j 0 < k) :
    isNearestBelow k a (if p = a.length then -1 else (p : Int)) := by
  by_cases hend : p = a.length
  · rw [if_pos hend]
    left
    refine ⟨rfl, ?_⟩
    intro x hx
    obtain ⟨j, hj, rfl⟩ := exists_getD_of_mem a x hx
    have := hbefore j (by omega)
    omega
  · rw [if_neg hend]
    right
    have hq : p < a.length := by omega
    refine ⟨p, a.getD p 0, rfl, ?_, hafter p (le_refl p) hq, ?_⟩
    · rw [List.getElem?_eq_getElem hq, List.getD_eq_getElem _ _ hq]
    · intro x hx hxk
      obtain ⟨j, hj, rfl⟩ := exists_getD_of_mem a x hx
      have hjq : p ≤ j := by
        by_contra hc
        have := hbefore j (by omega)
        omega
      exact sorted_getD_ge a hsorted p j hjq hj

/-- C35. For every list `a` of numbers and every number `k` that does not occur in it: when
`a` is sorted ascending, `xmatchCustomBinarySearch(k, a, -1, 2)` returns an index holding the
greatest number below `k` and `xmatchCustomBinarySearch(k, a, 1, 2)` an index holding the
least number above `k`; when `a` is sorted descending the same holds for the search mode
`-2`; each returns `-1` when no number of `a` lies on that side of `k`. -/
theorem xmatchCustomBinarySearch_nearest_value (k : Int) (a : List Int) (hk : k ∉ a) :
    (a.Pairwise (· ≤ ·) →
      (∃ r, xmatchCustomBinarySearch (.number k) (a.map Value.number) (-1) 2 = some r ∧
        isNearestBelow k a r) ∧
      (∃ r, xmatchCustomBinarySearch (.number k) (a.map Value.number) 1 2 = some r ∧
        isNearestAbove k a r)) ∧
    (a.Pairwise (· ≥ ·) →
      (∃ r, xmatchCustomBinarySearch (.number k) (a.map Value.number) (-1) (-2) = some r ∧
        isNearestBelow k a r) ∧
      (∃ r, xmatchCustomBinarySearch (.number k) (a.map Value.number) 1 (-2) = some r ∧
        isNearestAbove k a r)) := by
  have hlen : ((a.map Value.number).length : Int) - 1 = (a.length : Int) - 1 := by simp
  have hfuel : (a.map Value.number).length + 1 = a.length + 1 := by simp
  constructor
  · intro hsorted
    constructor
    · obtain ⟨p, hp, hbelow, habove, hr⟩ := xmatchCustomBinarySearch_loop_numbers_ascending k a
        hk hsorted (-1) (Or.inr rfl) (a.length + 1) 0 ((a.length : Int) - 1) none (le_refl 0)
        (by omega) (by omega) (by omega) (fun j hj => by omega)
        (fun j hj hjlen => by omega) (by simp)
      refine ⟨_, ?_, isNearestBelow_of_split_ascending k a hsorted p hp hbelow habove⟩
      rw [xmatchCustomBinarySearch, hlen, hfuel, hr]
      simp
    · obtain ⟨p, hp, hbelow, habove, hr⟩ := xmatchCustomBinarySearch_loop_numbers_ascending k a
        hk hsorted 1 (Or.inl rfl) (a.length + 1) 0 ((a.length : Int) - 1) none (le_refl 0)
        (by omega) (by omega) (by omega) (fun j hj => by omega)
        (fun j hj hjlen => by omega) (by simp)
      refine ⟨_, ?_, isNearestAbove_of_split_ascending k a hsorted p hp hbelow habove⟩
      rw [xmatchCustomBinarySearch, hlen, hfuel, hr]
      simp
  · intro hsorted
    constructor
    · obtain ⟨p, hp, hbefore, hafter, hr⟩ := xmatchCustomBinarySearch_loop_numbers_descending k
        a hk hsorted (-1) (Or.inr rfl) (a.length + 1) 0 ((a.length : Int) - 1) none (le_refl 0)
        (by omega) (by omega) (by omega) (fun j hj => by omega)
        (fun j hj hjlen => by omega) (by simp)
      refine ⟨_, ?_, isNearestBelow_of_split_descending k a hsorted p hp hbefore hafter⟩
      rw [xmatchCustomBinarySearch, hlen, hfuel, hr]
      simp
    · obtain ⟨p, hp, hbefore, hafter, hr⟩ := xmatchCustomBinarySearch_loop_numbers_descending k
        a hk hsorted 1 (Or.inl rfl) (a.length + 1) 0 ((a.length : Int) - 1) none (le_refl 0)
        (by omega) (by omega) (by omega) (fun j hj => by omega)
        (fun j hj hjlen => by omega) (by simp)
      refine ⟨_, ?_, isNearestAbove_of_split_descending k a hsorted p hp hbefore hafter⟩
      rw [xmatchCustomBinarySearch, hlen, hfuel, hr]
      simp

/-- An instance of C35: the key `5` in `[1, 3, 7, 9]`, sorted ascending. -/
theorem xmatchCustomBinarySearch_nearest_value_witness :
    (5 : Int) ∉ [(1 : Int), 3, 7, 9] ∧ [(1 : Int), 3, 7, 9].Pairwise (· ≤ ·) ∧
    xmatchCustomBinarySearch (.number 5) ([(1 : Int), 3, 7, 9].map Value.number) (-1) 2 =
      some 1 ∧
    xmatchCustomBinarySearch (.number 5) ([(1 : Int), 3, 7, 9].map Value.number) 1 2 =
      some 2 ∧
    ((∃ r, xmatchCustomBinarySearch (.number 5) ([(1 : Int), 3, 7, 9].map Value.number) (-1) 2 =
        some r ∧ isNearestBelow 5 [1, 3, 7, 9] r) ∧
      (∃ r, xmatchCustomBinarySearch (.number 5) ([(1 : Int), 3, 7, 9].map Value.number) 1 2 =
        some r ∧ isNearestAbove 5 [1, 3, 7, 9] r)) :=
  ⟨by decide, by decide, by decide, by decide,
    (xmatchCustomBinarySearch_nearest_value 5 [1, 3, 7, 9] (by decide)).1 (by decide)⟩

/-! ## Theorems: the binary searches of XLOOKUP for a key that does not occur -/

theorem jsLt_trans (a b c : Value) (hab : jsLt a b = true) (hbc : jsLt b c = true) :
    jsLt a c = true := by
  cases a <;> cases b <;> cases c <;>
    simp_all [jsLt, toNumber, stringLt] <;>
    first
      | exact lt_trans hab hbc
      | omega

theorem jsLt_irrefl (a : Value) : jsLt a a = false := by
  cases h : jsLt a a
  · rfl
  · rw [jsLt_asymm a a h] at h
    cases h

theorem compare_pos_iff (a b : Value) :
    compare a b > 0 ↔ getTypePrecedence b < getTypePrecedence a ∨
      (getTypePrecedence a = getTypePrecedence b ∧ a ≠ lowerValue b ∧
        jsLt a (lowerValue b) = false) := by
  unfold compare
  by_cases hp : getTypePrecedence a = getTypePrecedence b
  · simp only [hp, ne_eq, not_true_eq_false, if_false, lt_irrefl, false_or, true_and]
    by_cases he : a = lowerValue b
    · simp [he]
    · by_cases hlt : jsLt a (lowerValue b) = true
      · simp [he, hlt]
      · simp [he, hlt]
  · simp only [ne_eq, hp, not_false_eq_true, if_true, false_and, or_false]
    by_cases hlt : getTypePrecedence a < getTypePrecedence b
    · simp [hlt]
      omega
    · simp [hlt]
      omega

theorem compare_neg_iff (a b : Value) :
    compare a b < 0 ↔ getTypePrecedence a < getTypePrecedence b ∨
      (getTypePrecedence a = getTypePrecedence b ∧ a ≠ lowerValue b ∧
        jsLt a (lowerValue b) = true) := by
  unfold compare
  by_cases hp : getTypePrecedence a = getTypePrecedence b
  · simp only [hp, ne_eq, not_true_eq_false, if_false, lt_irrefl, false_or, true_and]
    by_cases he : a = lowerValue b
    · simp [he]
    · by_cases hlt : jsLt a (lowerValue b) = true
      · simp [he, hlt]
      · simp [he, hlt]
  · simp only [ne_eq, hp, not_false_eq_true, if_true, false_and, or_false]
    by_cases hlt : getTypePrecedence a < getTypePrecedence b
    · simp [hlt]
    · simp [hlt]

theorem compare_nonpos_iff (a b : Value) :
    compare a b ≤ 0 ↔ getTypePrecedence a < getTypePrecedence b ∨
      (getTypePrecedence a = getTypePrecedence b ∧
        (a = lowerValue b ∨ jsLt a (lowerValue b) = true)) := by
  have h1 := compare_pos_iff a b
  constructor
  · intro h
    have hn : ¬ compare a b > 0 := by omega
    rw [h1] at hn
    simp only [not_or, not_and, not_lt] at hn
    rcases Nat.lt_or_ge (getTypePrecedence a) (getTypePrecedence b) with hlt | hge
    · exact Or.inl hlt
    · have heq : getTypePrecedence a = getTypePrecedence b := by omega
      right
      refine ⟨heq, ?_⟩
      by_cases he : a = lowerValue b
      · exact Or.inl he
      · right
        have := hn.2 heq he
        simpa using this
  · intro h
    have hn : ¬ compare a b > 0 := by
      rw [h1]
      rintro (hlt | ⟨heq, hne, hnlt⟩)
      · rcases h with h | h
        · omega
        · omega
      · rcases h with h | ⟨_, h | h⟩
        · omega
        · exact hne h
        · rw [h] at hnlt
          cases hnlt
    omega

theorem compare_pos_of_le (t m j : Value) (hm : compare t m > 0)
    (hjm : compare (lowerValue j) m ≤ 0) : compare t j > 0 := by
  rw [compare_pos_iff] at hm ⊢
  rw [compare_nonpos_iff, getTypePrecedence_lowerValue] at hjm
  rcases hm with hm | ⟨hpm, hnem, hltm⟩
  · rcases hjm with hj | ⟨hj, _⟩
    · exact Or.inl (by omega)
    · exact Or.inl (by omega)
  · rcases hjm with hj | ⟨hpj, hj⟩
    · exact Or.inl (by omega)
    · right
      refine ⟨by omega, ?_, ?_⟩
      · intro he
        rcases hj with hj | hj
        · exact hnem (he.trans hj)
        · rw [← he, hltm] at hj
          cases hj
      · rcases hj with hj | hj
        · rw [hj]
          exact hltm
        · cases hlt : jsLt t (lowerValue j)
          · rfl
          · rw [jsLt_trans _ _ _ hlt hj] at hltm
            cases hltm

theorem compare_neg_of_le (t m j : Value) (hm : compare t m < 0)
    (hmj : compare (lowerValue m) j ≤ 0) : compare t j < 0 := by
  rw [compare_neg_iff] at hm ⊢
  rw [compare_nonpos_iff, getTypePrecedence_lowerValue] at hmj
  rcases hm with hm | ⟨hpm, hnem, hltm⟩
  · rcases hmj with hj | ⟨hj, _⟩
    · exact Or.inl (by omega)
    · exact Or.inl (by omega)
  · rcases hmj with hj | ⟨hpj, hj⟩
    · exact Or.inl (by omega)
    · right
      have hlt : jsLt t (lowerValue j) = true := by
        rcases hj with hj | hj
        · rw [← hj]
          exact hltm
        · exact jsLt_trans _ _ _ hltm hj
      refine ⟨by omega, ?_, hlt⟩
      intro he
      rw [he, jsLt_irrefl] at hlt
      cases hlt

theorem xLookupBinarySearch_loop_split (t : Value) (arr : List Value)
    (hsorted : SortedAscending arr) (habsent : ∀ x ∈ arr, compare t x ≠ 0) :
    ∀ (fuel : Nat) (left right : Int), 0 ≤ left → right < arr.length → left ≤ right + 1 →
      (right + 1 - left).toNat < fuel →
      (∀ j : Nat, (j : Int) < left → compare t (jsGet arr (j : Int)) > 0) →
      (∀ j : Nat, right < (j : Int) → j < arr.length → compare t (jsGet arr (j : Int)) < 0) →
      ∃ p : Nat, p ≤ arr.length ∧
        xLookupBinarySearch.loop t arr fuel left right = some (.exited (p : Int) ((p : Int) - 1)) ∧
        (∀ j : Nat, j < p → compare t (jsGet arr (j : Int)) > 0) ∧
        (∀ j : Nat, p ≤ j → j < arr.length → compare t (jsGet arr (j : Int)) < 0) := by
  intro fuel
  induction fuel with
  | zero => intro left right _ _ _ hf; omega
  | succ fuel ih =>
    intro left right h0 h1 h2 hf hbelow habove
    rw [xLookupBinarySearch.loop]
    by_cases hlr : left ≤ right
    · obtain ⟨m, hm⟩ := Int.eq_ofNat_of_zero_le (show 0 ≤ (left + right) / 2 by omega)
      have hm1 : left ≤ (m : Int) := by omega
      have hm2 : (m : Int) ≤ right := by omega
      have hmlen : m < arr.length := by omega
      have hne := habsent _ (jsGet_mem arr (m : Int) (by omega) (by omega))
      simp only [if_pos hlr, hm]
      rw [if_neg hne]
      by_cases hpos : compare t (jsGet arr (m : Int)) > 0
      · rw [if_pos (by simpa using hpos)]
        refine ih ((m : Int) + 1) right (by omega) h1 (by omega) (by omega) ?_ habove
        intro j hj
        rcases Nat.lt_or_ge j m with hjm | hjm
        · exact compare_pos_of_le t _ _ hpos (sortedAscending_get arr hsorted j m hjm hmlen)
        · have : j = m := by omega
          rw [this]
          exact hpos
      · rw [if_neg (by simpa using hpos)]
        have hneg : compare t (jsGet arr (m : Int)) < 0 := by omega
        refine ih left ((m : Int) - 1) h0 (by omega) (by omega) (by omega) hbelow ?_
        intro j hj hjlen
        rcases Nat.lt_or_ge m j with hjm | hjm
        · exact compare_neg_of_le t _ _ hneg (sortedAscending_get arr hsorted m j hjm hjlen)
        · have : j = m := by omega
          rw [this]
          exact hneg
    · rw [if_neg hlr]
      obtain ⟨p, hp⟩ := Int.eq_ofNat_of_zero_le h0
      have hr : right = (p : Int) - 1 := by omega
      refine ⟨p, by omega, by rw [hp, hr], fun j hj => hbelow j (by omega),
        fun j hj hjlen => habove j (by omega) hjlen⟩

theorem invertedXLookupBinarySearch_loop_split (t : Value) (arr : List Value)
    (hsorted : SortedDescending arr) (habsent : ∀ x ∈ arr, compare t x ≠ 0) :
    ∀ (fuel : Nat) (left right : Int), 0 ≤ left → right < arr.length → left ≤ right + 1 →
      (right + 1 - left).toNat < fuel →
      (∀ j : Nat, (j : Int) < left → compare t (jsGet arr (j : Int)) < 0) →
      (∀ j : Nat, right < (j : Int) → j < arr.length → compare t (jsGet arr (j : Int)) > 0) →
      ∃ p : Nat, p ≤ arr.length ∧
        invertedXLookupBinarySearch.loop t arr fuel left right =
          some (.exited (p : Int) ((p : Int) - 1)) ∧
        (∀ j : Nat, j < p → compare t (jsGet arr (j : Int)) < 0) ∧
        (∀ j : Nat, p ≤ j → j < arr.length → compare t (jsGet arr (j : Int)) > 0) := by
  intro fuel
  induction fuel with
  | zero => intro left right _ _ _ hf; omega
  | succ fuel ih =>
    intro left right h0 h1 h2 hf hbefore hafter
    rw [invertedXLookupBinarySearch.loop]
    by_cases hlr : left ≤ right
    · obtain ⟨m, hm⟩ := Int.eq_ofNat_of_zero_le (show 0 ≤ (left + right) / 2 by omega)
      have hm1 : left ≤ (m : Int) := by omega
      have hm2 : (m : Int) ≤ right := by omega
      have hmlen : m < arr.length := by omega
      have hne := habsent _ (jsGet_mem arr (m : Int) (by omega) (by omega))
      simp only [if_pos hlr, hm]
      rw [if_neg hne]
      by_cases hneg : compare t (jsGet arr (m : Int)) < 0
      · rw [if_pos (by simpa using hneg)]
        refine ih ((m : Int) + 1) right (by omega) h1 (by omega) (by omega) ?_ hafter
        intro j hj
        rcases Nat.lt_or_ge j m with hjm | hjm
        · exact compare_neg_of_le t _ _ hneg (sortedDescending_get arr hsorted j m hjm hmlen)
        · have : j = m := by omega
          rw [this]
          exact hneg
      · rw [if_neg (by simpa using hneg)]
        have hpos : compare t (jsGet arr (m : Int)) > 0 := by omega
        refine ih left ((m : Int) - 1) h0 (by omega) (by omega) (by omega) hbefore ?_
        intro j hj hjlen
        rcases Nat.lt_or_ge m j with hjm | hjm
        · exact compare_pos_of_le t _ _ hpos (sortedDescending_get arr hsorted m j hjm hjlen)
        · have : j = m := by omega
          rw [this]
          exact hpos
    · rw [if_neg hlr]
      obtain ⟨p, hp⟩ := Int.eq_ofNat_of_zero_le h0
      have hr : right = (p : Int) - 1 := by omega
      refine ⟨p, by omega, by rw [hp, hr], fun j hj => hbefore j (by omega),
        fun j hj hjlen => hafter j (by omega) hjlen⟩

theorem xLookupBinarySearch_of_split (key : Value) (arr : List Value) (p : Nat)
    (hp : p ≤ arr.length)
    (hloop : xLookupBinarySearch.loop (lowerValue key) arr (arr.length + 1) 0
      ((arr.length : Int) - 1) = some (.exited (p : Int) ((p : Int) - 1)))
    (hbelow : ∀ j : Nat, j < p → compare (lowerValue key) (jsGet arr (j : Int)) > 0)
    (habove : ∀ j : Nat, p ≤ j → j < arr.length →
      compare (lowerValue key) (jsGet arr (j : Int)) < 0) :
    xLookupBinarySearch key arr 0 = some .blank ∧
    xLookupBinarySearch key arr (-1) =
      some (if p = 0 then .blank else .number ((p : Int) - 1)) ∧
    xLookupBinarySearch key arr 1 = some (if p = arr.length then .blank else .number (p : Int)) := by
  refine ⟨?_, ?_, ?_⟩
  · simp only [xLookupBinarySearch, hloop]
    rfl
  · simp only [xLookupBinarySearch, hloop]
    rw [if_neg (by decide), if_pos trivial]
    by_cases hz : p = 0
    · rw [if_pos (by omega), if_pos hz]
    · rw [if_neg (by omega), if_neg hz]
      obtain ⟨q, rfl⟩ := Nat.exists_eq_succ_of_ne_zero hz
      have hq := hbelow q (by omega)
      have hcast : ((q.succ : Nat) : Int) - 1 = (q : Int) := by push_cast; omega
      rw [hcast]
      rw [if_pos hq]
  · simp only [xLookupBinarySearch, hloop]
    rw [if_neg (by decide), if_neg (by decide)]
    by_cases hend : p = arr.length
    · rw [if_pos (by omega), if_pos hend]
    · rw [if_neg (by omega), if_neg hend]
      have hq := habove p (le_refl p) (by omega)
      rw [if_pos hq]

theorem invertedXLookupBinarySearch_of_split (key : Value) (arr : List Value) (p : Nat)
    (hp : p ≤ arr.length)
    (hloop : invertedXLookupBinarySearch.loop (lowerValue key) arr (arr.length + 1) 0
      ((arr.length : Int) - 1) = some (.exited (p : Int) ((p : Int) - 1)))
    (hbefore : ∀ j : Nat, j < p → compare (lowerValue key) (jsGet arr (j : Int)) < 0)
    (hafter : ∀ j : Nat, p ≤ j → j < arr.length →
      compare (lowerValue key) (jsGet arr (j : Int)) > 0) :
    invertedXLookupBinarySearch key arr 0 = some .blank ∧
    invertedXLookupBinarySearch key arr (-1) =
      some (if p = arr.length then .blank else .number (p : Int)) ∧
    invertedXLookupBinarySearch key arr 1 =
      some (if p = 0 then .blank else .number ((p : Int) - 1)) := by
  refine ⟨?_, ?_, ?_⟩
  · simp only [invertedXLookupBinarySearch, hloop]
    rfl
  · simp only [invertedXLookupBinarySearch, hloop]
    rw [if_neg (by decide), if_pos trivial]
    by_cases hend : p = arr.length
    · rw [if_pos (by omega), if_pos hend]
    · rw [if_neg (by omega), if_neg hend]
      have hq := hafter p (le_refl p) (by omega)
      rw [if_pos hq]
  · simp only [invertedXLookupBinarySearch, hloop]
    rw [if_neg (by decide), if_neg (by decide)]
    by_cases hz : p = 0
    · rw [if_pos (by omega), if_pos hz]
    · rw [if_neg (by omega), if_neg hz]
      obtain ⟨q, rfl⟩ := Nat.exists_eq_succ_of_ne_zero hz
      have hq := hbefore q (by omega)
      have hcast : ((q.succ : Nat) : Int) - 1 = (q : Int) := by push_cast; omega
      rw [hcast]
      rw [if_pos hq]

/-- C33. For every array sorted ascending under `compare` and every key equal to none of its
elements: `xLookupBinarySearch(key, arr, 0)` returns `null`; with the mode `-1` it returns
the greatest index whose element is smaller than the key, or `null` when no element is
smaller; with the mode `1` the least index whose element is greater than the key, or `null`
when no element is greater. -/
theorem xLookupBinarySearch_absent_key (key : Value) (arr : List Value)
    (hsorted : SortedAscending arr)
    (habsent : ∀ x ∈ arr, compare (lowerValue key) x ≠ 0) :
    xLookupBinarySearch key arr 0 = some .blank ∧
    ((xLookupBinarySearch key arr (-1) = some .blank ∧
        ∀ x ∈ arr, ¬ compare (lowerValue key) x > 0) ∨
      ∃ i : Nat, i < arr.length ∧ xLookupBinarySearch key arr (-1) = some (.number (i : Int)) ∧
        compare (lowerValue key) (jsGet arr (i : Int)) > 0 ∧
        ∀ j : Nat, j < arr.length → compare (lowerValue key) (jsGet arr (j : Int)) > 0 →
          j ≤ i) ∧
    ((xLookupBinarySearch key arr 1 = some .blank ∧
        ∀ x ∈ arr, ¬ compare (lowerValue key) x < 0) ∨
      ∃ i : Nat, i < arr.length ∧ xLookupBinarySearch key arr 1 = some (.number (i : Int)) ∧
        compare (lowerValue key) (jsGet arr (i : Int)) < 0 ∧
        ∀ j : Nat, j < arr.length → compare (lowerValue key) (jsGet arr (j : Int)) < 0 →
          i ≤ j) := by
  obtain ⟨p, hp, hloop, hbelow, habove⟩ := xLookupBinarySearch_loop_split (lowerValue key) arr
    hsorted habsent (arr.length + 1) 0 ((arr.length : Int) - 1) (le_refl 0) (by omega)
    (by omega) (by omega) (fun j hj => by omega) (fun j hj hjlen => by omega)
  obtain ⟨h0, hs, hg⟩ := xLookupBinarySearch_of_split key arr p hp hloop hbelow habove
  have hmem : ∀ x ∈ arr, ∃ j : Nat, j < arr.length ∧ jsGet arr (j : Int) = x := by
    intro x hx
    obtain ⟨j, hj, hjx⟩ := List.getElem_of_mem hx
    exact ⟨j, hj, by rw [jsGet_of_getElem? arr j _ (List.getElem?_eq_getElem hj)]; exact hjx⟩
  refine ⟨h0, ?_, ?_⟩
  · by_cases hz : p = 0
    · left
      rw [hs, if_pos hz]
      refine ⟨rfl, ?_⟩
      intro x hx
      obtain ⟨j, hj, rfl⟩ := hmem x hx
      have := habove j (by omega) hj
      omega
    · right
      obtain ⟨q, rfl⟩ := Nat.exists_eq_succ_of_ne_zero hz
      have hcast : ((q.succ : Nat) : Int) - 1 = (q : Int) := by push_cast; omega
      refine ⟨q, by omega, by rw [hs, if_neg hz, hcast], hbelow q (by omega), ?_⟩
      intro j hj hjpos
      by_contra hc
      have := habove j (by omega) hj
      omega
  · by_cases hend : p = arr.length
    · left
      rw [hg, if_pos hend]
      refine ⟨rfl, ?_⟩
      intro x hx
      obtain ⟨j, hj, rfl⟩ := hmem x hx
      have := hbelow j (by omega)
      omega
    · right
      refine ⟨p, by omega, by rw [hg, if_neg hend], habove p (le_refl p) (by omega), ?_⟩
      intro j hj hjneg
      by_contra hc
      have := hbelow j (by omega)
      omega

/-- An instance of C33: the key `5` in `[1, 3, 7, 'a']`. -/
theorem xLookupBinarySearch_absent_key_witness :
    xLookupBinarySearch (.number 5) [.number 1, .number 3, .number 7, .text "a"] (-1) =
      some (.number 1) ∧
    xLookupBinarySearch (.number 5) [.number 1, .number 3, .number 7, .text "a"] 1 =
      some (.number 2) ∧
    xLookupBinarySearch (.number 5) [.number 1, .number 3, .number 7, .text "a"] 0 =
      some .blank :=
  ⟨by decide, by decide,
    (xLookupBinarySearch_absent_key (.number 5) [.number 1, .number 3, .number 7, .text "a"]
      (by decide) (by decide)).1⟩

/-- C34. For every array sorted descending under `compare` and every key equal to none of its
elements: `invertedXLookupBinarySearch(key, arr, -1)` returns the least index whose element
is smaller than the key, or `null` when no element is smaller; with the mode `1` it returns
the greatest index whose element is greater than the key, or `null` when no element is
greater. In a descending array these hold the nearest smaller and the nearest greater
value. -/
theorem invertedXLookupBinarySearch_absent_key (key : Value) (arr : List Value)
    (hsorted : SortedDescending arr)
    (habsent : ∀ x ∈ arr, compare (lowerValue key) x ≠ 0) :
    ((invertedXLookupBinarySearch key arr (-1) = some .blank ∧
        ∀ x ∈ arr, ¬ compare (lowerValue key) x > 0) ∨
      ∃ i : Nat, i < arr.length ∧
        invertedXLookupBinarySearch key arr (-1) = some (.number (i : Int)) ∧
        compare (lowerValue key) (jsGet arr (i : Int)) > 0 ∧
        ∀ j : Nat, j < arr.length → compare (lowerValue key) (jsGet arr (j : Int)) > 0 →
          i ≤ j) ∧
    ((invertedXLookupBinarySearch key arr 1 = some .blank ∧
        ∀ x ∈ arr, ¬ compare (lowerValue key) x < 0) ∨
      ∃ i : Nat, i < arr.length ∧
        invertedXLookupBinarySearch key arr 1 = some (.number (i : Int)) ∧
        compare (lowerValue key) (jsGet arr (i : Int)) < 0 ∧
        ∀ j : Nat, j < arr.length → compare (lowerValue key) (jsGet arr (j : Int)) < 0 →
          j ≤ i) := by
  obtain ⟨p, hp, hloop, hbefore, hafter⟩ := invertedXLookupBinarySearch_loop_split
    (lowerValue key) arr hsorted habsent (arr.length + 1) 0 ((arr.length : Int) - 1)
    (le_refl 0) (by omega) (by omega) (by omega) (fun j hj => by omega)
    (fun j hj hjlen => by omega)
  obtain ⟨_, hs, hg⟩ := invertedXLookupBinarySearch_of_split key arr p hp hloop hbefore hafter
  have hmem : ∀ x ∈ arr, ∃ j : Nat, j < arr.length ∧ jsGet arr (j : Int) = x := by
    intro x hx
    obtain ⟨j, hj, hjx⟩ := List.getElem_of_mem hx
    exact ⟨j, hj, by rw [jsGet_of_getElem? arr j _ (List.getElem?_eq_getElem hj)]; exact hjx⟩
  refine ⟨?_, ?_⟩
  · by_cases hend : p = arr.length
    · left
      rw [hs, if_pos hend]
      refine ⟨rfl, ?_⟩
      intro x hx
      obtain ⟨j, hj, rfl⟩ := hmem x hx
      have := hbefore j (by omega)
      omega
    · right
      refine ⟨p, by omega, by rw [hs, if_neg hend], hafter p (le_refl p) (by omega), ?_⟩
      intro j hj hjpos
      by_contra hc
      have := hbefore j (by omega)
      omega
  · by_cases hz : p = 0
    · left
      rw [hg, if_pos hz]
      refine ⟨rfl, ?_⟩
      intro x hx
      obtain ⟨j, hj, rfl⟩ := hmem x hx
      have := hafter j (by omega) hj
      omega
    · right
      obtain ⟨q, rfl⟩ := Nat.exists_eq_succ_of_ne_zero hz
      have hcast : ((q.succ : Nat) : Int) - 1 = (q : Int) := by push_cast; omega
      refine ⟨q, by omega, by rw [hg, if_neg hz, hcast], hbefore q (by omega), ?_⟩
      intro j hj hjneg
      by_contra hc
      have := hafter j (by omega) hj
      omega

/-- An instance of C34: the key `5` in `['a', 7, 3, 1]`. -/
theorem invertedXLookupBinarySearch_absent_key_witness :
    invertedXLookupBinarySearch (.number 5) [.text "a", .number 7, .number 3, .number 1] (-1) =
      some (.number 2) ∧
    invertedXLookupBinarySearch (.number 5) [.text "a", .number 7, .number 3, .number 1] 1 =
      some (.number 1) ∧
    ∃ i : Nat, i < [Value.text "a", .number 7, .number 3, .number 1].length ∧
      invertedXLookupBinarySearch (.number 5) [.text "a", .number 7, .number 3, .number 1] 1 =
        some (.number (i : Int)) :=
  ⟨by decide, by decide,
    match (invertedXLookupBinarySearch_absent_key (.number 5)
      [.text "a", .number 7, .number 3, .number 1] (by decide) (by decide)).2 with
    | Or.inl h => absurd h.1 (by decide)
    | Or.inr ⟨i, hi, hr, _⟩ => ⟨i, hi, hr⟩⟩

/-! ## Theorems: the binary search and the linear scan of XLOOKUP on strictly sorted data -/

theorem strictlyAscending_get (arr : List Value) (hsorted : StrictlyAscending arr) (i j : Nat)
    (hij : i < j) (hj : j < arr.length) :
    compare (lowerValue (jsGet arr (i : Int))) (jsGet arr (j : Int)) < 0 := by
  have hi : i < arr.length := by omega
  rw [jsGet_of_getElem? arr i _ (List.getElem?_eq_getElem hi),
    jsGet_of_getElem? arr j _ (List.getElem?_eq_getElem hj)]
  exact (List.pairwise_iff_getElem.mp hsorted) i j hi hj hij

theorem strictlyAscending_sorted (arr : List Value) (hsorted : StrictlyAscending arr) :
    SortedAscending arr :=
  List.Pairwise.imp (fun h => le_of_lt h) hsorted

theorem lookupIndex_smaller_range_found (v : Value) (arr : List Value) (i : Nat) :
    ∀ (n s : Nat) (cs pos : Value), s ≤ i → i < s + n →
      compare v (jsGet arr (i : Int)) = 0 →
      (∀ j, s ≤ j → j < i → compare v (jsGet arr (j : Int)) ≠ 0) →
      lookupIndex.smaller v arr (List.range' s n) cs pos = .number (i : Int) := by
  intro n
  induction n with
  | zero => intro s _ _ h1 h2; omega
  | succ n ih =>
    intro s cs pos h1 h2 hc hleast
    rw [List.range'_succ, lookupIndex.smaller]
    by_cases hs : s = i
    · subst hs
      simp only [if_pos hc]
    · have hlt : s < i := by omega
      have hns := hleast s (Nat.le_refl s) hlt
      simp only [if_neg hns]
      split
      · exact ih (s + 1) _ _ (by omega) (by omega) hc
          (fun j hj1 hj2 => hleast j (by omega) hj2)
      · exact ih (s + 1) _ _ (by omega) (by omega) hc
          (fun j hj1 hj2 => hleast j (by omega) hj2)

theorem lookupIndex_larger_range_found (v : Value) (arr : List Value) (i : Nat) :
    ∀ (n s : Nat) (cl pos : Value), s ≤ i → i < s + n →
      compare v (jsGet arr (i : Int)) = 0 →
      (∀ j, s ≤ j → j < i → compare v (jsGet arr (j : Int)) ≠ 0) →
      lookupIndex.larger v arr (List.range' s n) cl pos = .number (i : Int) := by
  intro n
  induction n with
  | zero => intro s _ _ h1 h2; omega
  | succ n ih =>
    intro s cl pos h1 h2 hc hleast
    rw [List.range'_succ, lookupIndex.larger]
    by_cases hs : s = i
    · subst hs
      simp only [if_pos hc]
    · have hlt : s < i := by omega
      have hns := hleast s (Nat.le_refl s) hlt
      simp only [if_neg hns]
      split
      · exact ih (s + 1) _ _ (by omega) (by omega) hc
          (fun j hj1 hj2 => hleast j (by omega) hj2)
      · exact ih (s + 1) _ _ (by omega) (by omega) hc
          (fun j hj1 hj2 => hleast j (by omega) hj2)

theorem lookupIndex_smaller_ascending (t : Value) (arr : List Value) (p : Nat)
    (hsorted : StrictlyAscending arr) (hp : p ≤ arr.length)
    (hbelow : ∀ j : Nat, j < p → compare t (jsGet arr (j : Int)) > 0)
    (habove : ∀ j : Nat, p ≤ j → j < arr.length → compare t (jsGet arr (j : Int)) < 0) :
    ∀ (n s : Nat) (cs pos : Value), s ≤ p → s + n = arr.length →
      (s = 0 → typeOf cs = .undefined ∧ pos = .boolean false) →
      (∀ q : Nat, s = q + 1 → cs = lowerValue (jsGet arr (q : Int)) ∧ pos = .number (q : Int)) →
      lookupIndex.smaller t arr (List.range' s n) cs pos =
        if p = 0 then .boolean false else .number ((p : Int) - 1) := by
  intro n
  induction n with
  | zero =>
    intro s cs pos hs hn hzero hsucc
    have hsp : s = p := by omega
    subst hsp
    rw [List.range'_zero, lookupIndex.smaller]
    cases s with
    | zero => rw [if_pos rfl]; exact (hzero rfl).2
    | succ q =>
      rw [if_neg (by omega)]
      rw [(hsucc q rfl).2]
      congr 1
      push_cast
      omega
  | succ n ih =>
    intro s cs pos hs hn hzero hsucc
    by_cases hsp : s = p
    · subst hsp
      rw [lookupIndex_smaller_none t arr _ (fun j hj => by
        rw [List.mem_range'_1] at hj
        exact habove j hj.1 (by omega))]
      cases s with
      | zero => rw [if_pos rfl]; exact (hzero rfl).2
      | succ q =>
        rw [if_neg (by omega)]
        rw [(hsucc q rfl).2]
        congr 1
        push_cast
        omega
    · have hlt : s < p := by omega
      have hpos := hbelow s hlt
      rw [List.range'_succ, lookupIndex.smaller]
      have hcond : compare t (jsGet arr (s : Int)) > 0 ∧
          (typeOf cs = .undefined ∨ compare cs (jsGet arr (s : Int)) < 0) := by
        refine ⟨hpos, ?_⟩
        cases s with
        | zero => exact Or.inl (hzero rfl).1
        | succ q =>
          right
          rw [(hsucc q rfl).1]
          exact strictlyAscending_get arr hsorted q (q + 1) (by omega) (by omega)
      simp only [if_neg (show ¬ compare t (jsGet arr (s : Int)) = 0 by omega), if_pos hcond]
      exact ih (s + 1) _ _ (by omega) (by omega) (fun h => by omega)
        (fun q hq => by
          have : q = s := by omega
          subst this
          exact ⟨rfl, rfl⟩)

theorem lookupIndex_larger_keep (t : Value) (arr : List Value) (cl : Value)
    (hcl : typeOf cl ≠ .undefined) (order : List Nat)
    (h : ∀ j ∈ order, compare t (jsGet arr (j : Int)) ≠ 0 ∧
      ¬ compare cl (jsGet arr (j : Int)) > 0) :
    ∀ pos, lookupIndex.larger t arr order cl pos = pos := by
  induction order with
  | nil => intro pos; rfl
  | cons i rest ih =>
    intro pos
    have hi := h i (List.mem_cons_self i rest)
    rw [lookupIndex.larger]
    rw [if_neg hi.1, if_neg (by
      rintro ⟨_, hc | hc⟩
      · exact hcl hc
      · exact hi.2 hc)]
    exact ih (fun j hj => h j (List.mem_cons_of_mem i hj)) pos

theorem lookupIndex_larger_ascending (t : Value) (arr : List Value) (p : Nat)
    (hplain : ∀ x ∈ arr, isPlain x = true) (hsorted : StrictlyAscending arr)
    (hp : p ≤ arr.length)
    (hbelow : ∀ j : Nat, j < p → compare t (jsGet arr (j : Int)) > 0)
    (habove : ∀ j : Nat, p ≤ j → j < arr.length → compare t (jsGet arr (j : Int)) < 0) :
    ∀ (n s : Nat), s ≤ p → s + n = arr.length →
      lookupIndex.larger t arr (List.range' s n) .undefined (.boolean false) =
        if p = arr.length then .boolean false else .number (p : Int) := by
  intro n
  induction n with
  | zero =>
    intro s hs hn
    rw [List.range'_zero, lookupIndex.larger, if_pos (by omega)]
  | succ n ih =>
    intro s hs hn
    rw [List.range'_succ, lookupIndex.larger]
    by_cases hsp : s = p
    · subst hsp
      have hneg := habove s (le_refl s) (by omega)
      simp only [if_neg (show ¬ compare t (jsGet arr (s : Int)) = 0 by omega)]
      rw [if_pos ⟨hneg, Or.inl rfl⟩, if_neg (by omega)]
      apply lookupIndex_larger_keep
      · have hmem := hplain _ (jsGet_mem arr (s : Int) (by omega) (by omega))
        cases hx : jsGet arr (s : Int) <;> simp_all [isPlain, lowerValue, typeOf]
      · intro j hj
        rw [List.mem_range'_1] at hj
        have h1 := habove j (by omega) (by omega)
        have h2 := strictlyAscending_get arr hsorted s j (by omega) (by omega)
        exact ⟨by omega, by omega⟩
    · have hlt : s < p := by omega
      have hpos := hbelow s hlt
      simp only [if_neg (show ¬ compare t (jsGet arr (s : Int)) = 0 by omega)]
      rw [if_neg (by intro hc; have := hc.1; omega)]
      exact ih (s + 1) (by omega) (by omega)

/-- C36. For every array of numbers, texts, booleans and blanks that is strictly ascending
under `compare`, every key and every `match_mode` of 0, -1 and 1,
`xLookupBinarySearch(key, arr, match_mode)` and the forward scan
`lookupIndex(key, arr, match_mode, false)` return the same index, or the first returns `null`
and the second a value that is not a number. -/
theorem xLookupBinarySearch_agrees_with_lookupIndex (key : Value) (arr : List Value)
    (match_mode : Int) (hplain : ∀ x ∈ arr, isPlain x = true)
    (hsorted : StrictlyAscending arr)
    (hmm : match_mode = 0 ∨ match_mode = -1 ∨ match_mode = 1) :
    (∃ i : Nat, i < arr.length ∧
      xLookupBinarySearch key arr match_mode = some (.number (i : Int)) ∧
      lookupIndex key arr match_mode false = .number (i : Int)) ∨
    (xLookupBinarySearch key arr match_mode = some .blank ∧
      typeOf (lookupIndex key arr match_mode false) ≠ .number) := by
  have hasc := strictlyAscending_sorted arr hsorted
  by_cases hex : ∃ i : Nat, i < arr.length ∧
      compare (lowerValue key) (jsGet arr (i : Int)) = 0
  · left
    have hfind := Nat.find_spec hex
    have hmin : ∀ j, j < Nat.find hex →
        ¬ (j < arr.length ∧ compare (lowerValue key) (jsGet arr (j : Int)) = 0) :=
      fun j hj => Nat.find_min hex hj
    generalize Nat.find hex = i at hfind hmin
    obtain ⟨hlen, hzero⟩ := hfind
    have hleast : ∀ j, j < i → compare (lowerValue key) (jsGet arr (j : Int)) ≠ 0 :=
      fun j hj h0 => hmin j hj ⟨by omega, h0⟩
    refine ⟨i, hlen, ?_, ?_⟩
    · exact xLookupBinarySearch_found_lowest key arr i match_mode hasc
        ((key_at_of_getElem?_map key arr i).mpr ⟨hlen, hzero⟩)
        (fun j hj h => hleast j hj ((key_at_of_getElem?_map key arr j).mp h).2)
    · rcases hmm with rfl | rfl | rfl
      · simp only [lookupIndex, lookupIndex.order, if_true, Bool.false_eq_true, if_false,
          List.range_eq_range']
        exact lookupIndex_exact_range_found _ _ i arr.length 0 (Nat.zero_le i) (by omega) hzero
          (fun j _ hj => hleast j hj)
      · simp only [lookupIndex, lookupIndex.order, Bool.false_eq_true, if_false,
          List.range_eq_range']
        rw [if_neg (by decide), if_pos trivial]
        exact lookupIndex_smaller_range_found _ _ i arr.length 0 _ _ (Nat.zero_le i) (by omega)
          hzero (fun j _ hj => hleast j hj)
      · simp only [lookupIndex, lookupIndex.order, Bool.false_eq_true, if_false,
          List.range_eq_range']
        rw [if_neg (by decide), if_neg (by decide), if_pos trivial]
        exact lookupIndex_larger_range_found _ _ i arr.length 0 _ _ (Nat.zero_le i) (by omega)
          hzero (fun j _ hj => hleast j hj)
  · have habsent : ∀ x ∈ arr, compare (lowerValue key) x ≠ 0 := by
      intro x hx h0
      obtain ⟨j, hj, hjx⟩ := List.getElem_of_mem hx
      apply hex
      refine ⟨j, hj, ?_⟩
      rw [jsGet_of_getElem? arr j _ (List.getElem?_eq_getElem hj), hjx]
      exact h0
    obtain ⟨p, hp, hloop, hbelow, habove⟩ := xLookupBinarySearch_loop_split (lowerValue key)
      arr hasc habsent (arr.length + 1) 0 ((arr.length : Int) - 1) (le_refl 0) (by omega)
      (by omega) (by omega) (fun j hj => by omega) (fun j hj hjlen => by omega)
    obtain ⟨h0, hs, hg⟩ := xLookupBinarySearch_of_split key arr p hp hloop hbelow habove
    rcases hmm with rfl | rfl | rfl
    · right
      refine ⟨h0, ?_⟩
      simp only [lookupIndex, lookupIndex.order, if_true, Bool.false_eq_true, if_false]
      rw [lookupIndex_exact_absent _ _ _ (fun j hj =>
        habsent _ (jsGet_mem arr (j : Int) (by omega)
          (by have := List.mem_range.mp hj; omega)))]
      decide
    · have hlin : lookupIndex key arr (-1) false =
          if p = 0 then .boolean false else .number ((p : Int) - 1) := by
        simp only [lookupIndex, lookupIndex.order, Bool.false_eq_true, if_false,
          List.range_eq_range']
        rw [if_neg (by decide), if_pos trivial]
        exact lookupIndex_smaller_ascending (lowerValue key) arr p hsorted hp hbelow habove
          arr.length 0 _ _ (Nat.zero_le p) (by omega) (fun _ => ⟨rfl, rfl⟩)
          (fun q hq => by omega)
      by_cases hz : p = 0
      · right
        rw [hs, hlin, if_pos hz, if_pos hz]
        exact ⟨rfl, by decide⟩
      · left
        obtain ⟨q, rfl⟩ := Nat.exists_eq_succ_of_ne_zero hz
        have hcast : ((q.succ : Nat) : Int) - 1 = (q : Int) := by push_cast; omega
        exact ⟨q, by omega, by rw [hs, if_neg hz, hcast], by rw [hlin, if_neg hz, hcast]⟩
    · have hlin : lookupIndex key arr 1 false =
          if p = arr.length then .boolean false else .number (p : Int) := by
        simp only [lookupIndex, lookupIndex.order, Bool.false_eq_true, if_false,
          List.range_eq_range']
        rw [if_neg (by decide), if_neg (by decide), if_pos trivial]
        exact lookupIndex_larger_ascending (lowerValue key) arr p hplain hsorted hp hbelow
          habove arr.length 0 (Nat.zero_le p) (by omega)
      by_cases hend : p = arr.length
      · right
        rw [hg, hlin, if_pos hend, if_pos hend]
        exact ⟨rfl, by decide⟩
      · left
        exact ⟨p, by omega, by rw [hg, if_neg hend], by rw [hlin, if_neg hend]⟩

/-- An instance of C36: the key `5` with the mode `-1` in `[1, 3, 7, 'a', true]`, where both
searches return the index 1. -/
theorem xLookupBinarySearch_agrees_with_lookupIndex_witness :
    xLookupBinarySearch (.number 5)
      [.number 1, .number 3, .number 7, .text "a", .boolean true] (-1) = some (.number 1) ∧
    lookupIndex (.number 5)
      [.number 1, .number 3, .number 7, .text "a", .boolean true] (-1) false = .number 1 ∧
    ((∃ i : Nat, i < [Value.number 1, .number 3, .number 7, .text "a", .boolean true].length ∧
        xLookupBinarySearch (.number 5)
          [.number 1, .number 3, .number 7, .text "a", .boolean true] (-1) =
          some (.number (i : Int)) ∧
        lookupIndex (.number 5)
          [.number 1, .number 3, .number 7, .text "a", .boolean true] (-1) false =
          .number (i : Int)) ∨
      (xLookupBinarySearch (.number 5)
          [.number 1, .number 3, .number 7, .text "a", .boolean true] (-1) = some .blank ∧
        typeOf (lookupIndex (.number 5)
          [.number 1, .number 3, .number 7, .text "a", .boolean true] (-1) false) ≠
          .number)) :=
  ⟨by decide, by decide,
    xLookupBinarySearch_agrees_with_lookupIndex (.number 5)
      [.number 1, .number 3, .number 7, .text "a", .boolean true] (-1) (by decide) (by decide)
      (by decide)⟩

/-! ## Theorems: the linear scan of XLOOKUP for the next smaller element -/

theorem errorString_injective (m n : String) (h : errorString m = errorString n) : m = n := by
  unfold errorString at h
  by_cases hm : m = ""
  · by_cases hn : n = ""
    · rw [hm, hn]
    · rw [if_pos hm, if_neg hn] at h
      have hl := congrArg String.length h
      rw [String.length_append] at hl
      have h5 : "Error".length = 5 := by decide
      have h7 : "Error: ".length = 7 := by decide
      omega
  · by_cases hn : n = ""
    · rw [if_neg hm, if_pos hn] at h
      have hl := congrArg String.length h
      rw [String.length_append] at hl
      have h5 : "Error".length = 5 := by decide
      have h7 : "Error: ".length = 7 := by decide
      omega
    · rw [if_neg hm, if_neg hn] at h
      have hd := congrArg String.data h
      rw [String.data_append, String.data_append] at hd
      exact String.ext (List.append_cancel_left hd)

theorem jsLt_total_of_precedence (x y : Value) (hx : x ≠ .undefined) (hy : y ≠ .undefined)
    (hp : getTypePrecedence x = getTypePrecedence y) (hne : x ≠ y) :
    jsLt x y = true ∨ jsLt y x = true := by
  cases x <;> cases y <;> simp_all [getTypePrecedence, jsLt, toNumber, stringLt]
  · exact fun h => hne (String.ext h)
  · rename_i a b
    cases a <;> cases b <;> simp_all
  · rename_i m n
    exact fun h => hne (errorString_injective m n (String.ext h))

theorem lowerValue_ne_undefined (x : Value) (hx : x ≠ .undefined) :
    lowerValue x ≠ .undefined := by
  cases x <;> simp_all [lowerValue]

theorem typeOf_ne_undefined (x : Value) (hx : x ≠ .undefined) : typeOf x ≠ .undefined := by
  cases x <;> simp_all [typeOf]

theorem compare_total_of_defined (a b : Value) (ha : a ≠ .undefined) (hb : b ≠ .undefined)
    (h : ¬ compare (lowerValue a) b < 0) : compare (lowerValue b) a ≤ 0 := by
  rw [compare_neg_iff, getTypePrecedence_lowerValue] at h
  rw [compare_nonpos_iff, getTypePrecedence_lowerValue]
  simp only [not_or, not_and] at h
  rcases Nat.lt_or_ge (getTypePrecedence b) (getTypePrecedence a) with hlt | hge
  · exact Or.inl hlt
  · have hp : getTypePrecedence a = getTypePrecedence b := by omega
    right
    refine ⟨hp.symm, ?_⟩
    by_cases he : lowerValue a = lowerValue b
    · exact Or.inl he.symm
    · right
      have hnlt := h.2 hp he
      rcases jsLt_total_of_precedence (lowerValue a) (lowerValue b)
        (lowerValue_ne_undefined a ha) (lowerValue_ne_undefined b hb)
        (by rw [getTypePrecedence_lowerValue, getTypePrecedence_lowerValue]; exact hp) he
        with h1 | h1
      · exact absurd h1 hnlt
      · exact h1

theorem compare_lt_of_le_of_lt (a m j : Value) (ham : compare a m ≤ 0)
    (hmj : compare (lowerValue m) j < 0) : compare a j < 0 := by
  by_cases hz : compare a m = 0
  · rw [compare_eq_zero_iff] at hz
    rw [hz]
    exact hmj
  · exact compare_neg_of_le a m j (by omega) (by omega)

theorem scannedBefore_asymm (reverse : Bool) (a b : Nat) (h : scannedBefore reverse a b) :
    ¬ scannedBefore reverse b a := by
  unfold scannedBefore at h ⊢
  cases reverse <;> simp_all <;> omega

theorem lookupIndex_order_mem (n : Nat) (reverse : Bool) (j : Nat) :
    j ∈ lookupIndex.order n reverse ↔ j < n := by
  unfold lookupIndex.order
  cases reverse <;> simp

theorem lookupIndex_order_pairwise (n : Nat) (reverse : Bool) :
    (lookupIndex.order n reverse).Pairwise (scannedBefore reverse) := by
  unfold lookupIndex.order
  cases reverse
  · simp only [Bool.false_eq_true, if_false]
    exact List.Pairwise.imp (fun h => by simpa [scannedBefore] using h) (List.pairwise_lt_range n)
  · simp only [if_true]
    rw [List.pairwise_reverse]
    exact List.Pairwise.imp (fun h => by simpa [scannedBefore] using h) (List.pairwise_lt_range n)

theorem lookupIndex_smaller_found (t : Value) (arr : List Value) (reverse : Bool) (i : Nat)
    (hzero : compare t (jsGet arr (i : Int)) = 0) :
    ∀ (order : List Nat) (cs pos : Value), order.Pairwise (scannedBefore reverse) →
      i ∈ order →
      (∀ j ∈ order, scannedBefore reverse j i → compare t (jsGet arr (j : Int)) ≠ 0) →
      lookupIndex.smaller t arr order cs pos = .number (i : Int) := by
  intro order
  induction order with
  | nil => intro _ _ _ hi; cases hi
  | cons h rest ih =>
    intro cs pos hpair hi hfirst
    rw [List.pairwise_cons] at hpair
    rw [lookupIndex.smaller]
    by_cases hh : h = i
    · subst hh
      simp only [if_pos hzero]
    · have hirest : i ∈ rest := by
        rcases List.mem_cons.mp hi with h1 | h1
        · exact absurd h1.symm hh
        · exact h1
      have hne := hfirst h (List.mem_cons_self h rest) (hpair.1 i hirest)
      simp only [if_neg hne]
      split
      · exact ih _ _ hpair.2 hirest (fun j hj => hfirst j (List.mem_cons_of_mem h hj))
      · exact ih _ _ hpair.2 hirest (fun j hj => hfirst j (List.mem_cons_of_mem h hj))

theorem lookupIndex_smaller_number (t : Value) (arr : List Value) :
    ∀ (order : List Nat) (cs pos : Value),
      (typeOf pos ≠ .number → typeOf cs = .undefined) →
      (typeOf pos = .number ∨ ∃ j ∈ order, compare t (jsGet arr (j : Int)) ≥ 0) →
      typeOf (lookupIndex.smaller t arr order cs pos) = .number := by
  intro order
  induction order with
  | nil =>
    intro cs pos _ h
    rcases h with h | ⟨j, hj, _⟩
    · exact h
    · cases hj
  | cons h rest ih =>
    intro cs pos hsent hex
    rw [lookupIndex.smaller]
    by_cases hz : compare t (jsGet arr (h : Int)) = 0
    · simp only [if_pos hz]
      rfl
    · simp only [if_neg hz]
      by_cases hcond : compare t (jsGet arr (h : Int)) > 0 ∧
          (typeOf cs = .undefined ∨ compare cs (jsGet arr (h : Int)) < 0)
      · rw [if_pos hcond]
        exact ih _ _ (fun hn => absurd rfl hn) (Or.inl rfl)
      · rw [if_neg hcond]
        apply ih _ _ hsent
        rcases hex with hp | ⟨j, hj, hjge⟩
        · exact Or.inl hp
        · rcases List.mem_cons.mp hj with h1 | h1
          · subst h1
            left
            by_contra hn
            exact hcond ⟨by omega, Or.inl (hsent hn)⟩
          · exact Or.inr ⟨j, h1, hjge⟩

theorem lookupIndex_smaller_invariant (t : Value) (arr : List Value) (reverse : Bool)
    (hdef : ∀ x ∈ arr, x ≠ .undefined) :
    ∀ (order : List Nat) (S : Nat → Prop) (cs pos : Value),
      order.Pairwise (scannedBefore reverse) →
      (∀ j ∈ order, j < arr.length ∧ compare t (jsGet arr (j : Int)) ≠ 0) →
      (∀ a, S a → a < arr.length ∧ ∀ b ∈ order, scannedBefore reverse a b) →
      ((pos = .boolean false ∧ typeOf cs = .undefined ∧
          ∀ j, S j → ¬ compare t (jsGet arr (j : Int)) > 0) ∨
        ∃ i : Nat, pos = .number (i : Int) ∧ cs = lowerValue (jsGet arr (i : Int)) ∧
          isClosestSmaller t arr reverse S i) →
      ((lookupIndex.smaller t arr order cs pos = .boolean false ∧
          ∀ j, (S j ∨ j ∈ order) → ¬ compare t (jsGet arr (j : Int)) > 0) ∨
        ∃ i : Nat, lookupIndex.smaller t arr order cs pos = .number (i : Int) ∧
          isClosestSmaller t arr reverse (fun j => S j ∨ j ∈ order) i) := by
  have hget : ∀ j : Nat, j < arr.length → jsGet arr (j : Int) ≠ .undefined := fun j hj =>
    hdef _ (jsGet_mem arr (j : Int) (by omega) (by omega))
  intro order
  induction order with
  | nil =>
    intro S cs pos _ _ _ hinv
    rw [lookupIndex.smaller]
    rcases hinv with ⟨hpos, _, hnone⟩ | ⟨i, hpos, _, hS, hgt, hmax, hties⟩
    · left
      refine ⟨hpos, ?_⟩
      rintro j (hj | hj)
      · exact hnone j hj
      · cases hj
    · right
      refine ⟨i, hpos, Or.inl hS, hgt, ?_, ?_⟩
      · rintro j (hj | hj)
        · exact hmax j hj
        · cases hj
      · rintro j (hj | hj)
        · exact hties j hj
        · cases hj
  | cons h rest ih =>
    intro S cs pos hpair hord hS hinv
    rw [List.pairwise_cons] at hpair
    obtain ⟨hhlen, hne⟩ := hord h (List.mem_cons_self h rest)
    have hset : (fun j => (S j ∨ j = h) ∨ j ∈ rest) = (fun j => S j ∨ j ∈ h :: rest) := by
      funext j
      apply propext
      simp only [List.mem_cons]
      tauto
    rw [lookupIndex.smaller]
    simp only [if_neg hne]
    have hS2 : ∀ a, (S a ∨ a = h) → a < arr.length ∧ ∀ b ∈ rest, scannedBefore reverse a b := by
      rintro a (ha | ha)
      · exact ⟨(hS a ha).1, fun b hb => (hS a ha).2 b (List.mem_cons_of_mem h hb)⟩
      · subst ha
        exact ⟨hhlen, hpair.1⟩
    have hord2 : ∀ j ∈ rest, j < arr.length ∧ compare t (jsGet arr (j : Int)) ≠ 0 :=
      fun j hj => hord j (List.mem_cons_of_mem h hj)
    have hrefl : compare (lowerValue (jsGet arr (h : Int))) (jsGet arr (h : Int)) = 0 := by
      rw [compare_eq_zero_iff]
    by_cases hcond : compare t (jsGet arr (h : Int)) > 0 ∧
        (typeOf cs = .undefined ∨ compare cs (jsGet arr (h : Int)) < 0)
    · rw [if_pos hcond]
      have hnew : isClosestSmaller t arr reverse (fun j => S j ∨ j = h) h := by
        have hold : ∀ j, S j → compare t (jsGet arr (j : Int)) > 0 →
            compare (lowerValue (jsGet arr (j : Int))) (jsGet arr (h : Int)) < 0 := by
          intro j hj hjgt
          rcases hinv with ⟨_, _, hnone⟩ | ⟨i, _, hcs, hSi, _, hmax, _⟩
          · exact absurd hjgt (hnone j hj)
          · have hlt : compare (lowerValue (jsGet arr (i : Int))) (jsGet arr (h : Int)) < 0 := by
              rcases hcond.2 with hu | hlt
              · rw [hcs] at hu
                exact absurd hu (typeOf_ne_undefined _
                  (lowerValue_ne_undefined _ (hget i (hS i hSi).1)))
              · rw [hcs] at hlt
                exact hlt
            exact compare_lt_of_le_of_lt _ _ _ (hmax j hj hjgt) hlt
        refine ⟨Or.inr rfl, hcond.1, ?_, ?_⟩
        · rintro j (hj | hj) hjgt
          · exact le_of_lt (hold j hj hjgt)
          · subst hj
            omega
        · rintro j (hj | hj) hbefore hjgt
          · exact hold j hj hjgt
          · subst hj
            exact absurd hbefore (scannedBefore_asymm reverse j j hbefore)
      have := ih (fun j => S j ∨ j = h) (lowerValue (jsGet arr (h : Int))) (.number (h : Int))
        hpair.2 hord2 hS2 (Or.inr ⟨h, rfl, rfl, hnew⟩)
      rw [hset] at this
      rcases this with ⟨hres, hnone⟩ | hres
      · left
        refine ⟨hres, ?_⟩
        intro j hj
        have : (S j ∨ j = h) ∨ j ∈ rest := by
          rcases hj with hj | hj
          · exact Or.inl (Or.inl hj)
          · rcases List.mem_cons.mp hj with h1 | h1
            · exact Or.inl (Or.inr h1)
            · exact Or.inr h1
        exact hnone j this
      · exact Or.inr hres
    · rw [if_neg hcond]
      have hinv2 : (pos = .boolean false ∧ typeOf cs = .undefined ∧
            ∀ j, (S j ∨ j = h) → ¬ compare t (jsGet arr (j : Int)) > 0) ∨
          ∃ i : Nat, pos = .number (i : Int) ∧ cs = lowerValue (jsGet arr (i : Int)) ∧
            isClosestSmaller t arr reverse (fun j => S j ∨ j = h) i := by
        rcases hinv with ⟨hpos, hcs, hnone⟩ | ⟨i, hpos, hcs, hSi, hgt, hmax, hties⟩
        · left
          refine ⟨hpos, hcs, ?_⟩
          rintro j (hj | hj)
          · exact hnone j hj
          · subst hj
            intro hgt
            exact hcond ⟨hgt, Or.inl hcs⟩
        · right
          refine ⟨i, hpos, hcs, Or.inl hSi, hgt, ?_, ?_⟩
          · rintro j (hj | hj) hjgt
            · exact hmax j hj hjgt
            · subst hj
              apply compare_total_of_defined _ _ (hget i (hS i hSi).1) (hget j hhlen)
              intro hlt
              exact hcond ⟨hjgt, Or.inr (by rw [hcs]; exact hlt)⟩
          · rintro j (hj | hj) hbefore hjgt
            · exact hties j hj hbefore hjgt
            · subst hj
              exact absurd hbefore (scannedBefore_asymm reverse i j
                ((hS i hSi).2 j (List.mem_cons_self j rest)))
      have := ih (fun j => S j ∨ j = h) cs pos hpair.2 hord2 hS2 hinv2
      rw [hset] at this
      rcases this with ⟨hres, hnone⟩ | hres
      · left
        refine ⟨hres, ?_⟩
        intro j hj
        have : (S j ∨ j = h) ∨ j ∈ rest := by
          rcases hj with hj | hj
          · exact Or.inl (Or.inl hj)
          · rcases List.mem_cons.mp hj with h1 | h1
            · exact Or.inl (Or.inr h1)
            · exact Or.inr h1
        exact hnone j this
      · exact Or.inr hres

theorem lookupIndex_smaller_unfold (key : Value) (arr : List Value) (reverse : Bool) :
    lookupIndex key arr (-1) reverse =
      lookupIndex.smaller (lowerValue key) arr (lookupIndex.order arr.length reverse)
        .undefined (.boolean false) := by
  simp only [lookupIndex]
  rw [if_neg (by decide), if_pos trivial]

/-- C32. For every array without `undefined`, every key and either direction of the scan,
`lookupIndex(key, arr, -1, reverse)` returns the first index in the direction of the scan
whose element equals the key when there is one; when no element equals the key it returns
the index of the greatest element below the key under `compare`, the first in the direction
of the scan among equal ones, or `false` when no element is below the key; and its result is
not a number exactly when no element is less than or equal to the key. -/
theorem lookupIndex_exact_or_next_smaller (key : Value) (arr : List Value) (reverse : Bool)
    (hdef : ∀ x ∈ arr, x ≠ .undefined) :
    (∀ i : Nat, i < arr.length → compare (lowerValue key) (jsGet arr (i : Int)) = 0 →
      (∀ j : Nat, j < arr.length → scannedBefore reverse j i →
        compare (lowerValue key) (jsGet arr (j : Int)) ≠ 0) →
      lookupIndex key arr (-1) reverse = .number (i : Int)) ∧
    ((∀ x ∈ arr, compare (lowerValue key) x ≠ 0) →
      (lookupIndex key arr (-1) reverse = .boolean false ∧
          ∀ x ∈ arr, ¬ compare (lowerValue key) x > 0) ∨
        ∃ i : Nat, lookupIndex key arr (-1) reverse = .number (i : Int) ∧
          isClosestSmaller (lowerValue key) arr reverse (fun j => j < arr.length) i) ∧
    (typeOf (lookupIndex key arr (-1) reverse) ≠ .number ↔
      ∀ x ∈ arr, ¬ compare (lowerValue key) x ≥ 0) := by
  have hmem : ∀ x ∈ arr, ∃ j : Nat, j < arr.length ∧ jsGet arr (j : Int) = x := by
    intro x hx
    obtain ⟨j, hj, hjx⟩ := List.getElem_of_mem hx
    exact ⟨j, hj, by rw [jsGet_of_getElem? arr j _ (List.getElem?_eq_getElem hj)]; exact hjx⟩
  rw [lookupIndex_smaller_unfold]
  refine ⟨?_, ?_, ?_⟩
  · intro i hi hzero hfirst
    exact lookupIndex_smaller_found _ arr reverse i hzero _ _ _
      (lookupIndex_order_pairwise arr.length reverse)
      ((lookupIndex_order_mem arr.length reverse i).mpr hi)
      (fun j hj => hfirst j ((lookupIndex_order_mem arr.length reverse j).mp hj))
  · intro habsent
    have hset : (fun j => False ∨ j ∈ lookupIndex.order arr.length reverse) =
        (fun j => j < arr.length) := by
      funext j
      apply propext
      rw [lookupIndex_order_mem]
      simp
    have := lookupIndex_smaller_invariant (lowerValue key) arr reverse hdef
      (lookupIndex.order arr.length reverse) (fun _ => False) .undefined (.boolean false)
      (lookupIndex_order_pairwise arr.length reverse)
      (fun j hj => by
        have hj2 := (lookupIndex_order_mem arr.length reverse j).mp hj
        exact ⟨hj2, habsent _ (jsGet_mem arr (j : Int) (by omega) (by omega))⟩)
      (fun a ha => False.elim ha)
      (Or.inl ⟨rfl, rfl, fun j hj => False.elim hj⟩)
    rw [hset] at this
    rcases this with ⟨hres, hnone⟩ | hres
    · left
      refine ⟨hres, ?_⟩
      intro x hx
      obtain ⟨j, hj, rfl⟩ := hmem x hx
      exact hnone j (Or.inr ((lookupIndex_order_mem arr.length reverse j).mpr hj))
    · exact Or.inr hres
  · constructor
    · intro hnot x hx hge
      obtain ⟨j, hj, rfl⟩ := hmem x hx
      exact hnot (lookupIndex_smaller_number _ arr _ _ _ (fun _ => rfl)
        (Or.inr ⟨j, (lookupIndex_order_mem arr.length reverse j).mpr hj, hge⟩))
    · intro hall
      rw [lookupIndex_smaller_none _ arr _ (fun j hj => by
        have hj2 := (lookupIndex_order_mem arr.length reverse j).mp hj
        have := hall _ (jsGet_mem arr (j : Int) (by omega) (by omega))
        omega)]
      decide

/-- An instance of C32: the key `6` in `[5, 2, 5, 9]`, scanned from the start and from the
end. -/
theorem lookupIndex_exact_or_next_smaller_witness :
    lookupIndex (.number 6) [.number 5, .number 2, .number 5, .number 9] (-1) false =
      .number 0 ∧
    lookupIndex (.number 6) [.number 5, .number 2, .number 5, .number 9] (-1) true =
      .number 2 ∧
    (typeOf (lookupIndex (.number 6) [.number 5, .number 2, .number 5, .number 9] (-1) true) ≠
        .number ↔
      ∀ x ∈ [Value.number 5, .number 2, .number 5, .number 9],
        ¬ compare (lowerValue (.number 6)) x ≥ 0) :=
  ⟨by decide, by decide,
    (lookupIndex_exact_or_next_smaller (.number 6)
      [.number 5, .number 2, .number 5, .number 9] true (by decide)).2.2⟩

/-- The hypothesis of C32 on the array: when the array holds `undefined`, which is no cell
value, the test `typeof closest_smaller === 'undefined'` takes it for "no candidate yet", and
`lookupIndex(null, [undefined, 5], -1, false)` returns the index of `5` although
`undefined` is the greater element below the key `null`. -/
theorem lookupIndex_undefined_element :
    lookupIndex .blank [.undefined, .number 5] (-1) false = .number 1 ∧
    compare (lowerValue .blank) .undefined > 0 ∧
    compare (lowerValue (.number 5)) .undefined < 0 := by
  decide

end Formulajs
